import Mathlib

/-!
Verification development for the blueprint plan pipeline.

This file shallowly embeds the data model and the operations of the
repository (the `Plan` / `Op` data model, `Plan::compute_levels`, the
`PlanOptimizer`, the `PlanValidator`, the approval `Policy`, the `OpCache`,
the `ValueResolver`, the compiled-plan container and the script hashes) as
executable Lean definitions, and proves or refutes the frozen claims about
them.

Conventions used throughout:
* Rust machine integers are embedded as `Nat`/`Int` with explicit
  reductions modulo `2^w` where wrap-around matters.  `i64` arithmetic
  (`+`, `-`, `*`) is embedded with two's-complement wrapping, the release
  overflow semantics that the spec documents ("integer arithmetic wraps
  exactly as two's-complement i64"); `i64` division and remainder panic on
  `i64::MIN / -1` in every build profile, and that panic is embedded
  explicitly.
* Rust `f64` is embedded as its IEEE-754 binary64 bit pattern (a `Nat`),
  with executable arithmetic defined by exact rational computation
  followed by round-to-nearest-even.  NaN results are produced with the
  canonical quiet-NaN bit pattern (hardware NaN payloads are not modelled;
  no theorem below depends on a NaN payload).
* Fallible code returns `Option`/`Except`; Rust panics reachable from the
  embedded code are an explicit result (`FoldOutcome.panic`).
* Stateful code (the caches) is embedded by explicit state passing.
-/

namespace Blueprint

/-! ## Machine integer helpers -/

/-- Two's-complement wrap of an integer into the `i64` range. -/
def wrap64 (x : Int) : Int :=
  (x + 2 ^ 63) % 2 ^ 64 - 2 ^ 63

/-- The `i64` range predicate. -/
def isI64 (x : Int) : Prop :=
  -(2 ^ 63) ≤ x ∧ x < 2 ^ 63

instance (x : Int) : Decidable (isI64 x) := by
  unfold isI64; infer_instance

/-- `i64::MIN`. -/
def i64min : Int := -(2 ^ 63)

/-- `i64::MAX`. -/
def i64max : Int := 2 ^ 63 - 1

/-- Conversion `as usize` of an `i64` value (two's complement reinterpretation,
64-bit targets). -/
def i64AsUsize (x : Int) : Nat :=
  (x % 2 ^ 64).toNat

/-! ## IEEE-754 binary64 (`f64`) model

Rust `f64` values are embedded as their 64-bit IEEE-754 representation.
All operations are executable; arithmetic is defined as the exact rational
result rounded to nearest, ties to even, which is the IEEE-754 (and
hardware) semantics for `+`, `-`, `*`, `/` on binary64. -/

/-- An `f64` value, represented by its IEEE-754 binary64 bit pattern. -/
structure F64 where
  bits : Nat
  deriving DecidableEq, Repr

namespace F64

/-- Sign bit. -/
def sign (x : F64) : Bool := x.bits / 2 ^ 63 % 2 == 1

/-- Biased exponent field (11 bits). -/
def expField (x : F64) : Nat := x.bits / 2 ^ 52 % 2 ^ 11

/-- Fraction field (52 bits). -/
def frac (x : F64) : Nat := x.bits % 2 ^ 52

def isNan (x : F64) : Bool := x.expField == 2047 && x.frac != 0

def isInf (x : F64) : Bool := x.expField == 2047 && x.frac == 0

def isZero (x : F64) : Bool := x.expField == 0 && x.frac == 0

/-- The canonical quiet NaN bit pattern (used for NaN results). -/
def qNan : F64 := ⟨0x7FF8000000000000⟩

/-- Positive and negative zero and infinity. -/
def zero (s : Bool) : F64 := ⟨if s then 2 ^ 63 else 0⟩

def inf (s : Bool) : F64 := ⟨(if s then 2 ^ 63 else 0) + 2047 * 2 ^ 52⟩

/-- Magnitude of a finite `f64` in units of `2^-1074` (the value of a finite
`x` is `(-1)^sign * unitsMag x * 2^-1074`). -/
def unitsMag (x : F64) : Nat :=
  if x.expField = 0 then x.frac else (2 ^ 52 + x.frac) * 2 ^ (x.expField - 1)

/-- Signed value of a finite `f64` in units of `2^-1074`. -/
def units (x : F64) : Int :=
  if x.sign then -(x.unitsMag : Int) else (x.unitsMag : Int)

/-- Base-2 logarithm by fuel-bounded halving (`fuel ≥ n` always
suffices). -/
def natLog2F : Nat → Nat → Nat
  | 0, _ => 0
  | fuel + 1, n => if n ≥ 2 then natLog2F fuel (n / 2) + 1 else 0

/-- Number of bits of a natural number (`0` for `0`). -/
def natBits (n : Nat) : Nat := if n = 0 then 0 else natLog2F n n + 1

/-- Does `n / d ≥ 2^e` (for positive `n`, `d`; `e` may be negative)? -/
def ratGePow2 (n d : Nat) (e : Int) : Bool :=
  if 0 ≤ e then n ≥ d * 2 ^ e.toNat else n * 2 ^ (-e).toNat ≥ d

/-- Round `a / b` to the nearest integer, ties to even (`b > 0`). -/
def roundNatDiv (a b : Nat) : Nat :=
  let q := a / b
  let r := a % b
  if 2 * r > b then q + 1
  else if 2 * r < b then q
  else if q % 2 = 1 then q + 1 else q

/-- Bit pattern (without sign) of the binary64 value nearest to the positive
rational `n / d` (round to nearest, ties to even; overflow gives the
infinity pattern, underflow gives subnormals or zero). -/
def roundPosRat (n d : Nat) : Nat :=
  let e0 : Int := (natBits n : Int) - (natBits d : Int)
  let e : Int := if ratGePow2 n d e0 then e0 else e0 - 1
  if e < -1022 then
    -- subnormal range: fixed scale 2^-1074
    roundNatDiv (n * 2 ^ 1074) d
  else
    let m :=
      if 52 - e ≥ 0 then roundNatDiv (n * 2 ^ (52 - e).toNat) d
      else roundNatDiv n (d * 2 ^ (e - 52).toNat)
    let (m, e) := if m = 2 ^ 53 then (2 ^ 52, e + 1) else (m, e)
    if e > 1023 then 2047 * 2 ^ 52
    else (e + 1023).toNat * 2 ^ 52 + (m - 2 ^ 52)

/-- The binary64 value nearest to `(-1)^s * n / d` (`d > 0`; `n = 0` gives a
zero of sign `s`). -/
def ofRat (s : Bool) (n d : Nat) : F64 :=
  if n = 0 then zero s
  else ⟨(if s then 2 ^ 63 else 0) + roundPosRat n d⟩

/-- `i64 as f64` (round to nearest even; exact for `|i| ≤ 2^53`). -/
def ofInt (i : Int) : F64 := ofRat (i < 0) i.natAbs 1

/-- Flip the sign bit (Rust unary `-` on `f64`). -/
def neg (x : F64) : F64 :=
  ⟨if x.bits < 2 ^ 63 then x.bits + 2 ^ 63 else x.bits - 2 ^ 63⟩

/-- Clear the sign bit (Rust `f64::abs`). -/
def abs (x : F64) : F64 := ⟨x.bits % 2 ^ 63⟩

/-- IEEE-754 addition (round to nearest even). -/
def add (a b : F64) : F64 :=
  if a.isNan || b.isNan then qNan
  else if a.isInf then
    if b.isInf && a.sign != b.sign then qNan else a
  else if b.isInf then b
  else
    let s := a.units + b.units
    if s = 0 then
      if a.isZero && b.isZero then zero (a.sign && b.sign) else zero false
    else ofRat (s < 0) s.natAbs (2 ^ 1074)

/-- IEEE-754 subtraction: `a - b = a + (-b)`. -/
def sub (a b : F64) : F64 := add a (neg b)

/-- IEEE-754 multiplication (round to nearest even). -/
def mul (a b : F64) : F64 :=
  if a.isNan || b.isNan then qNan
  else if a.isInf || b.isInf then
    if a.isZero || b.isZero then qNan else inf (a.sign != b.sign)
  else if a.isZero || b.isZero then zero (a.sign != b.sign)
  else
    let p := a.units * b.units
    ofRat (p < 0) p.natAbs (2 ^ 2148)

/-- IEEE-754 division (round to nearest even). -/
def div (a b : F64) : F64 :=
  if a.isNan || b.isNan then qNan
  else if a.isInf then
    if b.isInf then qNan else inf (a.sign != b.sign)
  else if b.isInf then zero (a.sign != b.sign)
  else if b.isZero then
    if a.isZero then qNan else inf (a.sign != b.sign)
  else if a.isZero then zero (a.sign != b.sign)
  else ofRat (a.sign != b.sign) a.unitsMag b.unitsMag

/-- Comparison value on the extended real line (finite values in `2^-1074`
units, infinities mapped to `±2^3000`); only meaningful for non-NaN. -/
def cmpVal (x : F64) : Int :=
  if x.isInf then (if x.sign then -(2 ^ 3000) else 2 ^ 3000) else x.units

/-- Rust `a == b` on `f64` (IEEE equality: NaN unequal to everything,
`+0 == -0`). -/
def beq (a b : F64) : Bool :=
  !a.isNan && !b.isNan && a.cmpVal == b.cmpVal

/-- Rust `a < b` on `f64` (false when either side is NaN). -/
def blt (a b : F64) : Bool :=
  !a.isNan && !b.isNan && a.cmpVal < b.cmpVal

/-- Rust `a <= b` on `f64` (false when either side is NaN). -/
def ble (a b : F64) : Bool :=
  !a.isNan && !b.isNan && a.cmpVal ≤ b.cmpVal

/-- Rust `f as i64` (truncation toward zero, saturating; NaN gives 0). -/
def toI64 (x : F64) : Int :=
  if x.isNan then 0
  else
    let t : Int :=
      if x.isInf then (if x.sign then i64min - 1 else i64max + 1)
      else
        let m : Int := (x.unitsMag / 2 ^ 1074 : Nat)
        if x.sign then -m else m
    if t < i64min then i64min else if t > i64max then i64max else t

end F64

/-! ## Plan data model

Modelled from the spec: the module `common/src/op.rs` (declaring `OpId`,
`RecordedValue`, `Accessor`, `ValueRef`, `OpKind`, `Op`, `SubPlan` and
their helper methods) is not under `src/`; the types below follow the
spec's §3 data model, with variant fields taken from the exhaustive
pattern matches in `optimizer.rs`, `validator.rs`, `cache.rs`,
`resolver.rs` and the in-repo tests.  `Dict` is a `BTreeMap<String, _>`
(the in-repo tests build dicts from `BTreeMap`), embedded as a
key-sorted association list. -/

/-- `OpId` — opaque dense unsigned (`u64`) integer. -/
abbrev OpId := Nat

/-- Path step: `Field(name)` or `Index(i)` (`i` is an `i64`). -/
inductive Accessor where
  | field (name : String)
  | index (i : Int)
  deriving DecidableEq, Repr

/-- Canonical serializable value sum (`RecordedValue`).  `float` carries the
IEEE-754 bit pattern of the Rust `f64`; `bytes` carries `u8` values;
`dict` is the `BTreeMap<String, RecordedValue>` as an association list. -/
inductive RecordedValue where
  | none
  | bool (b : Bool)
  | int (i : Int)
  | float (f : F64)
  | string (s : String)
  | bytes (bs : List Nat)
  | list (items : List RecordedValue)
  | dict (entries : List (String × RecordedValue))

/-- Plan-level value reference. -/
inductive ValueRef where
  | literal (v : RecordedValue)
  | opOutput (op : OpId) (path : List Accessor)
  | dynamic (name : String)
  | list (items : List ValueRef)

/-- Modelled from the spec: source locations are attached to ops when
available; the exact field layout of `SourceSpan` is not under `src/`. -/
structure SourceSpan where
  start : Nat
  stop : Nat
  deriving DecidableEq, Repr

mutual

/-- The closed tagged union of op kinds (spec §3), variants in the spec's
listing order, operand fields from the exhaustive matches in the sources. -/
inductive OpKind where
  -- arithmetic and comparison
  | add (left right : ValueRef)
  | sub (left right : ValueRef)
  | mul (left right : ValueRef)
  | div (left right : ValueRef)
  | floorDiv (left right : ValueRef)
  | mod (left right : ValueRef)
  | neg (value : ValueRef)
  | abs (value : ValueRef)
  | eq (left right : ValueRef)
  | ne (left right : ValueRef)
  | lt (left right : ValueRef)
  | le (left right : ValueRef)
  | gt (left right : ValueRef)
  | ge (left right : ValueRef)
  | not (value : ValueRef)
  | and (left right : ValueRef)
  | or (left right : ValueRef)
  -- collection
  | concat (left right : ValueRef)
  | len (value : ValueRef)
  | contains (haystack needle : ValueRef)
  | index (base index : ValueRef)
  | min (values : ValueRef)
  | max (values : ValueRef)
  | sum (values start : ValueRef)
  | sorted (values : ValueRef)
  | reversed (values : ValueRef)
  -- coercion
  | toBool (value : ValueRef)
  | toInt (value : ValueRef)
  | toFloat (value : ValueRef)
  | toStr (value : ValueRef)
  -- control
  | ifVal (condition thenValue elseValue : ValueRef)
  | ifBlock (condition : ValueRef) (thenBody : SubPlan) (elseBody : Option SubPlan)
  | forEach (items : ValueRef) (itemName : String) (body : SubPlan) (parallel : Bool)
  | breakOp
  | continueOp
  | after (dependency : OpId) (value : OpId)
  | atLeast (ops : List OpId) (count : Nat)
  | atMost (ops : List OpId) (count : Nat)
  | mapOp (items : ValueRef) (itemName : String) (body : SubPlan)
  | filterOp (items : ValueRef) (itemName : String) (predicate : SubPlan)
  -- codecs
  | jsonEncode (value : ValueRef)
  | jsonDecode (string : ValueRef)
  -- effects
  | print (message : ValueRef)
  | now
  | sleep (seconds : ValueRef)
  | readFile (path : ValueRef)
  | writeFile (path content : ValueRef)
  | appendFile (path content : ValueRef)
  | deleteFile (path : ValueRef)
  | listDir (path : ValueRef)
  | mkdir (path recursive : ValueRef)
  | rmdir (path recursive : ValueRef)
  | copyFile (src dst : ValueRef)
  | moveFile (src dst : ValueRef)
  | fileExists (path : ValueRef)
  | isDir (path : ValueRef)
  | isFile (path : ValueRef)
  | fileSize (path : ValueRef)
  | httpRequest (method url body headers : ValueRef)
  | tcpConnect (host port : ValueRef)
  | tcpSend (handle data : ValueRef)
  | tcpRecv (handle maxBytes : ValueRef)
  | tcpClose (handle : ValueRef)
  | tcpListen (host port : ValueRef)
  | tcpAccept (listener : ValueRef)
  | udpBind (host port : ValueRef)
  | udpSendTo (host port data : ValueRef)
  | udpRecvFrom (handle maxBytes : ValueRef)
  | udpClose (handle : ValueRef)
  | unixConnect (path : ValueRef)
  | unixSend (handle data : ValueRef)
  | unixRecv (handle maxBytes : ValueRef)
  | unixClose (handle : ValueRef)
  | unixListen (path : ValueRef)
  | unixAccept (listener : ValueRef)
  | exec (command args : ValueRef)
  | envGet (name default : ValueRef)

/-- An op: `{ id, kind, inputs, source_location, guard }`.  Modelled from the
spec: the guard marks conditional execution under an enclosing `IfBlock`
(its exact payload type is not under `src/`; a `ValueRef` predicate is
used here). -/
inductive Op where
  | mk (id : OpId) (kind : OpKind) (inputs : List OpId)
       (sourceLocation : Option SourceSpan) (guard : Option ValueRef)

/-- A parameterized inner plan: `{ params, ops, output }`. -/
inductive SubPlan where
  | mk (params : List String) (ops : List Op) (output : OpId)

end

def Op.id : Op → OpId
  | .mk i _ _ _ _ => i

def Op.kind : Op → OpKind
  | .mk _ k _ _ _ => k

def Op.inputs : Op → List OpId
  | .mk _ _ is _ _ => is

def Op.sourceLocation : Op → Option SourceSpan
  | .mk _ _ _ s _ => s

def Op.guard : Op → Option ValueRef
  | .mk _ _ _ _ g => g

/-- Replace the kind of an op, keeping everything else (in-place mutation of
`op.kind` in the Rust sources). -/
def Op.withKind : Op → OpKind → Op
  | .mk i _ is s g, k => .mk i k is s g

def SubPlan.params : SubPlan → List String
  | .mk p _ _ => p

def SubPlan.ops : SubPlan → List Op
  | .mk _ o _ => o

def SubPlan.output : SubPlan → OpId
  | .mk _ _ o => o

/-- `Plan { ops, next_id }` (fields private in Rust; mutated only through
`Plan::add_op` and `Plan::remove_ops`, but arbitrary contents are
reachable through deserialization). -/
structure Plan where
  ops : List Op
  nextId : Nat

/-! ## Value helpers -/

/-- `BTreeMap::get` on the association-list embedding. -/
def dictGet (entries : List (String × RecordedValue)) (k : String) :
    Option RecordedValue :=
  match entries with
  | [] => Option.none
  | (k', v) :: rest => if k' = k then some v else dictGet rest k

/-- `BTreeMap::contains_key`. -/
def dictContains (entries : List (String × RecordedValue)) (k : String) : Bool :=
  (dictGet entries k).isSome

mutual

/-- Rust `PartialEq` on `RecordedValue` (derived structural equality, with
IEEE `f64` equality on floats: NaN unequal to itself, `+0 == -0`). -/
def rvEq : RecordedValue → RecordedValue → Bool
  | .none, .none => true
  | .bool a, .bool b => a == b
  | .int a, .int b => a == b
  | .float a, .float b => F64.beq a b
  | .string a, .string b => a == b
  | .bytes a, .bytes b => a == b
  | .list a, .list b => rvEqList a b
  | .dict a, .dict b => rvEqDict a b
  | _, _ => false

def rvEqList : List RecordedValue → List RecordedValue → Bool
  | [], [] => true
  | a :: as, b :: bs => rvEq a b && rvEqList as bs
  | _, _ => false

def rvEqDict : List (String × RecordedValue) →
    List (String × RecordedValue) → Bool
  | [], [] => true
  | (ka, va) :: as, (kb, vb) :: bs => ka == kb && rvEq va vb && rvEqDict as bs
  | _, _ => false

end

/-- `RecordedValue::as_string` (used by the validator). -/
def RecordedValue.asString : RecordedValue → Option String
  | .string s => some s
  | _ => Option.none

/-- `RecordedValue::as_int`. -/
def RecordedValue.asInt : RecordedValue → Option Int
  | .int i => some i
  | _ => Option.none

/-- `RecordedValue::as_list`. -/
def RecordedValue.asList : RecordedValue → Option (List RecordedValue)
  | .list l => some l
  | _ => Option.none

/-- Dict projection (used to state the resolver claims). -/
def RecordedValue.asDict :
    RecordedValue → Option (List (String × RecordedValue))
  | .dict d => some d
  | _ => Option.none

mutual

/-- All `ValueRef` nodes syntactically contained in a reference (the node
itself and, for `List`, its elements, recursively).  Modelled from the
spec: `collect_value_refs` yields every reference reachable through the
kind's operands ("all OpIds syntactically reachable through the kind's
ValueRefs"); sub-plan bodies use local id namespaces and are not
traversed. -/
def ValueRef.flatten : ValueRef → List ValueRef
  | .list items => .list items :: ValueRef.flattenAll items
  | v => [v]

def ValueRef.flattenAll : List ValueRef → List ValueRef
  | [] => []
  | v :: vs => ValueRef.flatten v ++ ValueRef.flattenAll vs

end

/-- `ValueRef::referenced_op`: the op referenced by an `OpOutput` node. -/
def ValueRef.referencedOp : ValueRef → Option OpId
  | .opOutput op _ => some op
  | _ => Option.none

/-- Modelled from the spec: `ValueRef::is_dynamic` (used by the validator's
dynamic-value warning) — a reference is dynamic when it is not a literal. -/
def ValueRef.isDynamic : ValueRef → Bool
  | .literal _ => false
  | _ => true

/-- Association-list lookup for the optimizer's folded-value table
(`HashMap<OpId, RecordedValue>`). -/
def foldedLookup (folded : List (OpId × RecordedValue)) (op : OpId) :
    Option RecordedValue :=
  match folded with
  | [] => Option.none
  | (o, v) :: rest => if o = op then some v else foldedLookup rest op

mutual

/-- `PlanOptimizer::substitute_ref` applied through
`collect_value_refs_mut`: every `OpOutput { op, path: [] }` node whose op
has a folded value is replaced by the corresponding `Literal`. -/
def substRef (folded : List (OpId × RecordedValue)) : ValueRef → ValueRef
  | .opOutput op path =>
      if path.isEmpty then
        match foldedLookup folded op with
        | some v => .literal v
        | Option.none => .opOutput op path
      else .opOutput op path
  | .list items => .list (substRefAll folded items)
  | v => v

def substRefAll (folded : List (OpId × RecordedValue)) :
    List ValueRef → List ValueRef
  | [] => []
  | v :: vs => substRef folded v :: substRefAll folded vs

end

/-! ## OpKind helper methods

Modelled from the spec where the corresponding `op.rs` methods are not
under `src/` (`collect_value_refs`, `collect_op_refs`, `can_fold`,
`requires_approval`); `has_side_effects` is the `PlanOptimizer` method
from `optimizer.rs`. -/

namespace OpKind

/-- The direct `ValueRef` operands of a kind, in field order. -/
def operandRefs : OpKind → List ValueRef
  | .add l r | .sub l r | .mul l r | .div l r | .floorDiv l r | .mod l r
  | .eq l r | .ne l r | .lt l r | .le l r | .gt l r | .ge l r
  | .and l r | .or l r | .concat l r => [l, r]
  | .neg v | .abs v | .not v | .len v | .sorted v | .reversed v
  | .min v | .max v
  | .toBool v | .toInt v | .toFloat v | .toStr v
  | .jsonEncode v | .jsonDecode v | .print v | .sleep v => [v]
  | .contains h n => [h, n]
  | .index b i => [b, i]
  | .sum v s => [v, s]
  | .ifVal c t e => [c, t, e]
  | .ifBlock c _ _ => [c]
  | .forEach items _ _ _ => [items]
  | .mapOp items _ _ => [items]
  | .filterOp items _ _ => [items]
  | .breakOp | .continueOp | .now => []
  | .after _ _ => []
  | .atLeast _ _ | .atMost _ _ => []
  | .readFile p | .deleteFile p | .listDir p | .fileExists p
  | .isDir p | .isFile p | .fileSize p
  | .unixConnect p | .unixListen p => [p]
  | .writeFile p c | .appendFile p c => [p, c]
  | .mkdir p r | .rmdir p r => [p, r]
  | .copyFile s d | .moveFile s d => [s, d]
  | .httpRequest m u b h => [m, u, b, h]
  | .tcpConnect h p | .tcpListen h p | .udpBind h p => [h, p]
  | .tcpSend h d | .unixSend h d => [h, d]
  | .tcpRecv h m | .udpRecvFrom h m | .unixRecv h m => [h, m]
  | .tcpClose h | .udpClose h | .unixClose h => [h]
  | .tcpAccept l | .unixAccept l => [l]
  | .udpSendTo h p d => [h, p, d]
  | .exec c a => [c, a]
  | .envGet n d => [n, d]

/-- `OpKind::collect_value_refs` (all nodes of all operands). -/
def collectValueRefs (k : OpKind) : List ValueRef :=
  ValueRef.flattenAll k.operandRefs

/-- `OpKind::collect_op_refs`: raw `OpId` references carried by control
kinds. -/
def collectOpRefs : OpKind → List OpId
  | .after dependency value => [dependency, value]
  | .atLeast ops _ | .atMost ops _ => ops
  | _ => []

/-- `PlanOptimizer::has_side_effects` (optimizer.rs): file, network, exec
and env kinds, `Sleep`, `Now` and `Print`. -/
def hasSideEffects : OpKind → Bool
  | .readFile _ | .writeFile _ _ | .appendFile _ _ | .deleteFile _
  | .listDir _ | .mkdir _ _ | .rmdir _ _ | .copyFile _ _ | .moveFile _ _
  | .fileExists _ | .isDir _ | .isFile _ | .fileSize _
  | .httpRequest _ _ _ _
  | .tcpConnect _ _ | .tcpSend _ _ | .tcpRecv _ _ | .tcpClose _
  | .tcpListen _ _ | .tcpAccept _
  | .udpBind _ _ | .udpSendTo _ _ _ | .udpRecvFrom _ _ | .udpClose _
  | .unixConnect _ | .unixSend _ _ | .unixRecv _ _ | .unixClose _
  | .unixListen _ | .unixAccept _
  | .exec _ _ | .envGet _ _
  | .sleep _ | .now | .print _ => true
  | _ => false

/-- Modelled from the spec: `OpKind::can_fold` — "each op whose kind is
pure (arithmetic, comparison, coercion, collection pure ops, pure JSON
codec, pure `If` with literal condition)". -/
def canFold : OpKind → Bool
  | .add _ _ | .sub _ _ | .mul _ _ | .div _ _ | .floorDiv _ _ | .mod _ _
  | .neg _ | .abs _ | .eq _ _ | .ne _ _ | .lt _ _ | .le _ _ | .gt _ _
  | .ge _ _ | .not _ | .and _ _ | .or _ _
  | .concat _ _ | .len _ | .contains _ _ | .index _ _ | .min _ | .max _
  | .sum _ _ | .sorted _ | .reversed _
  | .toBool _ | .toInt _ | .toFloat _ | .toStr _
  | .jsonEncode _ | .jsonDecode _ | .ifVal _ _ _ => true
  | _ => false

/-- Modelled from the spec: `OpKind::requires_approval` — the approval gate
is consulted for the file, network, exec and env kinds (the kinds the
validator maps to policy `Action`s); `Print`/`Sleep`/`Now` do not prompt. -/
def requiresApproval : OpKind → Bool
  | .readFile _ | .writeFile _ _ | .appendFile _ _ | .deleteFile _
  | .listDir _ | .mkdir _ _ | .rmdir _ _ | .copyFile _ _ | .moveFile _ _
  | .fileExists _ | .isDir _ | .isFile _ | .fileSize _
  | .httpRequest _ _ _ _
  | .tcpConnect _ _ | .tcpSend _ _ | .tcpRecv _ _ | .tcpClose _
  | .tcpListen _ _ | .tcpAccept _
  | .udpBind _ _ | .udpSendTo _ _ _ | .udpRecvFrom _ _ | .udpClose _
  | .unixConnect _ | .unixSend _ _ | .unixRecv _ _ | .unixClose _
  | .unixListen _ | .unixAccept _
  | .exec _ _ | .envGet _ _ => true
  | _ => false

/-- Rebuild a kind with a transformation applied to each direct operand
reference (the functional counterpart of iterating
`collect_value_refs_mut` and mutating each node). -/
def mapRefs (f : ValueRef → ValueRef) : OpKind → OpKind
  | .add l r => .add (f l) (f r)
  | .sub l r => .sub (f l) (f r)
  | .mul l r => .mul (f l) (f r)
  | .div l r => .div (f l) (f r)
  | .floorDiv l r => .floorDiv (f l) (f r)
  | .mod l r => .mod (f l) (f r)
  | .neg v => .neg (f v)
  | .abs v => .abs (f v)
  | .eq l r => .eq (f l) (f r)
  | .ne l r => .ne (f l) (f r)
  | .lt l r => .lt (f l) (f r)
  | .le l r => .le (f l) (f r)
  | .gt l r => .gt (f l) (f r)
  | .ge l r => .ge (f l) (f r)
  | .not v => .not (f v)
  | .and l r => .and (f l) (f r)
  | .or l r => .or (f l) (f r)
  | .concat l r => .concat (f l) (f r)
  | .len v => .len (f v)
  | .contains h n => .contains (f h) (f n)
  | .index b i => .index (f b) (f i)
  | .min v => .min (f v)
  | .max v => .max (f v)
  | .sum v s => .sum (f v) (f s)
  | .sorted v => .sorted (f v)
  | .reversed v => .reversed (f v)
  | .toBool v => .toBool (f v)
  | .toInt v => .toInt (f v)
  | .toFloat v => .toFloat (f v)
  | .toStr v => .toStr (f v)
  | .ifVal c t e => .ifVal (f c) (f t) (f e)
  | .ifBlock c tb eb => .ifBlock (f c) tb eb
  | .forEach items n b p => .forEach (f items) n b p
  | .breakOp => .breakOp
  | .continueOp => .continueOp
  | .after d v => .after d v
  | .atLeast ops c => .atLeast ops c
  | .atMost ops c => .atMost ops c
  | .mapOp items n b => .mapOp (f items) n b
  | .filterOp items n b => .filterOp (f items) n b
  | .jsonEncode v => .jsonEncode (f v)
  | .jsonDecode s => .jsonDecode (f s)
  | .print m => .print (f m)
  | .now => .now
  | .sleep s => .sleep (f s)
  | .readFile p => .readFile (f p)
  | .writeFile p c => .writeFile (f p) (f c)
  | .appendFile p c => .appendFile (f p) (f c)
  | .deleteFile p => .deleteFile (f p)
  | .listDir p => .listDir (f p)
  | .mkdir p r => .mkdir (f p) (f r)
  | .rmdir p r => .rmdir (f p) (f r)
  | .copyFile s d => .copyFile (f s) (f d)
  | .moveFile s d => .moveFile (f s) (f d)
  | .fileExists p => .fileExists (f p)
  | .isDir p => .isDir (f p)
  | .isFile p => .isFile (f p)
  | .fileSize p => .fileSize (f p)
  | .httpRequest m u b h => .httpRequest (f m) (f u) (f b) (f h)
  | .tcpConnect h p => .tcpConnect (f h) (f p)
  | .tcpSend h d => .tcpSend (f h) (f d)
  | .tcpRecv h m => .tcpRecv (f h) (f m)
  | .tcpClose h => .tcpClose (f h)
  | .tcpListen h p => .tcpListen (f h) (f p)
  | .tcpAccept l => .tcpAccept (f l)
  | .udpBind h p => .udpBind (f h) (f p)
  | .udpSendTo h p d => .udpSendTo (f h) (f p) (f d)
  | .udpRecvFrom h m => .udpRecvFrom (f h) (f m)
  | .udpClose h => .udpClose (f h)
  | .unixConnect p => .unixConnect (f p)
  | .unixSend h d => .unixSend (f h) (f d)
  | .unixRecv h m => .unixRecv (f h) (f m)
  | .unixClose h => .unixClose (f h)
  | .unixListen p => .unixListen (f p)
  | .unixAccept l => .unixAccept (f l)
  | .exec c a => .exec (f c) (f a)
  | .envGet n d => .envGet (f n) (f d)

end OpKind

/-! ## Plan methods (`common/src/plan.rs`) -/

/-- `Op` with replaced inputs (in-place mutation of `op.inputs`). -/
def Op.withInputs : Op → List OpId → Op
  | .mk i k _ s g, is => .mk i k is s g

/-- `IndexSet` collection of `compute_inputs`: deduplicate, keeping the
first occurrence order. -/
def dedupKeepFirst (l : List OpId) : List OpId :=
  l.foldl (fun acc x => if acc.contains x then acc else acc ++ [x]) []

/-- `Plan::compute_inputs`: every op referenced by the kind's value refs,
then the kind's raw op refs, collected into an `IndexSet`. -/
def computeInputs (kind : OpKind) : List OpId :=
  dedupKeepFirst
    (kind.collectValueRefs.filterMap ValueRef.referencedOp ++ kind.collectOpRefs)

/-- The `After { dependency, value }` injection in `Plan::add_op`: push
`dependency` onto the inputs of the first op whose id is `value`, unless
already present. -/
def injectAfter (dependency value : OpId) : List Op → List Op
  | [] => []
  | op :: rest =>
      if op.id = value then
        (if op.inputs.contains dependency then op
         else op.withInputs (op.inputs ++ [dependency])) :: rest
      else op :: injectAfter dependency value rest

/-- `Plan::add_op`. -/
def Plan.addOp (p : Plan) (kind : OpKind) (loc : Option SourceSpan) :
    Plan × OpId :=
  let id := p.nextId
  let ops :=
    match kind with
    | .after dependency value => injectAfter dependency value p.ops
    | _ => p.ops
  let op : Op := .mk id kind (computeInputs kind) loc Option.none
  (⟨ops ++ [op], p.nextId + 1⟩, id)

/-- `Plan::get_op` (first op with the given id). -/
def Plan.getOp (p : Plan) (id : OpId) : Option Op :=
  p.ops.find? (fun op => op.id == id)

/-- `Plan::remove_ops` (retain ops not matched by the predicate). -/
def Plan.removeOps (p : Plan) (shouldRemove : Op → Bool) : Plan :=
  ⟨p.ops.filter (fun op => !shouldRemove op), p.nextId⟩

/-- `Plan::len`. -/
def Plan.length (p : Plan) : Nat := p.ops.length

/-- `CycleError { ops }`. -/
structure CycleError where
  ops : List OpId
  deriving DecidableEq, Repr

/-! `IndexMap<OpId, usize>` embedded as an association list in first-insertion
order with unique keys. -/

/-- `entry(k).or_insert(d)` (presence only). -/
def imEntryOr (m : List (OpId × Nat)) (k : OpId) (d : Nat) :
    List (OpId × Nat) :=
  if m.any (fun e => e.1 == k) then m else m ++ [(k, d)]

/-- `*entry(k).or_insert(0) += 1`. -/
def imBump (m : List (OpId × Nat)) (k : OpId) : List (OpId × Nat) :=
  (imEntryOr m k 0).map (fun e => if e.1 == k then (e.1, e.2 + 1) else e)

/-- Map lookup. -/
def imGet (m : List (OpId × Nat)) (k : OpId) : Option Nat :=
  (m.find? (fun e => e.1 == k)).map (·.2)

/-- `dependents.entry(input).or_default().push(id)`. -/
def depPush (m : List (OpId × List OpId)) (k : OpId) (v : OpId) :
    List (OpId × List OpId) :=
  if m.any (fun e => e.1 == k) then
    m.map (fun e => if e.1 == k then (e.1, e.2 ++ [v]) else e)
  else m ++ [(k, [v])]

/-- `dependents.get(id)`. -/
def depGet (m : List (OpId × List OpId)) (k : OpId) : Option (List OpId) :=
  (m.find? (fun e => e.1 == k)).map (·.2)

/-- First phase of `compute_levels`: build the in-degree and dependents
maps (`in_degree[op] = number of input occurrences of op`,
`dependents[input]` lists each dependent once per occurrence, in op
order). -/
def buildDegrees (ops : List Op) :
    List (OpId × Nat) × List (OpId × List OpId) :=
  ops.foldl
    (fun (acc : List (OpId × Nat) × List (OpId × List OpId)) op =>
      let acc1 := (imEntryOr acc.1 op.id 0, acc.2)
      op.inputs.foldl
        (fun (acc : List (OpId × Nat) × List (OpId × List OpId)) input =>
          (imBump acc.1 op.id, depPush acc.2 input op.id))
        acc1)
    ([], [])

/-- Decrement of one dependent during Kahn elimination: `*deg -= 1`, with
`deg == 0` afterwards detected as the `1 → 0` transition (a decrement of
an already-zero degree cannot occur on the algorithm's reachable states;
under release overflow semantics it would wrap and not schedule). -/
def kahnDecr (deg : List (OpId × Nat)) (next : List OpId) (dep : OpId) :
    List (OpId × Nat) × List OpId :=
  let v := (imGet deg dep).getD 0
  let deg' := deg.map (fun e => if e.1 == dep then (e.1, e.2 - 1) else e)
  if v == 1 then (deg', next ++ [dep]) else (deg', next)

/-- One pass over a (sorted) level: decrement every dependent of every
processed id, accumulating the ids whose degree reaches zero. -/
def kahnStep (dependents : List (OpId × List OpId))
    (deg : List (OpId × Nat)) (current : List OpId) :
    List (OpId × Nat) × List OpId :=
  current.foldl
    (fun (acc : List (OpId × Nat) × List OpId) id =>
      match depGet dependents id with
      | Option.none => acc
      | some deps => deps.foldl (fun acc dep => kahnDecr acc.1 acc.2 dep) acc)
    (deg, [])

/-- The `while !current_level.is_empty()` loop of `compute_levels`,
fuel-indexed (the fuel passed by `computeLevels` is shown never to run
out).  Returns the accumulated levels, the final degree map and the
number of processed ids. -/
def kahnLoop (dependents : List (OpId × List OpId)) :
    Nat → List (OpId × Nat) → List OpId → List (List OpId) → Nat →
    List (List OpId) × List (OpId × Nat) × Nat
  | 0, deg, _, levels, processed => (levels, deg, processed)
  | fuel + 1, deg, current, levels, processed =>
      if current.isEmpty then (levels, deg, processed)
      else
        let sorted := current.insertionSort (· ≤ ·)
        let levels := levels ++ [sorted]
        let processed := processed + current.length
        let (deg, next) := kahnStep dependents deg sorted
        kahnLoop dependents fuel deg next levels processed

/-- Total degree of the map (used only to size the fuel). -/
def totalDeg (deg : List (OpId × Nat)) : Nat :=
  (deg.map (·.2)).sum

/-- `Plan::compute_levels` (plan.rs): Kahn's algorithm over the materialized
`inputs`, levels sorted by `OpId`; on failure, the `CycleError` lists the
ids with positive residual in-degree in map order. -/
def Plan.computeLevels (p : Plan) : Except CycleError (List (List OpId)) :=
  let built := buildDegrees p.ops
  let deg := built.1
  let dependents := built.2
  let current := (deg.filter (fun e => e.2 == 0)).map (·.1)
  let fin := kahnLoop dependents (totalDeg deg + current.length + 1)
    deg current [] 0
  if fin.2.2 = p.ops.length then .ok fin.1
  else .error ⟨(fin.2.1.filter (fun e => 0 < e.2)).map (·.1)⟩

/-! ## UTF-8 and text helpers -/

/-- UTF-8 encoding of a Unicode scalar value (1–4 bytes). -/
def charUtf8 (c : Char) : List Nat :=
  let v := c.toNat
  if v < 0x80 then [v]
  else if v < 0x800 then [0xC0 + v / 64, 0x80 + v % 64]
  else if v < 0x10000 then
    [0xE0 + v / 4096, 0x80 + v / 64 % 64, 0x80 + v % 64]
  else
    [0xF0 + v / 262144, 0x80 + v / 4096 % 64, 0x80 + v / 64 % 64,
     0x80 + v % 64]

/-- UTF-8 bytes of a string (Rust `str::as_bytes`). -/
def strUtf8 (s : String) : List Nat :=
  s.data.flatMap charUtf8

/-- Separator split over a character list (keeps empty pieces, like Rust
`str::split`). -/
def splitCharList (p : Char → Bool) : List Char → List (List Char)
  | [] => [[]]
  | c :: rest =>
      let r := splitCharList p rest
      if p c then [] :: r
      else
        match r with
        | h :: t => (c :: h) :: t
        | [] => [[c]]

/-- Rust `str::split` on a character predicate. -/
def strSplit (p : Char → Bool) (s : String) : List String :=
  (splitCharList p s.data).map String.mk

/-- Rust `str::contains(&str)`: substring search. -/
def strContains (s sub : String) : Bool :=
  (List.range (s.data.length + 1)).any
    (fun i => sub.data.isPrefixOf (s.data.drop i))

/-- Rust `i64::from_str`: optional sign, one or more ASCII digits, result
in the `i64` range. -/
def parseI64 (s : String) : Option Int :=
  let (sgn, ds) : Bool × List Char :=
    match s.data with
    | '-' :: rest => (true, rest)
    | '+' :: rest => (false, rest)
    | l => (false, l)
  if ds.isEmpty || !ds.all (·.isDigit) then Option.none
  else
    let n : Nat := ds.foldl (fun acc c => acc * 10 + (c.toNat - 48)) 0
    let v : Int := if sgn then -(n : Int) else (n : Int)
    if isI64 v then some v else Option.none

/-- Digits prefix helper for float parsing. -/
def takeDigits (l : List Char) : List Char × List Char :=
  (l.takeWhile (·.isDigit), l.dropWhile (·.isDigit))

/-- Natural number denoted by a digit list. -/
def digitsVal (ds : List Char) : Nat :=
  ds.foldl (fun acc c => acc * 10 + (c.toNat - 48)) 0

/-- Rust `f64::from_str`: optional sign; `inf`/`infinity`/`nan`
(case-insensitive) or a decimal number `digits [. digits] [e[±]digits]` /
`. digits [e[±]digits]`; the value is the decimal correctly rounded to
binary64. -/
def parseF64 (s : String) : Option F64 :=
  let lower := String.mk (s.data.map Char.toLower)
  let (sgn, body) : Bool × List Char :=
    match lower.data with
    | '-' :: rest => (true, rest)
    | '+' :: rest => (false, rest)
    | l => (false, l)
  if body = "inf".data || body = "infinity".data then some (F64.inf sgn)
  else if body = "nan".data then some F64.qNan
  else
    let (intDs, rest) := takeDigits body
    let (fracDs, rest) :=
      match rest with
      | '.' :: r => takeDigits r
      | r => ([], r)
    if intDs.isEmpty && fracDs.isEmpty then Option.none
    else
      let expPart : Option Int :=
        match rest with
        | [] => some 0
        | 'e' :: r =>
            let (esgn, r) : Bool × List Char :=
              match r with
              | '-' :: r' => (true, r')
              | '+' :: r' => (false, r')
              | r' => (false, r')
            let (eds, r) := takeDigits r
            if eds.isEmpty || !r.isEmpty then Option.none
            else some (if esgn then -(digitsVal eds : Int) else (digitsVal eds : Int))
        | _ => Option.none
      match expPart with
      | Option.none => Option.none
      | some e =>
          let n := digitsVal (intDs ++ fracDs)
          let scale : Int := e - fracDs.length
          if scale ≥ 0 then some (F64.ofRat sgn (n * 10 ^ scale.toNat) 1)
          else some (F64.ofRat sgn n (10 ^ (-scale).toNat))

/-- Exact decimal digits of the fractional part `rem / 2^1074` (trailing
zeros trimmed). -/
def fracDecimalDigits (rem : Nat) : String :=
  let digits := toString (rem * 5 ^ 1074)
  let padded :=
    String.mk (List.replicate (1074 - digits.length) '0') ++ digits
  String.mk ((padded.data.reverse.dropWhile (· == '0')).reverse)

/-- Modelled from the spec: textual form of an `f64` (the `Display` code in
`op.rs` is not under `src/`).  Finite values are rendered as their exact
decimal expansion (Rust renders the shortest round-tripping decimal; the
two agree on all values whose shortest form is exact, e.g. all small
integers and fractions with terminating short decimals). -/
def floatDisplay (x : F64) : String :=
  if x.isNan then "NaN"
  else if x.isInf then (if x.sign then "-inf" else "inf")
  else
    let mag := x.unitsMag
    let intPart := mag / 2 ^ 1074
    let rem := mag % 2 ^ 1074
    let base :=
      if rem = 0 then toString intPart
      else toString intPart ++ "." ++ fracDecimalDigits rem
    if x.sign then "-" ++ base else base

/-- Two lowercase hex digits of a byte. -/
def hexByte (b : Nat) : String :=
  let d (n : Nat) : Char :=
    if n < 10 then Char.ofNat (48 + n) else Char.ofNat (87 + n)
  String.mk [d (b / 16 % 16), d (b % 16)]

/-- Comma-space join. -/
def joinComma (l : List String) : String :=
  String.intercalate ", " l

mutual

/-- Modelled from the spec: `Display` for `RecordedValue` (`op.rs` not
under `src/`); mirrors the rendering style of the in-repo
`recorded_value_to_string` (eval.rs). -/
def recordedDisplay : RecordedValue → String
  | .none => "None"
  | .bool b => if b then "True" else "False"
  | .int i => toString i
  | .float f => floatDisplay f
  | .string s => s
  | .bytes bs =>
      "b\x22" ++ String.join (bs.map (fun b =>
        if 32 ≤ b && b < 127 && b ≠ 34 && b ≠ 92 then
          String.mk [Char.ofNat b]
        else "\x5cx" ++ hexByte b)) ++ "\x22"
  | .list items => "[" ++ joinComma (reprList items) ++ "]"
  | .dict entries => "\x7b" ++ joinComma (reprDict entries) ++ "\x7d"

/-- Repr-style rendering (strings quoted) for container elements. -/
def recordedRepr : RecordedValue → String
  | .string s => "\x22" ++ s ++ "\x22"
  | v => recordedDisplay v

def reprList : List RecordedValue → List String
  | [] => []
  | v :: vs => recordedRepr v :: reprList vs

def reprDict : List (String × RecordedValue) → List String
  | [] => []
  | (k, v) :: rest => ("\x22" ++ k ++ "\x22: " ++ recordedRepr v) :: reprDict rest

end

/-! ## JSON codec model

Modelled from the spec: the `serde_json` codec of `RecordedValue`
(`None ↔ null`, `Bool ↔ true/false`, `Int ↔ integral number`,
`Float ↔ number` (non-finite floats print as `null`), `String ↔ string`,
`List ↔ array`, `Dict ↔ object`); the serde implementation in `op.rs` is
not under `src/`. -/

/-- JSON string escaping. -/
def jsonEscape (s : String) : String :=
  String.join (s.data.map (fun c =>
    if c = '\x22' then "\x5c\x22"
    else if c = '\x5c' then "\x5c\x5c"
    else if c = '\n' then "\x5cn"
    else if c = '\t' then "\x5ct"
    else if c = '\r' then "\x5cr"
    else if c.toNat < 32 then "\x5cu00" ++ hexByte c.toNat
    else String.mk [c]))

mutual

def jsonPrint : RecordedValue → String
  | .none => "null"
  | .bool b => if b then "true" else "false"
  | .int i => toString i
  | .float f =>
      if f.isNan || f.isInf then "null"
      else
        let mag := f.unitsMag
        let rem := mag % 2 ^ 1074
        let base :=
          if rem = 0 then toString (mag / 2 ^ 1074) ++ ".0"
          else toString (mag / 2 ^ 1074) ++ "." ++ fracDecimalDigits rem
        if f.sign then "-" ++ base else base
  | .string s => "\x22" ++ jsonEscape s ++ "\x22"
  | .bytes bs => "[" ++ String.intercalate "," (bs.map toString) ++ "]"
  | .list items => "[" ++ String.intercalate "," (jsonPrintList items) ++ "]"
  | .dict entries =>
      "\x7b" ++ String.intercalate "," (jsonPrintDict entries) ++ "\x7d"

def jsonPrintList : List RecordedValue → List String
  | [] => []
  | v :: vs => jsonPrint v :: jsonPrintList vs

def jsonPrintDict : List (String × RecordedValue) → List String
  | [] => []
  | (k, v) :: rest =>
      ("\x22" ++ jsonEscape k ++ "\x22:" ++ jsonPrint v) :: jsonPrintDict rest

end

/-- Sorted insertion into a dict (`BTreeMap::insert`; replaces on equal
key). -/
def dictInsert (k : String) (v : RecordedValue) :
    List (String × RecordedValue) → List (String × RecordedValue)
  | [] => [(k, v)]
  | (k', v') :: rest =>
      if k < k' then (k, v) :: (k', v') :: rest
      else if k = k' then (k, v) :: rest
      else (k', v') :: dictInsert k v rest

/-- Whitespace skip for the JSON parser. -/
def jsonWs (l : List Char) : List Char :=
  l.dropWhile (fun c => c = ' ' || c = '\n' || c = '\t' || c = '\r')

/-- JSON string body parser (after the opening quote). -/
def jsonString (fuel : Nat) (l : List Char) : Option (String × List Char) :=
  match fuel, l with
  | 0, _ => Option.none
  | _, [] => Option.none
  | fuel + 1, c :: rest =>
      if c = '\x22' then some ("", rest)
      else if c = '\x5c' then
        match rest with
        | [] => Option.none
        | e :: rest' =>
            let dec : Option (Char × List Char) :=
              if e = '\x22' then some ('\x22', rest')
              else if e = '\x5c' then some ('\x5c', rest')
              else if e = '/' then some ('/', rest')
              else if e = 'n' then some ('\n', rest')
              else if e = 't' then some ('\t', rest')
              else if e = 'r' then some ('\r', rest')
              else if e = 'b' then some ('\x08', rest')
              else if e = 'f' then some ('\x0c', rest')
              else if e = 'u' then
                match rest' with
                | a :: b :: c' :: d :: rest'' =>
                    let hv (c : Char) : Option Nat :=
                      if c.isDigit then some (c.toNat - 48)
                      else if 'a' ≤ c && c ≤ 'f' then some (c.toNat - 87)
                      else if 'A' ≤ c && c ≤ 'F' then some (c.toNat - 55)
                      else Option.none
                    match hv a, hv b, hv c', hv d with
                    | some x, some y, some z, some w =>
                        some (Char.ofNat (x * 4096 + y * 256 + z * 16 + w), rest'')
                    | _, _, _, _ => Option.none
                | _ => Option.none
              else Option.none
            match dec with
            | some (ch, rest'') =>
                (jsonString fuel rest'').map (fun r => (String.mk [ch] ++ r.1, r.2))
            | Option.none => Option.none
      else
        (jsonString fuel rest).map (fun r => (String.mk [c] ++ r.1, r.2))

/-- JSON number parser: integral numbers inside the `i64` range decode to
`Int`, all others to `Float`. -/
def jsonNumber (l : List Char) : Option (RecordedValue × List Char) :=
  let (sgn, l1) : Bool × List Char :=
    match l with
    | '-' :: rest => (true, rest)
    | _ => (false, l)
  let (intDs, l2) := takeDigits l1
  if intDs.isEmpty then Option.none
  else
    let (fracDs, l3) :=
      match l2 with
      | '.' :: r => takeDigits r
      | _ => ([], l2)
    let hadFrac := !(l2 = l3)
    if hadFrac && fracDs.isEmpty then Option.none
    else
      let afterE : Option (List Char) :=
        match l3 with
        | 'e' :: r => some r
        | 'E' :: r => some r
        | _ => Option.none
      let expPart : Option (List Char × Bool × List Char) :=
        match afterE with
        | Option.none => some ([], false, l3)
        | some r =>
            let (esgn, r') : Bool × List Char :=
              match r with
              | '-' :: r2 => (true, r2)
              | '+' :: r2 => (false, r2)
              | r2 => (false, r2)
            let (eds, r2) := takeDigits r'
            if eds.isEmpty then Option.none else some (eds, esgn, r2)
      match expPart with
      | Option.none => Option.none
      | some (expDs, esgn, l4) =>
        let hadExp := afterE.isSome
        let n := digitsVal (intDs ++ fracDs)
        let e : Int :=
          (if esgn then -(digitsVal expDs : Int) else (digitsVal expDs : Int)) -
            fracDs.length
        if !hadFrac && !hadExp then
          let v : Int := if sgn then -(n : Int) else (n : Int)
          if isI64 v then some (.int v, l4) else
            some (.float (if e ≥ 0 then F64.ofRat sgn (n * 10 ^ e.toNat) 1
              else F64.ofRat sgn n (10 ^ (-e).toNat)), l4)
        else
          some (.float (if e ≥ 0 then F64.ofRat sgn (n * 10 ^ e.toNat) 1
            else F64.ofRat sgn n (10 ^ (-e).toNat)), l4)

mutual

/-- JSON value parser (fuel-indexed recursive descent). -/
def jsonValue (fuel : Nat) (l : List Char) :
    Option (RecordedValue × List Char) :=
  match fuel with
  | 0 => Option.none
  | fuel + 1 =>
      let l := jsonWs l
      match l with
      | [] => Option.none
      | c :: rest =>
          if c = 'n' then
            if rest.take 3 = "ull".data then some (.none, rest.drop 3)
            else Option.none
          else if c = 't' then
            if rest.take 3 = "rue".data then some (.bool true, rest.drop 3)
            else Option.none
          else if c = 'f' then
            if rest.take 4 = "alse".data then some (.bool false, rest.drop 4)
            else Option.none
          else if c = '\x22' then
            (jsonString (rest.length + 1) rest).map (fun r => (.string r.1, r.2))
          else if c = '[' then
            match jsonWs rest with
            | ']' :: rest' => some (.list [], rest')
            | _ => jsonArray fuel rest []
          else if c = '\x7b' then
            match jsonWs rest with
            | '\x7d' :: rest' => some (.dict [], rest')
            | _ => jsonObject fuel rest []
          else jsonNumber l

def jsonArray (fuel : Nat) (l : List Char) (acc : List RecordedValue) :
    Option (RecordedValue × List Char) :=
  match fuel with
  | 0 => Option.none
  | fuel + 1 =>
      match jsonValue fuel l with
      | Option.none => Option.none
      | some (v, rest) =>
          match jsonWs rest with
          | ',' :: rest' => jsonArray fuel rest' (acc ++ [v])
          | ']' :: rest' => some (.list (acc ++ [v]), rest')
          | _ => Option.none

def jsonObject (fuel : Nat) (l : List Char)
    (acc : List (String × RecordedValue)) :
    Option (RecordedValue × List Char) :=
  match fuel with
  | 0 => Option.none
  | fuel + 1 =>
      match jsonWs l with
      | '\x22' :: rest =>
          match jsonString (rest.length + 1) rest with
          | Option.none => Option.none
          | some (k, rest') =>
              match jsonWs rest' with
              | ':' :: rest'' =>
                  match jsonValue fuel rest'' with
                  | Option.none => Option.none
                  | some (v, rest3) =>
                      match jsonWs rest3 with
                      | ',' :: rest4 => jsonObject fuel rest4 (dictInsert k v acc)
                      | '\x7d' :: rest4 => some (.dict (dictInsert k v acc), rest4)
                      | _ => Option.none
              | _ => Option.none
      | _ => Option.none

end

/-- `serde_json::from_str::<RecordedValue>` model: parse one JSON value and
require only whitespace afterwards. -/
def jsonParse (s : String) : Option RecordedValue :=
  match jsonValue (s.data.length + 1) s.data with
  | some (v, rest) => if (jsonWs rest).isEmpty then some v else Option.none
  | Option.none => Option.none

/-! ## Optimizer (`generator/src/optimizer.rs`) -/

/-- Optimization level (`OptLevel` in common/src/lib.rs). -/
inductive OptLevel where
  | none
  | basic
  | aggressive
  deriving DecidableEq, Repr

/-- The optimizer's private numeric intermediate (`enum NumericValue`). -/
inductive NumericValue where
  | int (i : Int)
  | float (f : F64)

/-- Outcome of `evaluate_pure`: a folded value, no fold (`None`), or a Rust
panic (`i64::MIN / -1` overflow in `/` or `%`, which panics in every build
profile). -/
inductive FoldOutcome where
  | folded (v : RecordedValue)
  | noFold
  | panic

/-- `PlanOptimizer::extract_literal`. -/
def extractLiteral : ValueRef → Option RecordedValue
  | .literal v => some v
  | _ => Option.none

/-- `PlanOptimizer::extract_binary_numeric`. -/
def extractBinaryNumeric (left right : ValueRef) :
    Option (NumericValue × NumericValue) := do
  let l ← extractLiteral left
  let r ← extractLiteral right
  let ln ← match l with
    | .int n => some (NumericValue.int n)
    | .float f => some (NumericValue.float f)
    | _ => Option.none
  let rn ← match r with
    | .int n => some (NumericValue.int n)
    | .float f => some (NumericValue.float f)
    | _ => Option.none
  return (ln, rn)

/-- Lift `Option RecordedValue` to a fold outcome. -/
def optFold : Option RecordedValue → FoldOutcome
  | some v => .folded v
  | Option.none => .noFold

/-- Rust `b != 0.0` on `f64` (true for NaN). -/
def f64Ne0 (b : F64) : Bool := !(F64.beq b (F64.zero false))

/-- `PlanOptimizer::find_min`. -/
def findMin (items : List RecordedValue) : Option RecordedValue :=
  if items.isEmpty then Option.none
  else if items.all (fun v => match v with | .int _ => true | _ => false) then
    ((items.filterMap RecordedValue.asInt).min?).map .int
  else if items.all (fun v => match v with | .float _ => true | _ => false) then
    ((items.filterMap (fun v => match v with
        | .float f => some f | _ => Option.none)).foldl
      (fun mn f =>
        match mn with
        | Option.none => some f
        | some m => if F64.blt f m then some f else some m)
      Option.none).map .float
  else Option.none

/-- `PlanOptimizer::find_max`. -/
def findMax (items : List RecordedValue) : Option RecordedValue :=
  if items.isEmpty then Option.none
  else if items.all (fun v => match v with | .int _ => true | _ => false) then
    ((items.filterMap RecordedValue.asInt).max?).map .int
  else if items.all (fun v => match v with | .float _ => true | _ => false) then
    ((items.filterMap (fun v => match v with
        | .float f => some f | _ => Option.none)).foldl
      (fun mx f =>
        match mx with
        | Option.none => some f
        | some m => if F64.blt m f then some f else some m)
      Option.none).map .float
  else Option.none

/-- The `Sum` fold: `sum += n` over the items with wrapping `i64` addition;
any non-int item aborts the fold. -/
def sumInts : List RecordedValue → Int → Option Int
  | [], acc => some acc
  | .int n :: rest, acc => sumInts rest (wrap64 (acc + n))
  | _ :: _, _ => Option.none

/-- List/string index computation `(len as i64 + i) as usize` resp.
`i as usize`. -/
def indexToUsize (len : Nat) (i : Int) : Nat :=
  if i < 0 then i64AsUsize (wrap64 ((len : Int) + i)) else i64AsUsize i

/-- `PlanOptimizer::evaluate_pure` (optimizer.rs lines 66–408). -/
def evaluatePure (kind : OpKind) : FoldOutcome :=
  match kind with
  | .add left right =>
      match extractBinaryNumeric left right with
      | some (.int a, .int b) => .folded (.int (wrap64 (a + b)))
      | some (.float a, .float b) => .folded (.float (F64.add a b))
      | some (.int a, .float b) => .folded (.float (F64.add (F64.ofInt a) b))
      | some (.float a, .int b) => .folded (.float (F64.add a (F64.ofInt b)))
      | Option.none => .noFold
  | .sub left right =>
      match extractBinaryNumeric left right with
      | some (.int a, .int b) => .folded (.int (wrap64 (a - b)))
      | some (.float a, .float b) => .folded (.float (F64.sub a b))
      | some (.int a, .float b) => .folded (.float (F64.sub (F64.ofInt a) b))
      | some (.float a, .int b) => .folded (.float (F64.sub a (F64.ofInt b)))
      | Option.none => .noFold
  | .mul left right =>
      match extractBinaryNumeric left right with
      | some (.int a, .int b) => .folded (.int (wrap64 (a * b)))
      | some (.float a, .float b) => .folded (.float (F64.mul a b))
      | some (.int a, .float b) => .folded (.float (F64.mul (F64.ofInt a) b))
      | some (.float a, .int b) => .folded (.float (F64.mul a (F64.ofInt b)))
      | Option.none => .noFold
  | .div left right =>
      match extractBinaryNumeric left right with
      | some (.int a, .int b) =>
          if b ≠ 0 then .folded (.float (F64.div (F64.ofInt a) (F64.ofInt b)))
          else .noFold
      | some (.float a, .float b) =>
          if f64Ne0 b then .folded (.float (F64.div a b)) else .noFold
      | some (.int a, .float b) =>
          if f64Ne0 b then .folded (.float (F64.div (F64.ofInt a) b))
          else .noFold
      | some (.float a, .int b) =>
          if b ≠ 0 then .folded (.float (F64.div a (F64.ofInt b))) else .noFold
      | Option.none => .noFold
  | .floorDiv left right =>
      match extractBinaryNumeric left right with
      | some (.int a, .int b) =>
          if b ≠ 0 then
            if a = i64min ∧ b = -1 then .panic
            else .folded (.int (Int.tdiv a b))
          else .noFold
      | some _ => .noFold
      | Option.none => .noFold
  | .mod left right =>
      match extractBinaryNumeric left right with
      | some (.int a, .int b) =>
          if b ≠ 0 then
            if a = i64min ∧ b = -1 then .panic
            else .folded (.int (Int.tmod a b))
          else .noFold
      | some _ => .noFold
      | Option.none => .noFold
  | .neg value =>
      match extractLiteral value with
      | some (.int n) => .folded (.int (wrap64 (-n)))
      | some (.float f) => .folded (.float (F64.neg f))
      | _ => .noFold
  | .abs value =>
      match extractLiteral value with
      | some (.int n) => .folded (.int (wrap64 (n.natAbs : Int)))
      | some (.float f) => .folded (.float (F64.abs f))
      | _ => .noFold
  | .eq left right =>
      match extractLiteral left, extractLiteral right with
      | some l, some r => .folded (.bool (rvEq l r))
      | _, _ => .noFold
  | .ne left right =>
      match extractLiteral left, extractLiteral right with
      | some l, some r => .folded (.bool (!rvEq l r))
      | _, _ => .noFold
  | .lt left right =>
      match extractBinaryNumeric left right with
      | some (.int a, .int b) => .folded (.bool (a < b))
      | some (.float a, .float b) => .folded (.bool (F64.blt a b))
      | some (.int a, .float b) => .folded (.bool (F64.blt (F64.ofInt a) b))
      | some (.float a, .int b) => .folded (.bool (F64.blt a (F64.ofInt b)))
      | Option.none => .noFold
  | .le left right =>
      match extractBinaryNumeric left right with
      | some (.int a, .int b) => .folded (.bool (a ≤ b))
      | some (.float a, .float b) => .folded (.bool (F64.ble a b))
      | some (.int a, .float b) => .folded (.bool (F64.ble (F64.ofInt a) b))
      | some (.float a, .int b) => .folded (.bool (F64.ble a (F64.ofInt b)))
      | Option.none => .noFold
  | .gt left right =>
      match extractBinaryNumeric left right with
      | some (.int a, .int b) => .folded (.bool (b < a))
      | some (.float a, .float b) => .folded (.bool (F64.blt b a))
      | some (.int a, .float b) => .folded (.bool (F64.blt b (F64.ofInt a)))
      | some (.float a, .int b) => .folded (.bool (F64.blt (F64.ofInt b) a))
      | Option.none => .noFold
  | .ge left right =>
      match extractBinaryNumeric left right with
      | some (.int a, .int b) => .folded (.bool (b ≤ a))
      | some (.float a, .float b) => .folded (.bool (F64.ble b a))
      | some (.int a, .float b) => .folded (.bool (F64.ble b (F64.ofInt a)))
      | some (.float a, .int b) => .folded (.bool (F64.ble (F64.ofInt b) a))
      | Option.none => .noFold
  | .not value =>
      match extractLiteral value with
      | some (.bool b) => .folded (.bool (!b))
      | _ => .noFold
  | .concat left right =>
      match extractLiteral left, extractLiteral right with
      | some (.string a), some (.string b) => .folded (.string (a ++ b))
      | some (.list a), some (.list b) => .folded (.list (a ++ b))
      | some _, some _ => .noFold
      | _, _ => .noFold
  | .len value =>
      match extractLiteral value with
      | some (.string s) => .folded (.int (wrap64 ((strUtf8 s).length)))
      | some (.list l) => .folded (.int (wrap64 (l.length : Int)))
      | some (.dict d) => .folded (.int (wrap64 (d.length : Int)))
      | some (.bytes b) => .folded (.int (wrap64 (b.length : Int)))
      | _ => .noFold
  | .contains haystack needle =>
      match extractLiteral haystack, extractLiteral needle with
      | some (.string s), some (.string sub) => .folded (.bool (strContains s sub))
      | some (.list l), some v => .folded (.bool (l.any (rvEq · v)))
      | some (.dict d), some (.string key) => .folded (.bool (dictContains d key))
      | some _, some _ => .noFold
      | _, _ => .noFold
  | .toBool value =>
      match extractLiteral value with
      | some (.none) => .folded (.bool false)
      | some (.bool b) => .folded (.bool b)
      | some (.int n) => .folded (.bool (n ≠ 0))
      | some (.float f) => .folded (.bool (f64Ne0 f))
      | some (.string s) => .folded (.bool (!s.isEmpty))
      | some (.bytes b) => .folded (.bool (!b.isEmpty))
      | some (.list l) => .folded (.bool (!l.isEmpty))
      | some (.dict d) => .folded (.bool (!d.isEmpty))
      | Option.none => .noFold
  | .toInt value =>
      match extractLiteral value with
      | some (.int n) => .folded (.int n)
      | some (.float f) => .folded (.int (F64.toI64 f))
      | some (.bool b) => .folded (.int (if b then 1 else 0))
      | some (.string s) => optFold ((parseI64 s).map .int)
      | _ => .noFold
  | .toFloat value =>
      match extractLiteral value with
      | some (.int n) => .folded (.float (F64.ofInt n))
      | some (.float f) => .folded (.float f)
      | some (.bool b) =>
          .folded (.float (if b then F64.ofInt 1 else F64.ofInt 0))
      | some (.string s) => optFold ((parseF64 s).map .float)
      | _ => .noFold
  | .toStr value =>
      match extractLiteral value with
      | some v => .folded (.string (recordedDisplay v))
      | Option.none => .noFold
  | .jsonEncode value =>
      match extractLiteral value with
      | some v => .folded (.string (jsonPrint v))
      | Option.none => .noFold
  | .jsonDecode string =>
      match extractLiteral string with
      | some (.string s) => optFold (jsonParse s)
      | some _ => .noFold
      | Option.none => .noFold
  | .ifVal condition thenValue elseValue =>
      match extractLiteral condition with
      | some (.bool b) =>
          if b then optFold (extractLiteral thenValue)
          else optFold (extractLiteral elseValue)
      | some _ => .noFold
      | Option.none => .noFold
  | .index base index =>
      match extractLiteral base, extractLiteral index with
      | some (.list l), some (.int i) =>
          optFold (l.get? (indexToUsize l.length i))
      | some (.dict d), some (.string k) => optFold (dictGet d k)
      | some (.string s), some (.int i) =>
          optFold ((s.data.get? (indexToUsize s.data.length i)).map
            (fun c => .string (String.mk [c])))
      | some _, some _ => .noFold
      | _, _ => .noFold
  | .min values =>
      match extractLiteral values with
      | some (.list items) => optFold (findMin items)
      | some _ => .noFold
      | Option.none => .noFold
  | .max values =>
      match extractLiteral values with
      | some (.list items) => optFold (findMax items)
      | some _ => .noFold
      | Option.none => .noFold
  | .sum values start =>
      match extractLiteral values, extractLiteral start with
      | some (.list items), some (.int s) =>
          optFold ((sumInts items s).map .int)
      | some _, some _ => .noFold
      | _, _ => .noFold
  | .sorted values =>
      match extractLiteral values with
      | some (.list items) =>
          if items.all (fun v => match v with | .int _ => true | _ => false) then
            .folded (.list
              (((items.filterMap RecordedValue.asInt).insertionSort (· ≤ ·)).map .int))
          else if items.all (fun v => match v with
              | .string _ => true | _ => false) then
            .folded (.list
              (((items.filterMap RecordedValue.asString).insertionSort
                (· ≤ ·)).map .string))
          else .noFold
      | some _ => .noFold
      | Option.none => .noFold
  | .reversed values =>
      match extractLiteral values with
      | some (.list items) => .folded (.list items.reverse)
      | some (.string s) => .folded (.string (String.mk s.data.reverse))
      | _ => .noFold
  | _ => .noFold

/-- One `for op in plan.ops_mut()` pass of `constant_fold`: substitute
already-folded references into each kind, then record a new folded value
for ops not yet folded whose (substituted) kind can fold.  `Option.none`
is a propagated panic. -/
def foldPass (ops : List Op) (folded : List (OpId × RecordedValue))
    (changed : Bool) :
    Option (List Op × List (OpId × RecordedValue) × Bool) :=
  match ops with
  | [] => some ([], folded, changed)
  | op :: rest =>
      let op' := op.withKind (op.kind.mapRefs (substRef folded))
      let step : Option (List (OpId × RecordedValue) × Bool) :=
        if (foldedLookup folded op.id).isNone && op'.kind.canFold then
          match evaluatePure op'.kind with
          | .panic => Option.none
          | .folded v => some (folded ++ [(op.id, v)], true)
          | .noFold => some (folded, changed)
        else some (folded, changed)
      match step with
      | Option.none => Option.none
      | some (folded', changed') =>
          (foldPass rest folded' changed').map
            (fun r => (op' :: r.1, r.2.1, r.2.2))

/-- The `loop { ... if !changed { break } }` of `constant_fold`,
fuel-indexed (each pass that continues strictly grows the folded table, so
`|ops| + 1` passes always suffice). -/
def foldLoop : Nat → List Op → List (OpId × RecordedValue) →
    Option (List Op × List (OpId × RecordedValue))
  | 0, ops, folded => some (ops, folded)
  | fuel + 1, ops, folded =>
      match foldPass ops folded false with
      | Option.none => Option.none
      | some (ops', folded', changed) =>
          if changed then foldLoop fuel ops' folded' else some (ops', folded')

/-- `PlanOptimizer::constant_fold` (including `remove_folded_ops`);
`Option.none` is a propagated fold panic. -/
def constantFold (p : Plan) : Option Plan :=
  (foldLoop (p.ops.length + 1) p.ops []).map fun r =>
    Plan.removeOps ⟨r.1, p.nextId⟩ (fun op => (foldedLookup r.2 op.id).isSome)

/-- Seed of `dead_code_eliminate`: ids of all side-effecting ops. -/
def dceSeed (ops : List Op) : List OpId :=
  (ops.filter (fun op => op.kind.hasSideEffects)).map Op.id

/-- One pass of the liveness propagation loop: for each live op, mark its
explicit inputs and its value-ref dependencies live. -/
def dcePass (ops : List Op) (used : List OpId) : List OpId × Bool :=
  ops.foldl
    (fun (acc : List OpId × Bool) op =>
      if acc.1.contains op.id then
        let addOne (acc : List OpId × Bool) (i : OpId) : List OpId × Bool :=
          if acc.1.contains i then acc else (acc.1 ++ [i], true)
        let acc := op.inputs.foldl addOne acc
        (op.kind.collectValueRefs.filterMap ValueRef.referencedOp).foldl
          addOne acc
      else acc)
    (used, false)

/-- The mark-one-id step of `dcePass`, named for reasoning. -/
def dceAdd (acc : List OpId × Bool) (i : OpId) : List OpId × Bool :=
  if acc.1.contains i then acc else (acc.1 ++ [i], true)

/-- The per-op step of `dcePass`, named for reasoning. -/
def dceStep (acc : List OpId × Bool) (op : Op) : List OpId × Bool :=
  if acc.1.contains op.id then
    (op.kind.collectValueRefs.filterMap ValueRef.referencedOp).foldl dceAdd
      (op.inputs.foldl dceAdd acc)
  else acc

/-- The liveness fixpoint loop, fuel-indexed. -/
def dceLoop : Nat → List Op → List OpId → List OpId
  | 0, _, used => used
  | fuel + 1, ops, used =>
      let r := dcePass ops used
      if r.2 then dceLoop fuel ops r.1 else r.1

/-- `PlanOptimizer::dead_code_eliminate`. -/
def deadCodeEliminate (p : Plan) : Plan :=
  let used := dceLoop (2 * p.ops.length + 1) p.ops (dceSeed p.ops)
  p.removeOps (fun op => !used.contains op.id)

/-- `PlanOptimizer::optimize`; `Option.none` is a propagated fold panic. -/
def optimize (level : OptLevel) (p : Plan) : Option Plan :=
  match level with
  | .none => some p
  | .basic => constantFold p
  | .aggressive => (constantFold p).map deadCodeEliminate

/-! ## SHA-256 (the `sha2` crate as used by the hash helpers) -/

/-- 32-bit right rotation. -/
def rotr32 (x k : Nat) : Nat :=
  (x / 2 ^ k + x % 2 ^ k * 2 ^ (32 - k)) % 2 ^ 32

/-- SHA-256 round constants. -/
def sha256K : List Nat :=
  [1116352408, 1899447441, 3049323471, 3921009573,
   961987163, 1508970993, 2453635748, 2870763221,
   3624381080, 310598401, 607225278, 1426881987,
   1925078388, 2162078206, 2614888103, 3248222580,
   3835390401, 4022224774, 264347078, 604807628,
   770255983, 1249150122, 1555081692, 1996064986,
   2554220882, 2821834349, 2952996808, 3210313671,
   3336571891, 3584528711, 113926993, 338241895,
   666307205, 773529912, 1294757372, 1396182291,
   1695183700, 1986661051, 2177026350, 2456956037,
   2730485921, 2820302411, 3259730800, 3345764771,
   3516065817, 3600352804, 4094571909, 275423344,
   430227734, 506948616, 659060556, 883997877,
   958139571, 1322822218, 1537002063, 1747873779,
   1955562222, 2024104815, 2227730452, 2361852424,
   2428436474, 2756734187, 3204031479, 3329325298]

/-- SHA-256 initial hash state. -/
def sha256H0 : List Nat :=
  [1779033703, 3144134277, 1013904242, 2773480762,
   1359893119, 2600822924, 528734635, 1541459225]

/-- Big-endian 32-bit words from bytes (length a multiple of 4). -/
def bytesToWordsBE : List Nat → List Nat
  | a :: b :: c :: d :: rest =>
      (a * 2 ^ 24 + b * 2 ^ 16 + c * 2 ^ 8 + d) :: bytesToWordsBE rest
  | _ => []

/-- SHA-256 message padding: `0x80`, zeros, 64-bit big-endian bit length. -/
def sha256Pad (msg : List Nat) : List Nat :=
  let bitLen := msg.length * 8
  let padZeros := (55 + 64 - msg.length % 64) % 64
  msg ++ [0x80] ++ List.replicate padZeros 0 ++
    (List.range 8).map (fun i => bitLen / 2 ^ (8 * (7 - i)) % 2 ^ 8)

/-- Message-schedule extension from 16 to 64 words. -/
def sha256Extend (w : List Nat) : Nat → List Nat
  | 0 => w
  | n + 1 =>
      let w := sha256Extend w n
      let i := w.length
      let w15 := w.getD (i - 15) 0
      let w2 := w.getD (i - 2) 0
      let s0 := rotr32 w15 7 ^^^ rotr32 w15 18 ^^^ w15 / 2 ^ 3
      let s1 := rotr32 w2 17 ^^^ rotr32 w2 19 ^^^ w2 / 2 ^ 10
      w ++ [(w.getD (i - 16) 0 + s0 + w.getD (i - 7) 0 + s1) % 2 ^ 32]

/-- The 64 compression rounds. -/
def sha256Rounds (w : List Nat) :
    Nat → Nat × Nat × Nat × Nat × Nat × Nat × Nat × Nat →
    Nat × Nat × Nat × Nat × Nat × Nat × Nat × Nat
  | 0, st => st
  | n + 1, st =>
      let (a, b, c, d, e, f, g, h) := st
      let i := 64 - (n + 1)
      let s1 := rotr32 e 6 ^^^ rotr32 e 11 ^^^ rotr32 e 25
      let ch := (e &&& f) ^^^ ((2 ^ 32 - 1 - e) &&& g)
      let t1 := (h + s1 + ch + sha256K.getD i 0 + w.getD i 0) % 2 ^ 32
      let s0 := rotr32 a 2 ^^^ rotr32 a 13 ^^^ rotr32 a 22
      let mj := (a &&& b) ^^^ (a &&& c) ^^^ (b &&& c)
      let t2 := (s0 + mj) % 2 ^ 32
      sha256Rounds w n
        ((t1 + t2) % 2 ^ 32, a, b, c, (d + t1) % 2 ^ 32, e, f, g)

/-- Compress one 64-byte block into the running state. -/
def sha256Compress (h : List Nat) (block : List Nat) : List Nat :=
  let w := sha256Extend (bytesToWordsBE block) 48
  let (a, b, c, d, e, f, g, h8) :=
    sha256Rounds w 64
      (h.getD 0 0, h.getD 1 0, h.getD 2 0, h.getD 3 0,
       h.getD 4 0, h.getD 5 0, h.getD 6 0, h.getD 7 0)
  [(h.getD 0 0 + a) % 2 ^ 32, (h.getD 1 0 + b) % 2 ^ 32,
   (h.getD 2 0 + c) % 2 ^ 32, (h.getD 3 0 + d) % 2 ^ 32,
   (h.getD 4 0 + e) % 2 ^ 32, (h.getD 5 0 + f) % 2 ^ 32,
   (h.getD 6 0 + g) % 2 ^ 32, (h.getD 7 0 + h8) % 2 ^ 32]

/-- Fold the padded message block by block (the fuel, one unit per block,
is sized by the caller so that it cannot run out). -/
def sha256Blocks : Nat → List Nat → List Nat → List Nat
  | 0, h, _ => h
  | fuel + 1, h, bytes =>
      if bytes.length < 64 then h
      else sha256Blocks fuel (sha256Compress h (bytes.take 64)) (bytes.drop 64)

/-- SHA-256 digest (32 bytes) of a byte string. -/
def sha256 (msg : List Nat) : List Nat :=
  (sha256Blocks (sha256Pad msg).length sha256H0 (sha256Pad msg)).flatMap
    (fun word => (List.range 4).map (fun i => word / 2 ^ (8 * (3 - i)) % 2 ^ 8))

/-- Lowercase hex of a byte string (`format!("{:x}", digest)`). -/
def bytesToHex (bs : List Nat) : String :=
  String.join (bs.map hexByte)

/-- SHA-256 lowercase-hex digest of a string's UTF-8 bytes. -/
def sha256Hex (s : String) : String :=
  bytesToHex (sha256 (strUtf8 s))

/-! ## Script hashes (`common/src/compiled.rs`, `storage/src/manager.rs`,
`generator/src/generator.rs`) -/

/-- `PLAN_SCHEMA_VERSION` (common/src/lib.rs). -/
def PLAN_SCHEMA_VERSION : Nat := 5

/-- `compute_source_hash` (compiled.rs): SHA-256 hex of the source bytes. -/
def computeSourceHash (source : String) : String :=
  sha256Hex source

namespace StateManager

/-- `StateManager::compute_content_hash` (manager.rs): the raw content
hash, without schema version. -/
def computeContentHash (content : String) : String :=
  sha256Hex content

/-- `StateManager::compute_script_hash` (manager.rs):
`format!("v{}:{}", PLAN_SCHEMA_VERSION, content_hash)`. -/
def computeScriptHash (content : String) : String :=
  "v" ++ toString PLAN_SCHEMA_VERSION ++ ":" ++ computeContentHash content

end StateManager

namespace SchemaCache

/-- `SchemaCache::compute_hash` (generator.rs): wraps
`StateManager::compute_script_hash` in `format!("v{}:{}", ...)` again. -/
def computeHash (content : String) : String :=
  "v" ++ toString PLAN_SCHEMA_VERSION ++ ":" ++
    StateManager.computeScriptHash content

end SchemaCache

/-! ## Op cache (`interpreter/src/cache.rs`)

The two `moka` cache layers are embedded as association maps (the claims
concern the immediate effect of `insert`/`invalidate`/`get`; capacity and
TTL eviction are time-dependent behaviour of the external crate and are
not modelled). -/

/-- `CachedResult { value, input_hash }`. -/
structure CachedResult where
  value : RecordedValue
  inputHash : Nat

/-- `OpCache`: keyed layer `(OpId, u64) → RecordedValue` and latest layer
`OpId → RecordedValue`. -/
structure OpCache where
  cache : List ((OpId × Nat) × RecordedValue)
  valueCache : List (OpId × RecordedValue)

namespace OpCache

/-- The freshly built empty cache (`OpCache::new`). -/
def new : OpCache := ⟨[], []⟩

/-- Keyed-layer lookup helper. -/
def keyedGet (m : List ((OpId × Nat) × RecordedValue)) (k : OpId × Nat) :
    Option RecordedValue :=
  (m.find? (fun e => e.1.1 == k.1 && e.1.2 == k.2)).map (·.2)

/-- Latest-layer lookup helper. -/
def latestGet (m : List (OpId × RecordedValue)) (k : OpId) :
    Option RecordedValue :=
  (m.find? (fun e => e.1 == k)).map (·.2)

/-- `OpCache::get`. -/
def get (c : OpCache) (opId : OpId) (inputHash : Nat) : Option CachedResult :=
  (keyedGet c.cache (opId, inputHash)).map (fun v => ⟨v, inputHash⟩)

/-- `OpCache::get_value`. -/
def getValue (c : OpCache) (opId : OpId) : Option RecordedValue :=
  latestGet c.valueCache opId

/-- `OpCache::insert`: populate both layers (overwriting existing
entries). -/
def insert (c : OpCache) (opId : OpId) (value : RecordedValue)
    (inputHash : Nat) : OpCache :=
  ⟨((opId, inputHash), value) ::
      c.cache.filter (fun e => !(e.1.1 == opId && e.1.2 == inputHash)),
   (opId, value) :: c.valueCache.filter (fun e => !(e.1 == opId))⟩

/-- `OpCache::invalidate`: remove only the latest-layer entry. -/
def invalidate (c : OpCache) (opId : OpId) : OpCache :=
  ⟨c.cache, c.valueCache.filter (fun e => !(e.1 == opId))⟩

/-- `OpCache::clear`. -/
def clear (_ : OpCache) : OpCache := ⟨[], []⟩

end OpCache

/-! ## Value resolver (`interpreter/src/resolver.rs`) -/

/-- `ValueResolver` borrowed state: the cache plus optional sub-plan
parameter bindings and local results. -/
structure ValueResolver where
  cache : OpCache
  params : Option (List (String × RecordedValue))
  localResults : Option (List (OpId × RecordedValue))

namespace ValueResolver

/-- `ValueResolver::resolve_path`: apply each accessor in turn;
`Field` on a dict looks up the key, `Index` on a list computes
`(len as i64 + index) as usize` for negative indices (`index as usize`
otherwise) and bounds-checks with `get`; every other combination is
`None`. -/
def resolvePath (base : RecordedValue) : List Accessor → Option RecordedValue
  | [] => some base
  | .field f :: rest =>
      match base with
      | .dict d =>
          match dictGet d f with
          | some v => resolvePath v rest
          | Option.none => Option.none
      | _ => Option.none
  | .index i :: rest =>
      match base with
      | .list l =>
          match l.get? (indexToUsize l.length i) with
          | some v => resolvePath v rest
          | Option.none => Option.none
      | _ => Option.none

mutual

/-- `ValueResolver::resolve`. -/
def resolve (r : ValueResolver) : ValueRef → Option RecordedValue
  | .literal v => some v
  | .opOutput op path =>
      let base :=
        match r.localResults with
        | some lr =>
            match foldedLookup lr op with
            | some v => some v
            | Option.none => r.cache.getValue op
        | Option.none => r.cache.getValue op
      match base with
      | some b => resolvePath b path
      | Option.none => Option.none
  | .dynamic name =>
      match r.params with
      | some ps =>
          (ps.find? (fun e => e.1 == name)).map (·.2)
      | Option.none => Option.none
  | .list items => (resolveAll r items).map .list

def resolveAll (r : ValueResolver) : List ValueRef →
    Option (List RecordedValue)
  | [] => some []
  | v :: vs =>
      match resolve r v with
      | some rv => (resolveAll r vs).map (rv :: ·)
      | Option.none => Option.none

end

end ValueResolver

/-! ## Glob patterns (the `glob` crate's `Pattern`, as used by the policy)

Model of `glob::Pattern::new` / `Pattern::matches` under the default
`MatchOptions` (`case_sensitive = true`, `require_literal_separator =
false`, `require_literal_leading_dot = false`), which is what
`Pattern::matches` uses.  The path separator is `/`. -/

/-- A character-class entry: a single character or a range. -/
inductive CharSpec where
  | single (c : Char)
  | range (lo hi : Char)
  deriving DecidableEq, Repr

/-- Pattern tokens. -/
inductive GlobToken where
  | char (c : Char)
  | anyChar
  | anySeq
  | anyRecSeq
  | anyWithin (specs : List CharSpec)
  | anyExcept (specs : List CharSpec)
  deriving DecidableEq, Repr

/-- `parse_char_specifiers`: `a-b` ranges when a `-` has characters on both
sides, single characters otherwise. -/
def parseCharSpecs : List Char → List CharSpec
  | a :: '-' :: b :: rest => .range a b :: parseCharSpecs rest
  | a :: rest => .single a :: parseCharSpecs rest
  | [] => []

/-- `in_char_specifiers` (case-sensitive). -/
def inCharSpecs (specs : List CharSpec) (c : Char) : Bool :=
  specs.any fun s =>
    match s with
    | .single c2 => c == c2
    | .range lo hi => lo ≤ c && c ≤ hi

/-- `Pattern::new`: `Option.none` is a `PatternError` (more than two
consecutive `*`, a `**` that is not its own path component, or an
unclosed `[` class).  `prevIsSep` is true at the pattern start and after
a path separator. -/
def globNewAux : Nat → List Char → Bool → List GlobToken →
    Option (List GlobToken)
  | _, [], _, tokens => some tokens
  | 0, _ :: _, _, _ => Option.none
  | fuel + 1, '?' :: rest, _, tokens =>
      globNewAux fuel rest false (tokens ++ [.anyChar])
  | fuel + 1, '*' :: rest, prevIsSep, tokens =>
      let starCount := 1 + (rest.takeWhile (· == '*')).length
      let rest' := rest.dropWhile (· == '*')
      if starCount > 2 then Option.none
      else if starCount = 2 then
        if prevIsSep then
          let push (ts : List GlobToken) : List GlobToken :=
            if ts.length > 1 && ts.getLast? == some .anyRecSeq then ts
            else ts ++ [.anyRecSeq]
          match rest' with
          | '/' :: rest'' => globNewAux fuel rest'' true (push tokens)
          | [] => some (push tokens)
          | _ => Option.none
        else Option.none
      else globNewAux fuel rest' false (tokens ++ [.anySeq])
  | fuel + 1, '[' :: rest, _, tokens =>
      match rest with
      | '!' :: body =>
          match (body.drop 1).findIdx? (· == ']') with
          | some j =>
              let specs := parseCharSpecs (body.take (j + 1))
              globNewAux fuel (body.drop (j + 2)) false
                (tokens ++ [.anyExcept specs])
          | Option.none => Option.none
      | _ =>
          match (rest.drop 1).findIdx? (· == ']') with
          | some j =>
              let specs := parseCharSpecs (rest.take (j + 1))
              globNewAux fuel (rest.drop (j + 2)) false
                (tokens ++ [.anyWithin specs])
          | Option.none => Option.none
  | fuel + 1, c :: rest, _, tokens =>
      globNewAux fuel rest (c == '/') (tokens ++ [.char c])

/-- `Pattern::new` over a pattern string. -/
def globNew (pattern : String) : Option (List GlobToken) :=
  globNewAux (pattern.data.length + 1) pattern.data true []

/-- The three-valued result of `matches_from`. -/
inductive GlobResult where
  | ok
  | subFail
  | entireFail
  deriving DecidableEq, Repr

mutual

/-- `Pattern::matches_from` under default options (the separator-literal
and leading-dot restrictions are disabled by the defaults; an
`AnyRecursiveSequence` still only retries after consuming a separator).
The fuel decreases on every call; the recursion strictly decreases the
pair (remaining tokens, remaining file characters), so the caller's fuel
`(tokens + 1) * (file + 2)` can never run out. -/
def matchFrom : Nat → List GlobToken → List Char → Bool → GlobResult
  | 0, _, _, _ => .entireFail
  | fuel + 1, ts, file, followsSep =>
      match ts, file with
      | [], file => if file.isEmpty then .ok else .subFail
      | .anySeq :: rest, file =>
          (match matchFrom fuel rest file followsSep with
           | .subFail => starLoop fuel false rest file
           | m => m)
      | .anyRecSeq :: rest, file =>
          (match matchFrom fuel rest file followsSep with
           | .subFail => starLoop fuel true rest file
           | m => m)
      | tok :: rest, file =>
          match file with
          | [] => .entireFail
          | c :: file' =>
              let okc :=
                match tok with
                | .char c2 => c == c2
                | .anyChar => true
                | .anyWithin specs => inCharSpecs specs c
                | .anyExcept specs => !inCharSpecs specs c
                | _ => false
              if okc then matchFrom fuel rest file' (c == '/') else .subFail

/-- The `while let Some(c) = file.next()` loop of a star token
(`isRec = true` for `**`); when the file is exhausted, control continues
with the remaining tokens on the empty file. -/
def starLoop : Nat → Bool → List GlobToken → List Char → GlobResult
  | 0, _, _, _ => .entireFail
  | fuel + 1, isRec, rest, file =>
      match file with
      | [] => matchFrom fuel rest [] true
      | c :: file' =>
          let isSep := c == '/'
          if isRec && !isSep then starLoop fuel isRec rest file'
          else
            match matchFrom fuel rest file' isSep with
            | .subFail => starLoop fuel isRec rest file'
            | m => m

end

/-- `Pattern::matches` (default options, initial `follows_separator =
true`). -/
def globTokensMatch (tokens : List GlobToken) (value : String) : Bool :=
  matchFrom ((tokens.length + 1) * (value.data.length + 2)) tokens
    value.data true == .ok

/-- Compile-then-match helper. -/
def globMatches (pattern value : String) : Bool :=
  match globNew pattern with
  | some tokens => globTokensMatch tokens value
  | Option.none => false

/-! ## Approval policy (`approval/src/policy.rs`, `approval/src/action.rs`) -/

/-- `Action` (action.rs). -/
inductive Action where
  | readFile (path : String)
  | writeFile (path : String)
  | appendFile (path : String)
  | deleteFile (path : String)
  | createDir (path : String)
  | deleteDir (path : String)
  | copyFile (src dst : String)
  | moveFile (src dst : String)
  | listDir (path : String)
  | httpRequest (method url : String)
  | tcpConnect (host : String) (port : Nat)
  | tcpListen (host : String) (port : Nat)
  | udpBind (host : String) (port : Nat)
  | udpSendTo (host : String) (port : Nat)
  | unixConnect (path : String)
  | unixListen (path : String)
  | exec (command : String) (args : List String)
  | envGet (name : String)
  | webhookServe (host : String) (port : Nat)
  | watchFiles (patterns : List String)
  deriving DecidableEq, Repr

/-- `Display` for `Action` (action.rs), used for the policy-denied
reason. -/
def actionDisplay : Action → String
  | .readFile path => "READ " ++ path
  | .writeFile path => "WRITE " ++ path
  | .appendFile path => "APPEND " ++ path
  | .deleteFile path => "DELETE " ++ path
  | .createDir path => "MKDIR " ++ path
  | .deleteDir path => "RMDIR " ++ path
  | .copyFile src dst => "COPY " ++ src ++ " -> " ++ dst
  | .moveFile src dst => "MOVE " ++ src ++ " -> " ++ dst
  | .listDir path => "LIST " ++ path
  | .httpRequest method url => "HTTP " ++ method ++ " " ++ url
  | .tcpConnect host port => "TCP CONNECT " ++ host ++ ":" ++ toString port
  | .tcpListen host port => "TCP LISTEN " ++ host ++ ":" ++ toString port
  | .udpBind host port => "UDP BIND " ++ host ++ ":" ++ toString port
  | .udpSendTo host port => "UDP SEND " ++ host ++ ":" ++ toString port
  | .unixConnect path => "UNIX CONNECT " ++ path
  | .unixListen path => "UNIX LISTEN " ++ path
  | .exec command args =>
      if args.isEmpty then "EXEC " ++ command
      else "EXEC " ++ command ++ " " ++ String.intercalate " " args
  | .envGet name => "ENV " ++ name
  | .webhookServe host port => "WEBHOOK SERVE " ++ host ++ ":" ++ toString port
  | .watchFiles patterns => "WATCH " ++ String.intercalate ", " patterns

structure FilesystemPolicy where
  allowRead : List String
  denyRead : List String
  allowWrite : List String
  denyWrite : List String

structure NetworkPolicy where
  allowHttp : List String
  denyHttp : List String
  allowTcp : List String
  denyTcp : List String
  allowUdp : List String
  denyUdp : List String
  allowUnix : List String
  denyUnix : List String

structure ExecPolicy where
  allowCommands : List String
  denyCommands : List String

structure EnvPolicy where
  allowVars : List String
  denyVars : List String

/-- `Policy` (four TOML sections). -/
structure Policy where
  filesystem : FilesystemPolicy
  network : NetworkPolicy
  exec : ExecPolicy
  env : EnvPolicy

inductive PolicyDecision where
  | allow
  | deny
  | noMatch
  deriving DecidableEq, Repr

namespace Policy

/-- `Policy::check_patterns`: deny globs first, then allow globs, else
`NoMatch`; patterns that fail to compile are skipped. -/
def checkPatterns (value : String) (allowPatterns denyPatterns : List String) :
    PolicyDecision :=
  if denyPatterns.any (fun p => globMatches p value) then .deny
  else if allowPatterns.any (fun p => globMatches p value) then .allow
  else .noMatch

/-- `Policy::matches_address_pattern`: both address and pattern must be
`host:port`; the host part matches by `*` or glob, the port part by `*`
or string equality. -/
def matchesAddressPattern (addr pattern : String) : Bool :=
  let parts := strSplit (· == ':') addr
  let patternParts := strSplit (· == ':') pattern
  if parts.length ≠ 2 || patternParts.length ≠ 2 then false
  else
    let host := parts.getD 0 ""
    let port := parts.getD 1 ""
    let patternHost := patternParts.getD 0 ""
    let patternPort := patternParts.getD 1 ""
    let hostMatches := patternHost == "*" ||
      (match globNew patternHost with
       | some tokens => globTokensMatch tokens host
       | Option.none => false)
    let portMatches := patternPort == "*" || port == patternPort
    hostMatches && portMatches

/-- `Policy::check_address_patterns`. -/
def checkAddressPatterns (addr : String)
    (allowPatterns denyPatterns : List String) : PolicyDecision :=
  if denyPatterns.any (fun p => matchesAddressPattern addr p) then .deny
  else if allowPatterns.any (fun p => matchesAddressPattern addr p) then .allow
  else .noMatch

/-- Model of `Path::new(command).file_name()`: the last normal path
component (`..`, `.`-only and empty paths have none). -/
def pathFileName (command : String) : Option String :=
  let comps := (strSplit (· == '/') command).filter (fun c => c ≠ "" && c ≠ ".")
  match comps.getLast? with
  | some last => if last = ".." then Option.none else some last
  | Option.none => Option.none

/-- `Policy::check_command`: exact equality against the command string or
its file name, deny first. -/
def checkCommand (command : String) (allowCommands denyCommands : List String) :
    PolicyDecision :=
  let cmdName := (pathFileName command).getD command
  if denyCommands.any (fun d => cmdName == d || command == d) then .deny
  else if allowCommands.any (fun a => cmdName == a || command == a) then .allow
  else .noMatch

/-- `Policy::check` (policy.rs lines 80–165). -/
def check (p : Policy) (action : Action) : PolicyDecision :=
  match action with
  | .readFile path | .listDir path =>
      checkPatterns path p.filesystem.allowRead p.filesystem.denyRead
  | .writeFile path | .appendFile path | .deleteFile path
  | .createDir path | .deleteDir path =>
      checkPatterns path p.filesystem.allowWrite p.filesystem.denyWrite
  | .copyFile src dst | .moveFile src dst =>
      let srcDecision :=
        checkPatterns src p.filesystem.allowRead p.filesystem.denyRead
      if srcDecision = .deny then .deny
      else
        let dstDecision :=
          checkPatterns dst p.filesystem.allowWrite p.filesystem.denyWrite
        if dstDecision = .deny then .deny
        else if srcDecision = .allow && dstDecision = .allow then .allow
        else .noMatch
  | .httpRequest _ url =>
      checkPatterns url p.network.allowHttp p.network.denyHttp
  | .tcpConnect host port | .tcpListen host port =>
      checkAddressPatterns (host ++ ":" ++ toString port)
        p.network.allowTcp p.network.denyTcp
  | .udpBind host port | .udpSendTo host port =>
      checkAddressPatterns (host ++ ":" ++ toString port)
        p.network.allowUdp p.network.denyUdp
  | .unixConnect path | .unixListen path =>
      checkPatterns path p.network.allowUnix p.network.denyUnix
  | .exec command _ =>
      checkCommand command p.exec.allowCommands p.exec.denyCommands
  | .envGet name =>
      checkPatterns name p.env.allowVars p.env.denyVars
  | .webhookServe host port =>
      checkAddressPatterns (host ++ ":" ++ toString port)
        p.network.allowTcp p.network.denyTcp
  | .watchFiles patterns =>
      if patterns.any (fun pat =>
          checkPatterns pat p.filesystem.allowRead p.filesystem.denyRead
            = .deny) then
        .deny
      else .noMatch

end Policy

/-! ## Validator (`generator/src/validator.rs`) -/

inductive ValidationError where
  | cycleDetected (ops : List OpId)
  | unknownOpReference (fromOp toOp : OpId)
  | invalidCombinatorCount (op : OpId) (count available : Nat)
  | policyDenied (op : OpId) (reason : String)
  | malformedUrl (op : OpId) (url : String)
  | malformedPath (op : OpId) (path : String)
  | unsupportedPlatform (op : OpId) (operation platform : String)
  deriving DecidableEq, Repr

inductive ValidationWarning where
  | unusedOp (op : OpId)
  | potentialRaceCondition (ops : List OpId) (resource : String)
  | dynamicValueNeedsRuntimeApproval (op : OpId)
  | largePlan (opCount : Nat)
  deriving DecidableEq, Repr

structure ValidationResult where
  errors : List ValidationError
  warnings : List ValidationWarning
  levels : Option (List (List OpId))
  deriving DecidableEq, Repr

/-- `ValidationResult::is_valid`. -/
def ValidationResult.isValid (r : ValidationResult) : Bool :=
  r.errors.isEmpty

namespace PlanValidator

/-- `PlanValidator::check_references`: every explicit input and every
value-ref target must name an op of the plan. -/
def checkReferences (p : Plan) : List ValidationError :=
  let validIds := p.ops.map Op.id
  p.ops.flatMap fun op =>
    op.inputs.filterMap (fun input =>
      if validIds.contains input then Option.none
      else some (.unknownOpReference op.id input)) ++
    op.kind.collectValueRefs.filterMap (fun vr =>
      match vr.referencedOp with
      | some refId =>
          if validIds.contains refId then Option.none
          else some (.unknownOpReference op.id refId)
      | Option.none => Option.none)

/-- `PlanValidator::check_combinators`: `AtLeast.count > ops.len()` is an
error (`AtMost` is checked but produces nothing). -/
def checkCombinators (p : Plan) : List ValidationError :=
  p.ops.filterMap fun op =>
    match op.kind with
    | .atLeast ops count =>
        if count > ops.length then
          some (.invalidCombinatorCount op.id count ops.length)
        else Option.none
    | _ => Option.none

/-- `PlanValidator::check_platform_support`: Unix-socket kinds error on
non-Unix targets (`cfg!(unix)` and `std::env::consts::OS` are passed as
parameters of the embedding). -/
def checkPlatformSupport (p : Plan) (isUnix : Bool) (osName : String) :
    List ValidationError :=
  p.ops.filterMap fun op =>
    match op.kind with
    | .unixConnect _ | .unixSend _ _ | .unixRecv _ _ | .unixClose _
    | .unixListen _ | .unixAccept _ =>
        if !isUnix then
          some (.unsupportedPlatform op.id "Unix sockets" osName)
        else Option.none
    | _ => Option.none

/-- `PlanValidator::op_kind_to_action` (validator.rs lines 237–413). -/
def opKindToAction (kind : OpKind) : Option Action :=
  match kind with
  | .readFile path =>
      match path with
      | .literal v => (v.asString).map (fun s => .readFile s)
      | _ => Option.none
  | .writeFile path _ =>
      match path with
      | .literal v => (v.asString).map (fun s => .writeFile s)
      | _ => Option.none
  | .appendFile path _ =>
      match path with
      | .literal v => (v.asString).map (fun s => .appendFile s)
      | _ => Option.none
  | .deleteFile path =>
      match path with
      | .literal v => (v.asString).map (fun s => .deleteFile s)
      | _ => Option.none
  | .listDir path =>
      match path with
      | .literal v => (v.asString).map (fun s => .listDir s)
      | _ => Option.none
  | .mkdir path _ =>
      match path with
      | .literal v => (v.asString).map (fun s => .createDir s)
      | _ => Option.none
  | .rmdir path _ =>
      match path with
      | .literal v => (v.asString).map (fun s => .deleteDir s)
      | _ => Option.none
  | .copyFile src dst =>
      match src, dst with
      | .literal s, .literal d =>
          match s.asString, d.asString with
          | some src', some dst' => some (.copyFile src' dst')
          | _, _ => Option.none
      | _, _ => Option.none
  | .moveFile src dst =>
      match src, dst with
      | .literal s, .literal d =>
          match s.asString, d.asString with
          | some src', some dst' => some (.moveFile src' dst')
          | _, _ => Option.none
      | _, _ => Option.none
  | .httpRequest method url _ _ =>
      match method, url with
      | .literal m, .literal u =>
          match m.asString, u.asString with
          | some method', some url' => some (.httpRequest method' url')
          | _, _ => Option.none
      | _, _ => Option.none
  | .tcpConnect host port =>
      match host, port with
      | .literal h, .literal pt =>
          match h.asString, pt.asInt with
          | some host', some port' =>
              some (.tcpConnect host' (i64AsUsize port' % 2 ^ 16))
          | _, _ => Option.none
      | _, _ => Option.none
  | .tcpListen host port =>
      match host, port with
      | .literal h, .literal pt =>
          match h.asString, pt.asInt with
          | some host', some port' =>
              some (.tcpListen host' (i64AsUsize port' % 2 ^ 16))
          | _, _ => Option.none
      | _, _ => Option.none
  | .udpBind host port =>
      match host, port with
      | .literal h, .literal pt =>
          match h.asString, pt.asInt with
          | some host', some port' =>
              some (.udpBind host' (i64AsUsize port' % 2 ^ 16))
          | _, _ => Option.none
      | _, _ => Option.none
  | .udpSendTo host port _ =>
      match host, port with
      | .literal h, .literal pt =>
          match h.asString, pt.asInt with
          | some host', some port' =>
              some (.udpSendTo host' (i64AsUsize port' % 2 ^ 16))
          | _, _ => Option.none
      | _, _ => Option.none
  | .exec command args =>
      match command with
      | .literal cmd =>
          (cmd.asString).map fun c =>
            let argsVec : List String :=
              match args with
              | .literal a =>
                  match a.asList with
                  | some l => l.filterMap RecordedValue.asString
                  | Option.none => []
              | _ => []
            .exec c argsVec
      | _ => Option.none
  | _ => Option.none

/-- `PlanValidator::check_policy`: approval-requiring ops whose action maps
to a `Deny` decision. -/
def checkPolicy (p : Plan) (policy : Policy) : List ValidationError :=
  p.ops.filterMap fun op =>
    if !op.kind.requiresApproval then Option.none
    else
      match opKindToAction op.kind with
      | some action =>
          if policy.check action = .deny then
            some (.policyDenied op.id (actionDisplay action))
          else Option.none
      | Option.none => Option.none

/-- `PlanValidator::check_unused_ops`: ops never named as an input, except
terminal side-effect kinds and the plan's last op. -/
def checkUnusedOps (p : Plan) : List ValidationWarning :=
  let usedOps := p.ops.flatMap Op.inputs
  p.ops.filterMap fun op =>
    if usedOps.contains op.id then Option.none
    else
      match op.kind with
      | .writeFile _ _ | .appendFile _ _ | .deleteFile _ | .mkdir _ _
      | .rmdir _ _ | .copyFile _ _ | .moveFile _ _ | .tcpClose _
      | .udpClose _ | .print _ | .sleep _ => Option.none
      | _ =>
          if (p.ops.getLast?.map Op.id) ≠ some op.id then
            some (.unusedOp op.id)
          else Option.none

/-- The write-path of a kind for the race detector (literal paths only). -/
def writePath (kind : OpKind) : Option String :=
  match kind with
  | .writeFile path _ | .appendFile path _ | .deleteFile path
  | .mkdir path _ | .rmdir path _ =>
      match path with
      | .literal v => v.asString
      | _ => Option.none
  | .copyFile _ dst | .moveFile _ dst =>
      match dst with
      | .literal v => v.asString
      | _ => Option.none
  | _ => Option.none

/-- All ordered pairs `i < j` of a list. -/
def orderedPairs : List (OpId × String) → List ((OpId × String) × OpId × String)
  | [] => []
  | x :: rest => rest.map (fun y => (x, y)) ++ orderedPairs rest

/-- `PlanValidator::check_race_conditions`: within each level of size > 1,
warn for every pair of write-kind ops whose literal paths are equal. -/
def checkRaceConditions (p : Plan) (levels : Option (List (List OpId))) :
    List ValidationWarning :=
  match levels with
  | Option.none => []
  | some levels =>
      levels.flatMap fun level =>
        if level.length > 1 then
          let writePaths : List (OpId × String) :=
            level.filterMap fun opId =>
              match p.getOp opId with
              | some op => (writePath op.kind).map (fun s => (opId, s))
              | Option.none => Option.none
          (orderedPairs writePaths).filterMap fun pr =>
            if pr.1.2 = pr.2.2 then
              some (.potentialRaceCondition [pr.1.1, pr.2.1] pr.1.2)
            else Option.none
        else []

/-- `PlanValidator::check_dynamic_values`: approval-requiring ops with any
non-literal value ref. -/
def checkDynamicValues (p : Plan) : List ValidationWarning :=
  p.ops.filterMap fun op =>
    if !op.kind.requiresApproval then Option.none
    else if op.kind.collectValueRefs.any ValueRef.isDynamic then
      some (.dynamicValueNeedsRuntimeApproval op.id)
    else Option.none

/-- `PlanValidator::validate` (validator.rs lines 99–133), with the
compile-time platform (`cfg!(unix)`, `std::env::consts::OS`) passed as
parameters. -/
def validate (p : Plan) (policy : Option Policy) (isUnix : Bool)
    (osName : String) : ValidationResult :=
  let errors := checkReferences p
  let levelsResult := p.computeLevels
  let (errors, levels) :
      List ValidationError × Option (List (List OpId)) :=
    match levelsResult with
    | .ok levels => (errors, some levels)
    | .error e => (errors ++ [.cycleDetected e.ops], Option.none)
  let errors := errors ++ checkCombinators p
  let errors := errors ++ checkPlatformSupport p isUnix osName
  let errors :=
    match policy with
    | some policy => errors ++ checkPolicy p policy
    | Option.none => errors
  let warnings := checkUnusedOps p
  let warnings := warnings ++ checkRaceConditions p levels
  let warnings := warnings ++ checkDynamicValues p
  let warnings :=
    if p.length > 1000 then warnings ++ [.largePlan p.length] else warnings
  ⟨errors, warnings, levels⟩

end PlanValidator

/-! ## Bincode model (`bincode::serialize` / `bincode::deserialize` of the
compiled-plan payload)

bincode 1.x with its default configuration: fixed-width little-endian
integers, `u64` lengths for sequences and strings, `u32` variant tags for
enums, `u8` tags for `Option`, structs as their fields in order.  Decoders
carry a fuel parameter that is decremented at each recursive-type
constructor; since every encoded node occupies at least one byte,
`bytes.length + 1` fuel always suffices. -/

/-- Little-endian encoding of `n` in `k` bytes (least significant first). -/
def encLE : Nat → Nat → List Nat
  | 0, _ => []
  | k + 1, n => n % 2 ^ 8 :: encLE k (n / 2 ^ 8)

def encU8 (n : Nat) : List Nat := encLE 1 n
def encU32 (n : Nat) : List Nat := encLE 4 n
def encU64 (n : Nat) : List Nat := encLE 8 n

/-- Little-endian decoding of `k` bytes. -/
def decLE : Nat → List Nat → Option (Nat × List Nat)
  | 0, bs => some (0, bs)
  | _ + 1, [] => Option.none
  | k + 1, b :: bs => (decLE k bs).map (fun r => (b + 2 ^ 8 * r.1, r.2))

def decU8 (bs : List Nat) : Option (Nat × List Nat) := decLE 1 bs
def decU32 (bs : List Nat) : Option (Nat × List Nat) := decLE 4 bs
def decU64 (bs : List Nat) : Option (Nat × List Nat) := decLE 8 bs

/-- `i64`: two's-complement 8-byte little-endian. -/
def encI64 (i : Int) : List Nat := encU64 (i % 2 ^ 64).toNat

def decI64 (bs : List Nat) : Option (Int × List Nat) :=
  (decU64 bs).map fun r =>
    (if r.1 < 2 ^ 63 then (r.1 : Int) else (r.1 : Int) - 2 ^ 64, r.2)

/-- `bool` as one byte. -/
def encBool (b : Bool) : List Nat := [if b then 1 else 0]

def decBool (bs : List Nat) : Option (Bool × List Nat) :=
  match bs with
  | 0 :: rest => some (false, rest)
  | 1 :: rest => some (true, rest)
  | _ => Option.none

/-- `f64` as its bit pattern, 8 bytes little-endian. -/
def encF64bits (f : F64) : List Nat := encU64 f.bits

def decF64bits (bs : List Nat) : Option (F64 × List Nat) :=
  (decU64 bs).map fun r => (⟨r.1⟩, r.2)

/-- `String`: `u64` byte length + UTF-8 bytes. -/
def encStr (s : String) : List Nat :=
  let bytes := strUtf8 s
  encU64 bytes.length ++ bytes

/-- One UTF-8 code point off the front of a byte list. -/
def utf8DecodeOne : List Nat → Option (Char × List Nat)
  | [] => Option.none
  | b0 :: rest =>
      if b0 < 0x80 then some (Char.ofNat b0, rest)
      else if 0xC0 ≤ b0 ∧ b0 < 0xE0 then
        match rest with
        | b1 :: rest' =>
            some (Char.ofNat ((b0 - 0xC0) * 64 + (b1 - 0x80)), rest')
        | _ => Option.none
      else if 0xE0 ≤ b0 ∧ b0 < 0xF0 then
        match rest with
        | b1 :: b2 :: rest' =>
            some (Char.ofNat ((b0 - 0xE0) * 4096 + (b1 - 0x80) * 64 +
              (b2 - 0x80)), rest')
        | _ => Option.none
      else
        match rest with
        | b1 :: b2 :: b3 :: rest' =>
            some (Char.ofNat ((b0 - 0xF0) * 262144 + (b1 - 0x80) * 4096 +
              (b2 - 0x80) * 64 + (b3 - 0x80)), rest')
        | _ => Option.none

/-- Fuel-indexed UTF-8 decoding loop (each code point consumes at least
one byte, so the byte count is enough fuel). -/
def utf8DecodeF : Nat → List Nat → Option (List Char)
  | _, [] => some []
  | 0, _ :: _ => Option.none
  | fuel + 1, b0 :: rest =>
      match utf8DecodeOne (b0 :: rest) with
      | some (c, rest') => (utf8DecodeF fuel rest').map (c :: ·)
      | Option.none => Option.none

/-- Decoder for exact UTF-8 byte lists (as produced by `strUtf8`). -/
def utf8Decode (bs : List Nat) : Option (List Char) :=
  utf8DecodeF bs.length bs

def decStr (bs : List Nat) : Option (String × List Nat) :=
  match decU64 bs with
  | Option.none => Option.none
  | some (n, rest) =>
      if rest.length < n then Option.none
      else
        match utf8Decode (rest.take n) with
        | some chars => some (String.mk chars, rest.drop n)
        | Option.none => Option.none

/-- `Vec<u8>`: `u64` length + raw bytes. -/
def encRawBytes (bs : List Nat) : List Nat :=
  encU64 bs.length ++ bs.map (· % 2 ^ 8)

def decRawBytes (bs : List Nat) : Option (List Nat × List Nat) :=
  match decU64 bs with
  | Option.none => Option.none
  | some (n, rest) =>
      if rest.length < n then Option.none
      else some (rest.take n, rest.drop n)

/-- `Vec<u64>` (used for `Vec<OpId>`; the `OpId` newtype serializes as its
inner `u64`). -/
def encU64List (l : List Nat) : List Nat :=
  encU64 l.length ++ l.flatMap encU64

def decU64Items (n : Nat) (bs : List Nat) : Option (List Nat × List Nat) :=
  match n with
  | 0 => some ([], bs)
  | n + 1 =>
      match decU64 bs with
      | Option.none => Option.none
      | some (v, rest) =>
          (decU64Items n rest).map (fun r => (v :: r.1, r.2))

def decU64List (bs : List Nat) : Option (List Nat × List Nat) :=
  match decU64 bs with
  | Option.none => Option.none
  | some (n, rest) => decU64Items n rest

/-- `Option<String>`. -/
def encOptStr : Option String → List Nat
  | Option.none => [0]
  | some s => 1 :: encStr s

def decOptStr (bs : List Nat) : Option (Option String × List Nat) :=
  match bs with
  | 0 :: rest => some (Option.none, rest)
  | 1 :: rest => (decStr rest).map (fun r => (some r.1, r.2))
  | _ => Option.none

/-- `Accessor`: `u32` variant tag (`Field = 0`, `Index = 1`). -/
def encAccessor : Accessor → List Nat
  | .field name => encU32 0 ++ encStr name
  | .index i => encU32 1 ++ encI64 i

def decAccessor (bs : List Nat) : Option (Accessor × List Nat) :=
  match decU32 bs with
  | some (0, rest) => (decStr rest).map (fun r => (.field r.1, r.2))
  | some (1, rest) => (decI64 rest).map (fun r => (.index r.1, r.2))
  | _ => Option.none

def encAccessorList (l : List Accessor) : List Nat :=
  encU64 l.length ++ l.flatMap encAccessor

def decAccessorItems (n : Nat) (bs : List Nat) :
    Option (List Accessor × List Nat) :=
  match n with
  | 0 => some ([], bs)
  | n + 1 =>
      match decAccessor bs with
      | Option.none => Option.none
      | some (a, rest) => (decAccessorItems n rest).map (fun r => (a :: r.1, r.2))

def decAccessorList (bs : List Nat) : Option (List Accessor × List Nat) :=
  match decU64 bs with
  | Option.none => Option.none
  | some (n, rest) => decAccessorItems n rest

mutual

/-- `RecordedValue` encoder: `u32` variant tags in declaration order
(`None = 0` … `Dict = 7`, the same order as the canonical hash tags in
cache.rs); `Dict` as a map (`u64` length + key/value pairs in stored
order). -/
def encRV : RecordedValue → List Nat
  | .none => encU32 0
  | .bool b => encU32 1 ++ encBool b
  | .int i => encU32 2 ++ encI64 i
  | .float f => encU32 3 ++ encF64bits f
  | .string s => encU32 4 ++ encStr s
  | .bytes bs => encU32 5 ++ encRawBytes bs
  | .list items => encU32 6 ++ encU64 items.length ++ encRVItems items
  | .dict entries => encU32 7 ++ encU64 entries.length ++ encRVPairs entries

def encRVItems : List RecordedValue → List Nat
  | [] => []
  | v :: vs => encRV v ++ encRVItems vs

def encRVPairs : List (String × RecordedValue) → List Nat
  | [] => []
  | (k, v) :: rest => encStr k ++ encRV v ++ encRVPairs rest

end

mutual

def decRV (fuel : Nat) (bs : List Nat) : Option (RecordedValue × List Nat) :=
  match fuel with
  | 0 => Option.none
  | fuel + 1 =>
      match decU32 bs with
      | some (0, rest) => some (.none, rest)
      | some (1, rest) => (decBool rest).map (fun r => (.bool r.1, r.2))
      | some (2, rest) => (decI64 rest).map (fun r => (.int r.1, r.2))
      | some (3, rest) => (decF64bits rest).map (fun r => (.float r.1, r.2))
      | some (4, rest) => (decStr rest).map (fun r => (.string r.1, r.2))
      | some (5, rest) => (decRawBytes rest).map (fun r => (.bytes r.1, r.2))
      | some (6, rest) =>
          match decU64 rest with
          | Option.none => Option.none
          | some (n, rest') =>
              (decRVItems fuel n rest').map (fun r => (.list r.1, r.2))
      | some (7, rest) =>
          match decU64 rest with
          | Option.none => Option.none
          | some (n, rest') =>
              (decRVPairs fuel n rest').map (fun r => (.dict r.1, r.2))
      | _ => Option.none

def decRVItems (fuel n : Nat) (bs : List Nat) :
    Option (List RecordedValue × List Nat) :=
  match n with
  | 0 => some ([], bs)
  | n + 1 =>
      match decRV fuel bs with
      | Option.none => Option.none
      | some (v, rest) => (decRVItems fuel n rest).map (fun r => (v :: r.1, r.2))

def decRVPairs (fuel n : Nat) (bs : List Nat) :
    Option (List (String × RecordedValue) × List Nat) :=
  match n with
  | 0 => some ([], bs)
  | n + 1 =>
      match decStr bs with
      | Option.none => Option.none
      | some (k, rest) =>
          match decRV fuel rest with
          | Option.none => Option.none
          | some (v, rest') =>
              (decRVPairs fuel n rest').map (fun r => ((k, v) :: r.1, r.2))

end

mutual

/-- `ValueRef` encoder: tags `Literal = 0`, `OpOutput = 1`, `Dynamic = 2`,
`List = 3` (the canonical hash-tag order in cache.rs). -/
def encVR : ValueRef → List Nat
  | .literal v => encU32 0 ++ encRV v
  | .opOutput op path => encU32 1 ++ encU64 op ++ encAccessorList path
  | .dynamic name => encU32 2 ++ encStr name
  | .list items => encU32 3 ++ encU64 items.length ++ encVRItems items

def encVRItems : List ValueRef → List Nat
  | [] => []
  | v :: vs => encVR v ++ encVRItems vs

end

mutual

def decVR (fuel : Nat) (bs : List Nat) : Option (ValueRef × List Nat) :=
  match fuel with
  | 0 => Option.none
  | fuel + 1 =>
      match decU32 bs with
      | some (0, rest) =>
          (decRV (rest.length + 1) rest).map (fun r => (.literal r.1, r.2))
      | some (1, rest) =>
          match decU64 rest with
          | Option.none => Option.none
          | some (op, rest') =>
              (decAccessorList rest').map (fun r => (.opOutput op r.1, r.2))
      | some (2, rest) => (decStr rest).map (fun r => (.dynamic r.1, r.2))
      | some (3, rest) =>
          match decU64 rest with
          | Option.none => Option.none
          | some (n, rest') =>
              (decVRItems fuel n rest').map (fun r => (.list r.1, r.2))
      | _ => Option.none

def decVRItems (fuel n : Nat) (bs : List Nat) :
    Option (List ValueRef × List Nat) :=
  match n with
  | 0 => some ([], bs)
  | n + 1 =>
      match decVR fuel bs with
      | Option.none => Option.none
      | some (v, rest) => (decVRItems fuel n rest).map (fun r => (v :: r.1, r.2))

end

/-- `Vec<String>`. -/
def encStrList (l : List String) : List Nat :=
  encU64 l.length ++ l.flatMap encStr

def decStrItems (n : Nat) (bs : List Nat) : Option (List String × List Nat) :=
  match n with
  | 0 => some ([], bs)
  | n + 1 =>
      match decStr bs with
      | Option.none => Option.none
      | some (s, rest) => (decStrItems n rest).map (fun r => (s :: r.1, r.2))

def decStrList (bs : List Nat) : Option (List String × List Nat) :=
  match decU64 bs with
  | Option.none => Option.none
  | some (n, rest) => decStrItems n rest

/-- `Option<SourceSpan>` (two `u32` fields). -/
def encOptSpan : Option SourceSpan → List Nat
  | Option.none => [0]
  | some sp => 1 :: (encU32 sp.start ++ encU32 sp.stop)

def decOptSpan (bs : List Nat) : Option (Option SourceSpan × List Nat) :=
  match bs with
  | 0 :: rest => some (Option.none, rest)
  | 1 :: rest =>
      match decU32 rest with
      | Option.none => Option.none
      | some (a, rest') =>
          (decU32 rest').map (fun r => (some ⟨a, r.1⟩, r.2))
  | _ => Option.none

/-- `Option<ValueRef>` (the op guard). -/
def encOptVR : Option ValueRef → List Nat
  | Option.none => [0]
  | some v => 1 :: encVR v

def decOptVR (bs : List Nat) : Option (Option ValueRef × List Nat) :=
  match bs with
  | 0 :: rest => some (Option.none, rest)
  | 1 :: rest => (decVR (rest.length + 1) rest).map (fun r => (some r.1, r.2))
  | _ => Option.none

mutual

/-- `OpKind` encoder: `u32` variant tags in the declaration order of the
spec-modelled enum. -/
def encOpKind : OpKind → List Nat
  | .add l r => encU32 0 ++ encVR l ++ encVR r
  | .sub l r => encU32 1 ++ encVR l ++ encVR r
  | .mul l r => encU32 2 ++ encVR l ++ encVR r
  | .div l r => encU32 3 ++ encVR l ++ encVR r
  | .floorDiv l r => encU32 4 ++ encVR l ++ encVR r
  | .mod l r => encU32 5 ++ encVR l ++ encVR r
  | .neg v => encU32 6 ++ encVR v
  | .abs v => encU32 7 ++ encVR v
  | .eq l r => encU32 8 ++ encVR l ++ encVR r
  | .ne l r => encU32 9 ++ encVR l ++ encVR r
  | .lt l r => encU32 10 ++ encVR l ++ encVR r
  | .le l r => encU32 11 ++ encVR l ++ encVR r
  | .gt l r => encU32 12 ++ encVR l ++ encVR r
  | .ge l r => encU32 13 ++ encVR l ++ encVR r
  | .not v => encU32 14 ++ encVR v
  | .and l r => encU32 15 ++ encVR l ++ encVR r
  | .or l r => encU32 16 ++ encVR l ++ encVR r
  | .concat l r => encU32 17 ++ encVR l ++ encVR r
  | .len v => encU32 18 ++ encVR v
  | .contains h n => encU32 19 ++ encVR h ++ encVR n
  | .index b i => encU32 20 ++ encVR b ++ encVR i
  | .min v => encU32 21 ++ encVR v
  | .max v => encU32 22 ++ encVR v
  | .sum v s => encU32 23 ++ encVR v ++ encVR s
  | .sorted v => encU32 24 ++ encVR v
  | .reversed v => encU32 25 ++ encVR v
  | .toBool v => encU32 26 ++ encVR v
  | .toInt v => encU32 27 ++ encVR v
  | .toFloat v => encU32 28 ++ encVR v
  | .toStr v => encU32 29 ++ encVR v
  | .ifVal c t e => encU32 30 ++ encVR c ++ encVR t ++ encVR e
  | .ifBlock c tb eb =>
      encU32 31 ++ encVR c ++ encSubPlan tb ++ encOptSubPlan eb
  | .forEach items n b p =>
      encU32 32 ++ encVR items ++ encStr n ++ encSubPlan b ++ encBool p
  | .breakOp => encU32 33
  | .continueOp => encU32 34
  | .after d v => encU32 35 ++ encU64 d ++ encU64 v
  | .atLeast ops c => encU32 36 ++ encU64List ops ++ encU64 c
  | .atMost ops c => encU32 37 ++ encU64List ops ++ encU64 c
  | .mapOp items n b => encU32 38 ++ encVR items ++ encStr n ++ encSubPlan b
  | .filterOp items n b =>
      encU32 39 ++ encVR items ++ encStr n ++ encSubPlan b
  | .jsonEncode v => encU32 40 ++ encVR v
  | .jsonDecode s => encU32 41 ++ encVR s
  | .print m => encU32 42 ++ encVR m
  | .now => encU32 43
  | .sleep s => encU32 44 ++ encVR s
  | .readFile p => encU32 45 ++ encVR p
  | .writeFile p c => encU32 46 ++ encVR p ++ encVR c
  | .appendFile p c => encU32 47 ++ encVR p ++ encVR c
  | .deleteFile p => encU32 48 ++ encVR p
  | .listDir p => encU32 49 ++ encVR p
  | .mkdir p r => encU32 50 ++ encVR p ++ encVR r
  | .rmdir p r => encU32 51 ++ encVR p ++ encVR r
  | .copyFile s d => encU32 52 ++ encVR s ++ encVR d
  | .moveFile s d => encU32 53 ++ encVR s ++ encVR d
  | .fileExists p => encU32 54 ++ encVR p
  | .isDir p => encU32 55 ++ encVR p
  | .isFile p => encU32 56 ++ encVR p
  | .fileSize p => encU32 57 ++ encVR p
  | .httpRequest m u b h =>
      encU32 58 ++ encVR m ++ encVR u ++ encVR b ++ encVR h
  | .tcpConnect h p => encU32 59 ++ encVR h ++ encVR p
  | .tcpSend h d => encU32 60 ++ encVR h ++ encVR d
  | .tcpRecv h m => encU32 61 ++ encVR h ++ encVR m
  | .tcpClose h => encU32 62 ++ encVR h
  | .tcpListen h p => encU32 63 ++ encVR h ++ encVR p
  | .tcpAccept l => encU32 64 ++ encVR l
  | .udpBind h p => encU32 65 ++ encVR h ++ encVR p
  | .udpSendTo h p d => encU32 66 ++ encVR h ++ encVR p ++ encVR d
  | .udpRecvFrom h m => encU32 67 ++ encVR h ++ encVR m
  | .udpClose h => encU32 68 ++ encVR h
  | .unixConnect p => encU32 69 ++ encVR p
  | .unixSend h d => encU32 70 ++ encVR h ++ encVR d
  | .unixRecv h m => encU32 71 ++ encVR h ++ encVR m
  | .unixClose h => encU32 72 ++ encVR h
  | .unixListen p => encU32 73 ++ encVR p
  | .unixAccept l => encU32 74 ++ encVR l
  | .exec c a => encU32 75 ++ encVR c ++ encVR a
  | .envGet n d => encU32 76 ++ encVR n ++ encVR d

/-- `Op` as its five fields in order. -/
def encOp : Op → List Nat
  | .mk id kind inputs loc guard =>
      encU64 id ++ encOpKind kind ++ encU64List inputs ++ encOptSpan loc ++
        encOptVR guard

def encOpList : List Op → List Nat
  | [] => []
  | op :: rest => encOp op ++ encOpList rest

/-- `SubPlan { params, ops, output }`. -/
def encSubPlan : SubPlan → List Nat
  | .mk params ops output =>
      encStrList params ++ encU64 ops.length ++ encOpList ops ++
        encU64 output

def encOptSubPlan : Option SubPlan → List Nat
  | Option.none => [0]
  | some sp => 1 :: encSubPlan sp

end

/-- `ValueRef` field decoder with fresh fuel from the byte count. -/
def dvDec (bs : List Nat) : Option (ValueRef × List Nat) :=
  decVR (bs.length + 1) bs

/-- One-`ValueRef`-field variant decoder. -/
def dec1VR (mk : ValueRef → OpKind) (bs : List Nat) :
    Option (OpKind × List Nat) :=
  (dvDec bs).map (fun r => (mk r.1, r.2))

/-- Two-`ValueRef`-field variant decoder. -/
def dec2VR (mk : ValueRef → ValueRef → OpKind) (bs : List Nat) :
    Option (OpKind × List Nat) := do
  let (a, r1) ← dvDec bs
  let (b, r2) ← dvDec r1
  return (mk a b, r2)

/-! Decoder state note: fuel is decremented at each `OpKind`/`Op`/`SubPlan`
constructor; `ValueRef` payloads restart with fresh fuel from the
remaining byte count. -/
mutual

def decOpKind (fuel : Nat) (bs : List Nat) : Option (OpKind × List Nat) :=
  match fuel with
  | 0 => Option.none
  | fuel + 1 =>
      match decU32 bs with
      | Option.none => Option.none
      | some (tag, rest) =>
          let dv := dvDec
          let d1 := fun mk => dec1VR mk rest
          let d2 := fun mk => dec2VR mk rest
          match tag with
          | 0 => d2 .add
          | 1 => d2 .sub
          | 2 => d2 .mul
          | 3 => d2 .div
          | 4 => d2 .floorDiv
          | 5 => d2 .mod
          | 6 => d1 .neg
          | 7 => d1 .abs
          | 8 => d2 .eq
          | 9 => d2 .ne
          | 10 => d2 .lt
          | 11 => d2 .le
          | 12 => d2 .gt
          | 13 => d2 .ge
          | 14 => d1 .not
          | 15 => d2 .and
          | 16 => d2 .or
          | 17 => d2 .concat
          | 18 => d1 .len
          | 19 => d2 .contains
          | 20 => d2 .index
          | 21 => d1 .min
          | 22 => d1 .max
          | 23 => d2 .sum
          | 24 => d1 .sorted
          | 25 => d1 .reversed
          | 26 => d1 .toBool
          | 27 => d1 .toInt
          | 28 => d1 .toFloat
          | 29 => d1 .toStr
          | 30 => do
              let (c, r1) ← dv rest
              let (t, r2) ← dv r1
              let (e, r3) ← dv r2
              return (.ifVal c t e, r3)
          | 31 => do
              let (c, r1) ← dv rest
              let (tb, r2) ← decSubPlan fuel r1
              let (eb, r3) ← decOptSubPlan fuel r2
              return (.ifBlock c tb eb, r3)
          | 32 => do
              let (items, r1) ← dv rest
              let (n, r2) ← decStr r1
              let (b, r3) ← decSubPlan fuel r2
              let (p, r4) ← decBool r3
              return (.forEach items n b p, r4)
          | 33 => some (.breakOp, rest)
          | 34 => some (.continueOp, rest)
          | 35 => do
              let (d, r1) ← decU64 rest
              let (v, r2) ← decU64 r1
              return (.after d v, r2)
          | 36 => do
              let (ops, r1) ← decU64List rest
              let (c, r2) ← decU64 r1
              return (.atLeast ops c, r2)
          | 37 => do
              let (ops, r1) ← decU64List rest
              let (c, r2) ← decU64 r1
              return (.atMost ops c, r2)
          | 38 => do
              let (items, r1) ← dv rest
              let (n, r2) ← decStr r1
              let (b, r3) ← decSubPlan fuel r2
              return (.mapOp items n b, r3)
          | 39 => do
              let (items, r1) ← dv rest
              let (n, r2) ← decStr r1
              let (b, r3) ← decSubPlan fuel r2
              return (.filterOp items n b, r3)
          | 40 => d1 .jsonEncode
          | 41 => d1 .jsonDecode
          | 42 => d1 .print
          | 43 => some (.now, rest)
          | 44 => d1 .sleep
          | 45 => d1 .readFile
          | 46 => d2 .writeFile
          | 47 => d2 .appendFile
          | 48 => d1 .deleteFile
          | 49 => d1 .listDir
          | 50 => d2 .mkdir
          | 51 => d2 .rmdir
          | 52 => d2 .copyFile
          | 53 => d2 .moveFile
          | 54 => d1 .fileExists
          | 55 => d1 .isDir
          | 56 => d1 .isFile
          | 57 => d1 .fileSize
          | 58 => do
              let (m, r1) ← dv rest
              let (u, r2) ← dv r1
              let (b, r3) ← dv r2
              let (h, r4) ← dv r3
              return (.httpRequest m u b h, r4)
          | 59 => d2 .tcpConnect
          | 60 => d2 .tcpSend
          | 61 => d2 .tcpRecv
          | 62 => d1 .tcpClose
          | 63 => d2 .tcpListen
          | 64 => d1 .tcpAccept
          | 65 => d2 .udpBind
          | 66 => do
              let (h, r1) ← dv rest
              let (p, r2) ← dv r1
              let (d, r3) ← dv r2
              return (.udpSendTo h p d, r3)
          | 67 => d2 .udpRecvFrom
          | 68 => d1 .udpClose
          | 69 => d1 .unixConnect
          | 70 => d2 .unixSend
          | 71 => d2 .unixRecv
          | 72 => d1 .unixClose
          | 73 => d1 .unixListen
          | 74 => d1 .unixAccept
          | 75 => d2 .exec
          | 76 => d2 .envGet
          | _ => Option.none

def decOp (fuel : Nat) (bs : List Nat) : Option (Op × List Nat) :=
  match fuel with
  | 0 => Option.none
  | fuel + 1 => do
      let (id, r1) ← decU64 bs
      let (kind, r2) ← decOpKind fuel r1
      let (inputs, r3) ← decU64List r2
      let (loc, r4) ← decOptSpan r3
      let (guard, r5) ← decOptVR r4
      return (.mk id kind inputs loc guard, r5)

def decOpItems (fuel n : Nat) (bs : List Nat) : Option (List Op × List Nat) :=
  match n with
  | 0 => some ([], bs)
  | n + 1 =>
      match decOp fuel bs with
      | Option.none => Option.none
      | some (op, rest) =>
          (decOpItems fuel n rest).map (fun r => (op :: r.1, r.2))

def decSubPlan (fuel : Nat) (bs : List Nat) : Option (SubPlan × List Nat) :=
  match fuel with
  | 0 => Option.none
  | fuel + 1 => do
      let (params, r1) ← decStrList bs
      let (n, r2) ← decU64 r1
      let (ops, r3) ← decOpItems fuel n r2
      let (output, r4) ← decU64 r3
      return (.mk params ops output, r4)

def decOptSubPlan (fuel : Nat) (bs : List Nat) :
    Option (Option SubPlan × List Nat) :=
  match fuel with
  | 0 => Option.none
  | fuel + 1 =>
      match bs with
      | 0 :: rest => some (Option.none, rest)
      | 1 :: rest => (decSubPlan fuel rest).map (fun r => (some r.1, r.2))
      | _ => Option.none

end

/-- `Plan { ops, next_id }`. -/
def encPlan (p : Plan) : List Nat :=
  encU64 p.ops.length ++ encOpList p.ops ++ encU64 p.nextId

def decPlan (bs : List Nat) : Option (Plan × List Nat) := do
  let (n, r1) ← decU64 bs
  let (ops, r2) ← decOpItems (r1.length + 1) n r1
  let (nextId, r3) ← decU64 r2
  return (⟨ops, nextId⟩, r3)

/-! ## Compiled plan container (`common/src/compiled.rs`) -/

/-- `PlanMetadata { source_file, source_content }`. -/
structure PlanMetadata where
  sourceFile : Option String
  sourceContent : Option String

/-- `CompiledPlan` (fields private in Rust). -/
structure CompiledPlan where
  schemaVersion : Nat
  sourceHash : String
  compiledAt : Nat
  optimizationLevel : Nat
  plan : Plan
  metadata : Option PlanMetadata

/-- `CompiledPlanError` (the `Io` variant arises only in the file-based
`save`/`load` path; the `SerializationError` message string is not
modelled). -/
inductive CompiledPlanError where
  | invalidMagic
  | schemaMismatch (expected found : Nat)
  | serializationError

/-- `MAGIC`: `b'B' b'P' 0x00 0x01`. -/
def MAGIC : List Nat := [0x42, 0x50, 0x00, 0x01]

def encMetadata (m : PlanMetadata) : List Nat :=
  encOptStr m.sourceFile ++ encOptStr m.sourceContent

def decMetadata (bs : List Nat) : Option (PlanMetadata × List Nat) := do
  let (f, r1) ← decOptStr bs
  let (c, r2) ← decOptStr r1
  return (⟨f, c⟩, r2)

def encOptMetadata : Option PlanMetadata → List Nat
  | Option.none => [0]
  | some m => 1 :: encMetadata m

def decOptMetadata (bs : List Nat) :
    Option (Option PlanMetadata × List Nat) :=
  match bs with
  | 0 :: rest => some (Option.none, rest)
  | 1 :: rest => (decMetadata rest).map (fun r => (some r.1, r.2))
  | _ => Option.none

/-- `bincode::serialize(&compiled_plan)`. -/
def encCompiledPlan (c : CompiledPlan) : List Nat :=
  encU32 c.schemaVersion ++ encStr c.sourceHash ++ encU64 c.compiledAt ++
    encU8 c.optimizationLevel ++ encPlan c.plan ++ encOptMetadata c.metadata

/-- `bincode::deserialize::<CompiledPlan>` (trailing bytes permitted). -/
def decCompiledPlan (bs : List Nat) : Option CompiledPlan := do
  let (v, r1) ← decU32 bs
  let (h, r2) ← decStr r1
  let (t, r3) ← decU64 r2
  let (o, r4) ← decU8 r3
  let (p, r5) ← decPlan r4
  let (m, _) ← decOptMetadata r5
  return ⟨v, h, t, o, p, m⟩

namespace CompiledPlan

/-- `CompiledPlan::to_bytes`: the magic followed by the bincode payload
(bincode serialization of this data model is infallible, so the `Ok`
payload is modelled directly). -/
def toBytes (c : CompiledPlan) : List Nat :=
  MAGIC ++ encCompiledPlan c

/-- `CompiledPlan::from_bytes` (compiled.rs lines 166–186). -/
def fromBytes (bytes : List Nat) :
    Except CompiledPlanError CompiledPlan :=
  if bytes.length < MAGIC.length then .error .invalidMagic
  else if bytes.take MAGIC.length ≠ MAGIC then .error .invalidMagic
  else
    match decCompiledPlan (bytes.drop MAGIC.length) with
    | Option.none => .error .serializationError
    | some c =>
        if c.schemaVersion ≠ PLAN_SCHEMA_VERSION then
          .error (.schemaMismatch PLAN_SCHEMA_VERSION c.schemaVersion)
        else .ok c

end CompiledPlan

/-! ## Well-formedness

The machine-range invariants every Rust value of the corresponding type
satisfies by construction (`u64`/`u32`/`u8`/`i64` ranges, byte values,
in-memory collection lengths) plus the `BTreeMap` key-sortedness of
dicts.  The embedding's types are wider (`Nat`/`Int`), so the claims about
"every value" quantify over the well-formed ones. -/

/-- A string whose UTF-8 byte length fits the `u64` length prefix. -/
def wfStr (s : String) : Bool :=
  decide ((strUtf8 s).length < 2 ^ 64)

/-- Strictly increasing dict keys (`BTreeMap` iteration order). -/
def strictKeys : List (String × RecordedValue) → Bool
  | [] => true
  | [_] => true
  | (k1, _) :: (k2, v2) :: rest =>
      decide (k1 < k2) && strictKeys ((k2, v2) :: rest)

mutual

def wfRV : RecordedValue → Bool
  | .none => true
  | .bool _ => true
  | .int i => decide (isI64 i)
  | .float f => decide (f.bits < 2 ^ 64)
  | .string s => wfStr s
  | .bytes bs => decide (bs.length < 2 ^ 64) && bs.all (fun b => decide (b < 256))
  | .list items => decide (items.length < 2 ^ 64) && wfRVList items
  | .dict entries =>
      decide (entries.length < 2 ^ 64) && strictKeys entries &&
        wfRVPairs entries

def wfRVList : List RecordedValue → Bool
  | [] => true
  | v :: vs => wfRV v && wfRVList vs

def wfRVPairs : List (String × RecordedValue) → Bool
  | [] => true
  | (k, v) :: rest => wfStr k && wfRV v && wfRVPairs rest

end

def wfAccessor : Accessor → Bool
  | .field name => wfStr name
  | .index i => decide (isI64 i)

mutual

def wfVR : ValueRef → Bool
  | .literal v => wfRV v
  | .opOutput op path =>
      decide (op < 2 ^ 64) && decide (path.length < 2 ^ 64) &&
        path.all wfAccessor
  | .dynamic name => wfStr name
  | .list items => decide (items.length < 2 ^ 64) && wfVRList items

def wfVRList : List ValueRef → Bool
  | [] => true
  | v :: vs => wfVR v && wfVRList vs

end

def wfOptVR : Option ValueRef → Bool
  | Option.none => true
  | some v => wfVR v

def wfSpan : Option SourceSpan → Bool
  | Option.none => true
  | some sp => decide (sp.start < 2 ^ 32) && decide (sp.stop < 2 ^ 32)

mutual

def wfOpKind (k : OpKind) : Bool :=
  wfVRList k.operandRefs && wfKindExtras k

/-- Non-`ValueRef` payloads of a kind. -/
def wfKindExtras : OpKind → Bool
  | .ifBlock _ tb eb =>
      wfSubPlan tb &&
        (match eb with
         | some e => wfSubPlan e
         | Option.none => true)
  | .forEach _ n b _ => wfStr n && wfSubPlan b
  | .mapOp _ n b => wfStr n && wfSubPlan b
  | .filterOp _ n b => wfStr n && wfSubPlan b
  | .after d v => decide (d < 2 ^ 64) && decide (v < 2 ^ 64)
  | .atLeast ops c =>
      decide (ops.length < 2 ^ 64) && ops.all (fun o => decide (o < 2 ^ 64)) &&
        decide (c < 2 ^ 64)
  | .atMost ops c =>
      decide (ops.length < 2 ^ 64) && ops.all (fun o => decide (o < 2 ^ 64)) &&
        decide (c < 2 ^ 64)
  | _ => true

def wfOp : Op → Bool
  | .mk id kind inputs loc guard =>
      decide (id < 2 ^ 64) && wfOpKind kind &&
        decide (inputs.length < 2 ^ 64) &&
        inputs.all (fun i => decide (i < 2 ^ 64)) && wfSpan loc &&
        wfOptVR guard

def wfOpList : List Op → Bool
  | [] => true
  | op :: rest => wfOp op && wfOpList rest

def wfSubPlan : SubPlan → Bool
  | .mk params ops output =>
      decide (params.length < 2 ^ 64) && params.all wfStr &&
        decide (ops.length < 2 ^ 64) && wfOpList ops &&
        decide (output < 2 ^ 64)

end

def wfPlan (p : Plan) : Bool :=
  decide (p.ops.length < 2 ^ 64) && wfOpList p.ops &&
    decide (p.nextId < 2 ^ 64)

def wfMetadata (m : PlanMetadata) : Bool :=
  (match m.sourceFile with
   | some s => wfStr s
   | Option.none => true) &&
  (match m.sourceContent with
   | some s => wfStr s
   | Option.none => true)

/-- Well-formed compiled plan: every numeric field in its Rust range. -/
def wfCompiledPlan (c : CompiledPlan) : Bool :=
  decide (c.schemaVersion < 2 ^ 32) && wfStr c.sourceHash &&
    decide (c.compiledAt < 2 ^ 64) && decide (c.optimizationLevel < 256) &&
    wfPlan c.plan &&
    (match c.metadata with
     | some m => wfMetadata m
     | Option.none => true)

/-! ## Acyclicity

For a finite graph, acyclicity of the dependency relation (an edge from
`a` to `b` when some op with id `b` lists `a` among its inputs) is
equivalent to: every nonempty set of vertices contains a vertex none of
whose in-neighbours lies in the set.  That finite well-foundedness form is
used as the hypothesis of the `compute_levels` claims; it is decidable,
so witnesses can check it on concrete plans. -/

/-- The ids of a plan's ops, in order. -/
def planIds (ops : List Op) : List OpId :=
  ops.map Op.id

/-- Every nonempty subset of the vertex set has a member with no in-edge
from inside the subset (⟺ the finite dependency graph is acyclic). -/
def NoCycle (ops : List Op) : Prop :=
  ∀ S ∈ (planIds ops).toFinset.powerset, S.Nonempty →
    ∃ b ∈ S, ∀ op ∈ ops, op.id = b → ∀ a ∈ op.inputs, a ∉ S

instance (ops : List Op) : Decidable (NoCycle ops) := by
  unfold NoCycle; infer_instance

/-! Named forms of the fold steps inside `buildDegrees` and `kahnStep`,
and the Kahn loop invariant (reasoning helpers for the `compute_levels`
claims). -/

/-- Degree lookup with default 0. -/
def imVal (m : List (OpId × Nat)) (k : OpId) : Nat := (imGet m k).getD 0

/-- The per-input step of `buildDegrees`. -/
def bdInner (opid : OpId) (acc : List (OpId × Nat) × List (OpId × List OpId))
    (input : OpId) : List (OpId × Nat) × List (OpId × List OpId) :=
  (imBump acc.1 opid, depPush acc.2 input opid)

/-- The per-op step of `buildDegrees`. -/
def bdStep (acc : List (OpId × Nat) × List (OpId × List OpId)) (op : Op) :
    List (OpId × Nat) × List (OpId × List OpId) :=
  op.inputs.foldl (bdInner op.id) (imEntryOr acc.1 op.id 0, acc.2)

/-- The dependents list a key ends up with: each op contributes its id once
per occurrence of the key among its inputs, in op order. -/
def depExpected (ops : List Op) (k : OpId) : List OpId :=
  ops.flatMap (fun op => List.replicate (op.inputs.count k) op.id)

/-- One decrement event of the Kahn elimination. -/
def kahnEv (acc : List (OpId × Nat) × List OpId) (dep : OpId) :
    List (OpId × Nat) × List OpId :=
  kahnDecr acc.1 acc.2 dep

/-- The per-id step of `kahnStep`. -/
def kahnIdStep (dependents : List (OpId × List OpId))
    (acc : List (OpId × Nat) × List OpId) (id : OpId) :
    List (OpId × Nat) × List OpId :=
  match depGet dependents id with
  | Option.none => acc
  | some deps => deps.foldl (fun acc dep => kahnDecr acc.1 acc.2 dep) acc

/-- The decrement events a level generates, in order. -/
def kahnEvents (dependents : List (OpId × List OpId)) (cur : List OpId) :
    List OpId :=
  cur.flatMap (fun id => (depGet dependents id).getD [])

/-- The head invariant of `computeLevels`' elimination loop: everything
scheduled or pending is a plan id, nothing is scheduled twice, `processed`
counts the scheduled ids, emitted levels are strictly sorted, the degree
map keeps one entry per op holding the count of its not-yet-scheduled
input occurrences, scheduled/pending ops have all inputs scheduled, and
every other op still has an unscheduled input. -/
def KahnInv (ops : List Op) (deg : List (OpId × Nat)) (current : List OpId)
    (levels : List (List OpId)) (processed : Nat) : Prop :=
  (∀ x ∈ levels.flatten ++ current, x ∈ planIds ops) ∧
  (levels.flatten ++ current).Nodup ∧
  processed = levels.flatten.length ∧
  (∀ lvl ∈ levels, lvl.Sorted (· < ·)) ∧
  deg.map (·.1) = planIds ops ∧
  (∀ op ∈ ops, imGet deg op.id =
    some (op.inputs.countP (fun a => !levels.flatten.contains a))) ∧
  (∀ op ∈ ops, op.id ∈ levels.flatten ++ current →
    ∀ a ∈ op.inputs, a ∈ levels.flatten) ∧
  (∀ op ∈ ops, op.id ∉ levels.flatten ++ current →
    op.inputs.countP (fun a => !levels.flatten.contains a) ≠ 0)

/-- A concrete three-op chain plan (`op2` reads `op1` reads `op0`), used to
exercise `compute_levels` on an acyclic plan. -/
def chain3Ops : List Op :=
  [Op.mk 0 (.add (.literal (.int 1)) (.literal (.int 2))) [] none none,
   Op.mk 1 (.neg (.opOutput 0 [])) [0] none none,
   Op.mk 2 (.abs (.opOutput 1 [])) [1] none none]

set_option maxRecDepth 10000

/-! # Theorems -/

/-! ## C9: op cache layer behaviour -/

/-- C9.  `OpCache::insert(op, v, h)` populates both cache layers: right
afterwards `get(op, h)` returns a `CachedResult` holding `v` (and the
hash), and `get_value(op)` returns `v`.  `OpCache::invalidate(op)` removes
only the latest-value layer: afterwards `get_value(op)` is `None` while
the keyed layer is untouched — `get` answers exactly as before the
invalidation on every key, and in particular `get(op, h)` still returns
`v` after an insert followed by an invalidate. -/
theorem opCache_insert_invalidate (c : OpCache) (op : OpId)
    (v : RecordedValue) (h : Nat) :
    ((c.insert op v h).get op h = some ⟨v, h⟩) ∧
    ((c.insert op v h).getValue op = some v) ∧
    (((c.insert op v h).invalidate op).getValue op = Option.none) ∧
    (∀ op' h', (c.invalidate op).get op' h' = c.get op' h') ∧
    (((c.insert op v h).invalidate op).get op h = some ⟨v, h⟩) := by
  refine ⟨?_, ?_, ?_, ?_, ?_⟩
  · simp [OpCache.insert, OpCache.get, OpCache.keyedGet]
  · simp [OpCache.insert, OpCache.getValue, OpCache.latestGet]
  · simp only [OpCache.insert, OpCache.invalidate, OpCache.getValue,
      OpCache.latestGet]
    have : List.find? (fun e => e.1 == op)
        (List.filter (fun e => !(e.1 == op))
          ((op, v) :: List.filter (fun e => !(e.1 == op)) c.valueCache)) =
        Option.none := by
      rw [List.find?_eq_none]
      intro e he
      have := List.of_mem_filter he
      simpa using this
    rw [this]
    rfl
  · intro op' h'
    simp [OpCache.invalidate, OpCache.get]
  · simp [OpCache.insert, OpCache.invalidate, OpCache.get, OpCache.keyedGet]

/-! ## C10: resolver accessor-path projection -/

/-- C10.  `ValueResolver::resolve` and `resolve_path` are total Lean
functions into `Option` (no panic is modelled anywhere on their paths),
and the projection returns `None` in exactly the claimed situations: an
`Index` accessor applied to a non-list, a `Field` accessor applied to a
non-dict, a non-negative index at or beyond the list length, and a
negative index whose magnitude exceeds the list length; a negative index
within bounds counts from the end of the list.  (The `i64` range bounds
on the index and the `usize` bound on the length are the Rust-type
invariants of `Accessor::Index` and `Vec::len`.) -/
theorem resolver_path_projection (base : RecordedValue) (l : List RecordedValue)
    (i : Int) (f : String) (path : List Accessor)
    (hi : isI64 i) (hlen : (l.length : Int) < 2 ^ 63) :
    (base.asList = Option.none →
      ValueResolver.resolvePath base (.index i :: path) = Option.none) ∧
    (base.asDict = Option.none →
      ValueResolver.resolvePath base (.field f :: path) = Option.none) ∧
    (0 ≤ i → (l.length : Int) ≤ i →
      ValueResolver.resolvePath (.list l) (.index i :: path) = Option.none) ∧
    (i < 0 → (l.length : Int) < -i →
      ValueResolver.resolvePath (.list l) (.index i :: path) = Option.none) ∧
    (i < 0 → -i ≤ (l.length : Int) →
      ValueResolver.resolvePath (.list l) (.index i :: path) =
        match l.get? ((l.length : Int) + i).toNat with
        | some v => ValueResolver.resolvePath v path
        | Option.none => Option.none) := by
  obtain ⟨hi1, hi2⟩ := hi
  refine ⟨?_, ?_, ?_, ?_, ?_⟩
  · intro hb
    cases base <;> simp_all [ValueResolver.resolvePath, RecordedValue.asList]
  · intro hb
    cases base <;> simp_all [ValueResolver.resolvePath, RecordedValue.asDict]
  · intro h0 hge
    have : indexToUsize l.length i = i.toNat := by
      simp [indexToUsize, i64AsUsize, h0, Int.not_lt.mpr h0]
      omega
    simp only [ValueResolver.resolvePath, this]
    rw [List.get?_eq_none.mpr (by omega)]
  · intro hneg hmag
    have harith : (l.length : Int) + i < 0 := by omega
    have : indexToUsize l.length i ≥ 2 ^ 63 := by
      simp only [indexToUsize, if_pos hneg, i64AsUsize, wrap64]
      omega
    simp only [ValueResolver.resolvePath]
    rw [List.get?_eq_none.mpr (by omega)]
  · intro hneg hmag
    have : indexToUsize l.length i = ((l.length : Int) + i).toNat := by
      simp only [indexToUsize, if_pos hneg, i64AsUsize, wrap64]
      omega
    simp only [ValueResolver.resolvePath, this]

/-- C10 witness: evaluated at `base = Int 7`, a 3-element list, `i = -4`
(out of range), `i = -1` (counts from the end), `i = 3` (at the length),
and `f = "k"`. -/
theorem resolver_path_projection_witness :
    (isI64 (-4) ∧ ((3 : Nat) : Int) < 2 ^ 63) ∧
    ValueResolver.resolvePath (.int 7) [.index (-4)] = Option.none ∧
    ValueResolver.resolvePath (.int 7) [.field "k"] = Option.none ∧
    ValueResolver.resolvePath
      (.list [.int 10, .int 20, .int 30]) [.index (-4)] = Option.none ∧
    ValueResolver.resolvePath
      (.list [.int 10, .int 20, .int 30]) [.index 3] = Option.none ∧
    ValueResolver.resolvePath
      (.list [.int 10, .int 20, .int 30]) [.index (-1)] = some (.int 30) := by
  refine ⟨⟨by decide, by decide⟩, ?_, ?_, ?_, ?_, ?_⟩
  · exact (resolver_path_projection (.int 7) [.int 10, .int 20, .int 30]
      (-4) "k" [] (by decide) (by decide)).1 rfl
  · exact (resolver_path_projection (.int 7) [.int 10, .int 20, .int 30]
      (-4) "k" [] (by decide) (by decide)).2.1 rfl
  · exact (resolver_path_projection (.int 7) [.int 10, .int 20, .int 30]
      (-4) "k" [] (by decide) (by decide)).2.2.2.1 (by decide) (by decide)
  · exact (resolver_path_projection (.int 7) [.int 10, .int 20, .int 30]
      3 "k" [] (by decide) (by decide)).2.2.1 (by decide) (by decide)
  · have := (resolver_path_projection (.int 7) [.int 10, .int 20, .int 30]
      (-1) "k" [] (by decide) (by decide)).2.2.2.2 (by decide) (by decide)
    rw [this]
    rfl

/-! ## C5: cache-safe script hash format -/

/-- C5.  The claim states that both `StateManager::compute_script_hash`
and `SchemaCache::compute_hash` return
`"v" ++ PLAN_SCHEMA_VERSION ++ ":" ++ sha256-hex` and agree.  The code
disagrees: `SchemaCache::compute_hash` wraps the *already versioned*
`compute_script_hash` in `format!("v{}:{}", ...)` a second time, so it
returns a double-prefixed `"v5:v5:<sha256>"` — evaluated here at the
empty source string, whose SHA-256 is `e3b0c4…b855`.  In general the two
functions differ by exactly one `"v5:"` prefix. -/
theorem schemaCache_hash_double_prefix :
    StateManager.computeScriptHash "" =
      "v5:e3b0c44298fc1c149afbf4c8996fb92427ae41e4649b934ca495991b7852b855" ∧
    SchemaCache.computeHash "" =
      "v5:v5:e3b0c44298fc1c149afbf4c8996fb92427ae41e4649b934ca495991b7852b855" ∧
    SchemaCache.computeHash "" ≠ StateManager.computeScriptHash "" ∧
    (∀ s : String,
      SchemaCache.computeHash s = "v5:" ++ StateManager.computeScriptHash s) := by
  refine ⟨by decide, by decide, by decide, ?_⟩
  intro s
  rfl

/-! ## C8: policy evaluation -/

/-- C8 counterexample.  The claim says the entries of all four sections are
interpreted as glob patterns, so `exec.deny_commands = ["r*"]` would have
to deny `Exec { command: "rm" }` (the glob `r*` matches `rm`).  The code
compares exec entries by string equality against the command or its file
name, so the decision is `NoMatch`, not `Deny`.  (The network `tcp`/`udp`
sections likewise use `host:port` splitting rather than a plain glob over
the target: the pattern `*`, which glob-matches every string, matches no
address.) -/
theorem policy_check_exec_glob_counterexample :
    globMatches "r*" "rm" = true ∧
    Policy.check
      ⟨⟨[], [], [], []⟩, ⟨[], [], [], [], [], [], [], []⟩, ⟨[], ["r*"]⟩,
        ⟨[], []⟩⟩
      (.exec "rm" []) = .noMatch ∧
    globMatches "*" "somehost:80" = true ∧
    Policy.check
      ⟨⟨[], [], [], []⟩, ⟨[], [], [], ["*"], [], [], [], []⟩, ⟨[], []⟩,
        ⟨[], []⟩⟩
      (.tcpConnect "somehost" 80) = .noMatch := by
  exact ⟨by decide, by decide, by decide, by decide⟩

/-- C8 amended.  `Policy::check` consults the matching section's paired
lists with deny precedence, but the matching discipline is per section:
filesystem paths (read lists for `ReadFile`/`ListDir`/`WatchFiles`, write
lists otherwise), HTTP urls, unix-socket paths and env names are matched
as glob patterns (unparsable patterns skipped); `tcp`/`udp` entries are
`host:port` pairs whose host part matches by `*` or glob and whose port
part matches by `*` or equality; `exec` entries match by string equality
against the command or its final path component; `CopyFile`/`MoveFile`
combine a read check on the source and a write check on the destination
(deny if either denies, allow only if both allow); `WatchFiles` can only
deny or not match. -/
theorem policy_check_amended (p : Policy) (path url name host method
    command src dst : String) (port : Nat) (args : List String)
    (patterns : List String) :
    (Policy.check p (.readFile path) =
      (if p.filesystem.denyRead.any (fun pat => globMatches pat path) then
        .deny
      else if p.filesystem.allowRead.any (fun pat => globMatches pat path) then
        .allow
      else .noMatch)) ∧
    (Policy.check p (.listDir path) = Policy.check p (.readFile path)) ∧
    (Policy.check p (.writeFile path) =
      (if p.filesystem.denyWrite.any (fun pat => globMatches pat path) then
        .deny
      else if p.filesystem.allowWrite.any (fun pat => globMatches pat path) then
        .allow
      else .noMatch)) ∧
    (Policy.check p (.appendFile path) = Policy.check p (.writeFile path) ∧
     Policy.check p (.deleteFile path) = Policy.check p (.writeFile path) ∧
     Policy.check p (.createDir path) = Policy.check p (.writeFile path) ∧
     Policy.check p (.deleteDir path) = Policy.check p (.writeFile path)) ∧
    (Policy.check p (.httpRequest method url) =
      (if p.network.denyHttp.any (fun pat => globMatches pat url) then .deny
      else if p.network.allowHttp.any (fun pat => globMatches pat url) then
        .allow
      else .noMatch)) ∧
    (Policy.check p (.unixConnect path) =
      (if p.network.denyUnix.any (fun pat => globMatches pat path) then .deny
      else if p.network.allowUnix.any (fun pat => globMatches pat path) then
        .allow
      else .noMatch)) ∧
    (Policy.check p (.envGet name) =
      (if p.env.denyVars.any (fun pat => globMatches pat name) then .deny
      else if p.env.allowVars.any (fun pat => globMatches pat name) then .allow
      else .noMatch)) ∧
    (Policy.check p (.tcpConnect host port) =
      (if p.network.denyTcp.any (fun pat =>
          Policy.matchesAddressPattern (host ++ ":" ++ toString port) pat) then
        .deny
      else if p.network.allowTcp.any (fun pat =>
          Policy.matchesAddressPattern (host ++ ":" ++ toString port) pat) then
        .allow
      else .noMatch)) ∧
    (Policy.check p (.udpBind host port) =
      (if p.network.denyUdp.any (fun pat =>
          Policy.matchesAddressPattern (host ++ ":" ++ toString port) pat) then
        .deny
      else if p.network.allowUdp.any (fun pat =>
          Policy.matchesAddressPattern (host ++ ":" ++ toString port) pat) then
        .allow
      else .noMatch)) ∧
    (Policy.check p (.exec command args) =
      (let cmdName := (Policy.pathFileName command).getD command
      if p.exec.denyCommands.any
          (fun d => cmdName == d || command == d) then .deny
      else if p.exec.allowCommands.any
          (fun a => cmdName == a || command == a) then .allow
      else .noMatch)) ∧
    (Policy.check p (.copyFile src dst) =
      (let srcD := Policy.checkPatterns src p.filesystem.allowRead
        p.filesystem.denyRead
      let dstD := Policy.checkPatterns dst p.filesystem.allowWrite
        p.filesystem.denyWrite
      if srcD = .deny then .deny
      else if dstD = .deny then .deny
      else if srcD = .allow && dstD = .allow then .allow
      else .noMatch)) ∧
    (Policy.check p (.moveFile src dst) = Policy.check p (.copyFile src dst)) ∧
    (Policy.check p (.watchFiles patterns) =
      (if patterns.any (fun pat =>
          Policy.checkPatterns pat p.filesystem.allowRead
            p.filesystem.denyRead = .deny) then .deny
      else .noMatch)) := by
  refine ⟨rfl, rfl, rfl, ⟨rfl, rfl, rfl, rfl⟩, rfl, rfl, rfl, rfl, rfl,
    rfl, ?_, rfl, rfl⟩
  simp only [Policy.check]

/-! ## C2: cycle detection -/

/-- C2.  On the S4 plan — op0 with `inputs = [op1]` and op1 with
`inputs = [op0]` (each op's kind referencing the other's output) —
`compute_levels` returns a `CycleError` whose `ops` field is `[op0, op1]`,
the ids left with positive residual in-degree after Kahn's elimination;
`PlanValidator::validate` (on any platform, with no policy) reports
exactly one error, `CycleDetected` with that same op set, no warnings,
and `levels = None`.  In general, whenever `compute_levels` fails,
`validate` returns `levels = None` and an error list containing
`CycleDetected` with exactly the `CycleError`'s op set. -/
theorem computeLevels_cycle_s4 :
    (Plan.computeLevels
      ⟨[.mk 0 (.index (.opOutput 1 []) (.literal (.int 0))) [1]
          Option.none Option.none,
        .mk 1 (.index (.opOutput 0 []) (.literal (.int 0))) [0]
          Option.none Option.none], 2⟩ = .error ⟨[0, 1]⟩) ∧
    (∀ isUnix osName,
      PlanValidator.validate
        ⟨[.mk 0 (.index (.opOutput 1 []) (.literal (.int 0))) [1]
            Option.none Option.none,
          .mk 1 (.index (.opOutput 0 []) (.literal (.int 0))) [0]
            Option.none Option.none], 2⟩ Option.none isUnix osName =
        ⟨[.cycleDetected [0, 1]], [], Option.none⟩) ∧
    (∀ p policy isUnix osName e, p.computeLevels = .error e →
      (PlanValidator.validate p policy isUnix osName).levels = Option.none ∧
      ValidationError.cycleDetected e.ops ∈
        (PlanValidator.validate p policy isUnix osName).errors) := by
  refine ⟨rfl, fun isUnix osName => rfl, ?_⟩
  intro p policy isUnix osName e he
  cases policy <;>
    simp [PlanValidator.validate, he]

/-- C2 witness: the general `validate`-reports-the-cycle part applied to
the concrete S4 plan. -/
theorem computeLevels_cycle_s4_witness :
    (PlanValidator.validate
      ⟨[.mk 0 (.index (.opOutput 1 []) (.literal (.int 0))) [1]
          Option.none Option.none,
        .mk 1 (.index (.opOutput 0 []) (.literal (.int 0))) [0]
          Option.none Option.none], 2⟩ Option.none true "linux").levels =
      Option.none ∧
    ValidationError.cycleDetected [0, 1] ∈
      (PlanValidator.validate
        ⟨[.mk 0 (.index (.opOutput 1 []) (.literal (.int 0))) [1]
            Option.none Option.none,
          .mk 1 (.index (.opOutput 0 []) (.literal (.int 0))) [0]
            Option.none Option.none], 2⟩ Option.none true "linux").errors :=
  computeLevels_cycle_s4.2.2 _ Option.none true "linux" ⟨[0, 1]⟩ rfl

/-! ## C6: wrapping constant folds of Add/Sub/Mul -/

/-- C6.  For all `i64` operands, including overflowing pairs, Basic
constant folding evaluates `Add`/`Sub`/`Mul` of two integer literals to
the two's-complement wrapping `i64` sum, difference and product; in a
plan, the folded op is removed and downstream references are rewritten to
the wrapped literal. -/
theorem basic_fold_wrapping_arithmetic (a b : Int) (_ha : isI64 a)
    (_hb : isI64 b) :
    (evaluatePure (.add (.literal (.int a)) (.literal (.int b))) =
      .folded (.int (wrap64 (a + b)))) ∧
    (evaluatePure (.sub (.literal (.int a)) (.literal (.int b))) =
      .folded (.int (wrap64 (a - b)))) ∧
    (evaluatePure (.mul (.literal (.int a)) (.literal (.int b))) =
      .folded (.int (wrap64 (a * b)))) ∧
    (optimize .basic
      ⟨[.mk 0 (.add (.literal (.int a)) (.literal (.int b))) []
          Option.none Option.none,
        .mk 1 (.print (.opOutput 0 [])) [0] Option.none Option.none], 2⟩ =
      some ⟨[.mk 1 (.print (.literal (.int (wrap64 (a + b))))) [0]
          Option.none Option.none], 2⟩) :=
  ⟨rfl, rfl, rfl, rfl⟩

/-- C6 witness: `2^62 + 2^62` wraps to `i64::MIN`. -/
theorem basic_fold_wrapping_arithmetic_witness :
    (evaluatePure (.add (.literal (.int (2 ^ 62))) (.literal (.int (2 ^ 62))))
      = .folded (.int (wrap64 (2 ^ 62 + 2 ^ 62)))) ∧
    wrap64 (2 ^ 62 + 2 ^ 62) = -(2 ^ 63) :=
  ⟨(basic_fold_wrapping_arithmetic (2 ^ 62) (2 ^ 62) (by decide)
      (by decide)).1,
   by decide⟩

/-! ## C7: division folds -/

/-- C7 counterexample.  The claim asserts that for all integer literals
with `b ≠ 0`, `FloorDiv{a,b}` folds to the truncated quotient and
`Mod{a,b}` to the truncated remainder.  At `a = i64::MIN`, `b = -1` the
quotient `2^63` is not representable and Rust's `/` and `%` panic in
every build profile ("attempt to divide with overflow"), so the fold does
not produce an `Int` — the embedded evaluator yields the explicit panic
outcome, and `optimize` on a plan containing the op aborts instead of
folding it. -/
theorem floorDiv_mod_min_panic_counterexample :
    (evaluatePure (.floorDiv (.literal (.int i64min))
      (.literal (.int (-1)))) = .panic) ∧
    (evaluatePure (.mod (.literal (.int i64min)) (.literal (.int (-1)))) =
      .panic) ∧
    (optimize .basic
      ⟨[.mk 0 (.floorDiv (.literal (.int i64min)) (.literal (.int (-1))))
          [] Option.none Option.none], 1⟩ = Option.none) :=
  ⟨rfl, rfl, rfl⟩

/-- C7 amended.  For all `i64` literals `a`, `b` with `b ≠ 0`: `Div{a,b}`
folds to the `f64` quotient of the converted operands (true division on
integers always yields a float); except on the overflow pair
`(i64::MIN, -1)` — where the fold panics — `FloorDiv{a,b}` folds to the
quotient truncated toward zero and `Mod{a,b}` to the remainder of
truncated division (sign of the dividend).  With `b = 0` none of the
three folds, and the op remains in the Basic-optimized plan. -/
theorem basic_fold_division_amended (a b : Int) (_ha : isI64 a)
    (_hb : isI64 b) (hb0 : b ≠ 0) :
    (evaluatePure (.div (.literal (.int a)) (.literal (.int b))) =
      .folded (.float (F64.div (F64.ofInt a) (F64.ofInt b)))) ∧
    (¬(a = i64min ∧ b = -1) →
      (evaluatePure (.floorDiv (.literal (.int a)) (.literal (.int b))) =
        .folded (.int (Int.tdiv a b))) ∧
      (evaluatePure (.mod (.literal (.int a)) (.literal (.int b))) =
        .folded (.int (Int.tmod a b)))) ∧
    ((a = i64min ∧ b = -1) →
      (evaluatePure (.floorDiv (.literal (.int a)) (.literal (.int b))) =
        .panic) ∧
      (evaluatePure (.mod (.literal (.int a)) (.literal (.int b))) =
        .panic)) ∧
    (evaluatePure (.div (.literal (.int a)) (.literal (.int 0))) =
      .noFold) ∧
    (evaluatePure (.floorDiv (.literal (.int a)) (.literal (.int 0))) =
      .noFold) ∧
    (evaluatePure (.mod (.literal (.int a)) (.literal (.int 0))) =
      .noFold) ∧
    (optimize .basic
      ⟨[.mk 0 (.div (.literal (.int a)) (.literal (.int 0))) []
          Option.none Option.none], 1⟩ =
      some ⟨[.mk 0 (.div (.literal (.int a)) (.literal (.int 0))) []
          Option.none Option.none], 1⟩) := by
  refine ⟨?_, ?_, ?_, rfl, rfl, rfl, rfl⟩
  · simp only [evaluatePure, extractBinaryNumeric, extractLiteral,
      Option.bind_eq_bind, Option.some_bind]
    rw [if_pos hb0]
  · intro hmin
    constructor
    · simp only [evaluatePure, extractBinaryNumeric, extractLiteral,
        Option.bind_eq_bind, Option.some_bind]
      rw [if_pos hb0, if_neg hmin]
    · simp only [evaluatePure, extractBinaryNumeric, extractLiteral,
        Option.bind_eq_bind, Option.some_bind]
      rw [if_pos hb0, if_neg hmin]
  · intro hmin
    constructor
    · simp only [evaluatePure, extractBinaryNumeric, extractLiteral,
        Option.bind_eq_bind, Option.some_bind]
      rw [if_pos hb0, if_pos hmin]
    · simp only [evaluatePure, extractBinaryNumeric, extractLiteral,
        Option.bind_eq_bind, Option.some_bind]
      rw [if_pos hb0, if_pos hmin]

/-- C7 witness: `7 / 2` folds to the float `3.5`
(bits `0x400C000000000000`), `(-7) / 2` truncates to `-3` and
`(-7) % 2 = -1` (sign of the dividend). -/
theorem basic_fold_division_amended_witness :
    (evaluatePure (.div (.literal (.int 7)) (.literal (.int 2))) =
      .folded (.float (F64.div (F64.ofInt 7) (F64.ofInt 2)))) ∧
    (F64.div (F64.ofInt 7) (F64.ofInt 2)).bits = 0x400C000000000000 ∧
    (evaluatePure (.floorDiv (.literal (.int (-7))) (.literal (.int 2))) =
      .folded (.int (Int.tdiv (-7) 2))) ∧
    Int.tdiv (-7) 2 = -3 ∧
    (evaluatePure (.mod (.literal (.int (-7))) (.literal (.int 2))) =
      .folded (.int (Int.tmod (-7) 2))) ∧
    Int.tmod (-7) 2 = -1 := by
  have h7 := basic_fold_division_amended 7 2 (by decide) (by decide)
    (by decide)
  have hm := basic_fold_division_amended (-7) 2 (by decide) (by decide)
    (by decide)
  exact ⟨h7.1, by decide, (hm.2.1 (by decide)).1, by decide,
    (hm.2.1 (by decide)).2, by decide⟩

/-! ## C3: Aggressive optimization preserves side-effecting ops -/

theorem withKind_id (o : Op) (k : OpKind) : (o.withKind k).id = o.id := by
  cases o; rfl

theorem withKind_kind (o : Op) (k : OpKind) : (o.withKind k).kind = k := by
  cases o; rfl

/-- Reference substitution rebuilds the same constructor, so it preserves
the side-effect classification. -/
theorem hasSideEffects_mapRefs (f : ValueRef → ValueRef) (k : OpKind) :
    (k.mapRefs f).hasSideEffects = k.hasSideEffects := by
  cases k <;> rfl

/-- `evaluate_pure` never produces a value for a side-effecting kind (all
side-effect kinds fall into its catch-all `None` arm). -/
theorem evaluatePure_folded_not_se (k : OpKind) (v : RecordedValue)
    (h : evaluatePure k = .folded v) : k.hasSideEffects = false := by
  cases k <;> simp_all [evaluatePure, OpKind.hasSideEffects]

/-- The per-op correspondence maintained by the optimizer passes. -/
def opCorr (o o' : Op) : Prop :=
  o'.id = o.id ∧ o'.kind.hasSideEffects = o.kind.hasSideEffects

theorem opCorr_trans {a b c : Op} (h1 : opCorr a b) (h2 : opCorr b c) :
    opCorr a c :=
  ⟨h2.1.trans h1.1, h2.2.trans h1.2⟩

theorem forall2_opCorr_trans :
    ∀ {l m r : List Op}, List.Forall₂ opCorr l m → List.Forall₂ opCorr m r →
      List.Forall₂ opCorr l r := by
  intro l m r h1 h2
  induction h1 generalizing r with
  | nil => cases h2; exact .nil
  | cons h _ ih =>
      cases h2 with
      | cons h' t' => exact .cons (opCorr_trans h h') (ih t')

theorem forall2_mem_left {R : Op → Op → Prop} :
    ∀ {l r : List Op}, List.Forall₂ R l r → ∀ o ∈ l, ∃ o' ∈ r, R o o' := by
  intro l r h
  induction h with
  | nil => intro o ho; cases ho
  | cons hR _ ih =>
      intro o ho
      rcases ho with _ | ho
      · exact ⟨_, List.mem_cons_self _ _, hR⟩
      · obtain ⟨o', ho', hr⟩ := ih o (by assumption)
        exact ⟨o', List.mem_cons_of_mem _ ho', hr⟩

theorem forall2_mem_right {R : Op → Op → Prop} :
    ∀ {l r : List Op}, List.Forall₂ R l r → ∀ o' ∈ r, ∃ o ∈ l, R o o' := by
  intro l r h
  induction h with
  | nil => intro o ho; cases ho
  | cons hR _ ih =>
      intro o' ho'
      rcases ho' with _ | ho'
      · exact ⟨_, List.mem_cons_self _ _, hR⟩
      · obtain ⟨o, ho, hr⟩ := ih o' (by assumption)
        exact ⟨o, List.mem_cons_of_mem _ ho, hr⟩

/-- Distinct-ids lists determine their elements by id. -/
theorem nodup_ids_unique :
    ∀ {l : List Op}, (l.map Op.id).Nodup →
      ∀ a ∈ l, ∀ b ∈ l, a.id = b.id → a = b := by
  intro l
  induction l with
  | nil => intro _ a ha; cases ha
  | cons x xs ih =>
      intro h a ha b hb heq
      simp only [List.map_cons, List.nodup_cons] at h
      rcases List.mem_cons.mp ha with rfl | ha2 <;>
        rcases List.mem_cons.mp hb with rfl | hb2
      · rfl
      · exact absurd (List.mem_map.mpr ⟨b, hb2, heq.symm⟩) h.1
      · exact absurd (List.mem_map.mpr ⟨a, ha2, heq⟩) h.1
      · exact ih h.2 a ha2 b hb2 heq

theorem foldedLookup_append_isSome (l1 l2 : List (OpId × RecordedValue))
    (id : OpId) :
    (foldedLookup (l1 ++ l2) id).isSome =
      ((foldedLookup l1 id).isSome || (foldedLookup l2 id).isSome) := by
  induction l1 with
  | nil => simp [foldedLookup]
  | cons e rest ih =>
      by_cases h : e.1 = id
      · simp [foldedLookup, h]
      · simpa [foldedLookup, h] using ih

/-- Spec of one constant-folding pass: ops keep their ids and side-effect
classification pointwise, and every folded id either was already folded
or belongs to a non-side-effecting op of the pass's input list. -/
theorem foldPass_spec :
    ∀ (ops : List Op) (folded : List (OpId × RecordedValue)) (ch : Bool) r,
      foldPass ops folded ch = some r →
      List.Forall₂ opCorr ops r.1 ∧
      (∀ id, (foldedLookup r.2.1 id).isSome = true →
        (foldedLookup folded id).isSome = true ∨
          ∃ op ∈ ops, op.id = id ∧ op.kind.hasSideEffects = false) := by
  intro ops
  induction ops with
  | nil =>
      intro folded ch r h
      simp only [foldPass] at h
      cases h
      exact ⟨.nil, fun id h => .inl h⟩
  | cons op rest ih =>
      intro folded ch r h
      simp only [foldPass] at h
      set op' := op.withKind (op.kind.mapRefs (substRef folded)) with hop'
      have hcorr : opCorr op op' := by
        constructor
        · rw [hop', withKind_id]
        · rw [hop', withKind_kind, hasSideEffects_mapRefs]
      by_cases hcond :
          (foldedLookup folded op.id).isNone = true ∧ op'.kind.canFold = true
      · rw [if_pos (by simp [hcond.1, hcond.2])] at h
        rcases hev : evaluatePure op'.kind with v | _ | _ <;> rw [hev] at h
        · simp only [Option.some_bind] at h
          cases hrec : foldPass rest (folded ++ [(op.id, v)]) true with
          | none => rw [hrec] at h; cases h
          | some r' =>
              rw [hrec] at h
              simp only [Option.map_some'] at h
              cases h
              obtain ⟨hf2, hprov⟩ := ih (folded ++ [(op.id, v)]) true r' hrec
              refine ⟨.cons hcorr hf2, ?_⟩
              intro id hidsome
              rcases hprov id hidsome with hold | ⟨opx, hmem, hid, hse⟩
              · rw [foldedLookup_append_isSome] at hold
                rcases Bool.or_eq_true_iff.mp hold with h1 | h2
                · exact .inl h1
                · right
                  refine ⟨op, List.mem_cons_self _ _, ?_, ?_⟩
                  · simp only [foldedLookup] at h2
                    by_cases hx : op.id = id
                    · exact hx
                    · simp [hx] at h2
                  · have := evaluatePure_folded_not_se _ _ hev
                    rw [withKind_kind, hasSideEffects_mapRefs] at this
                    exact this
              · exact .inr ⟨opx, List.mem_cons_of_mem _ hmem, hid, hse⟩
        · simp only [Option.some_bind] at h
          cases hrec : foldPass rest folded ch with
          | none => rw [hrec] at h; cases h
          | some r' =>
              rw [hrec] at h
              simp only [Option.map_some'] at h
              cases h
              obtain ⟨hf2, hprov⟩ := ih folded ch r' hrec
              refine ⟨.cons hcorr hf2, ?_⟩
              intro id hidsome
              rcases hprov id hidsome with hold | ⟨opx, hmem, hid, hse⟩
              · exact .inl hold
              · exact .inr ⟨opx, List.mem_cons_of_mem _ hmem, hid, hse⟩
        · simp only at h; cases h
      · rw [if_neg (by
          intro hc
          exact hcond ⟨by simpa using (Bool.and_eq_true_iff.mp hc).1,
            (Bool.and_eq_true_iff.mp hc).2⟩)] at h
        simp only [Option.some_bind] at h
        cases hrec : foldPass rest folded ch with
        | none => rw [hrec] at h; cases h
        | some r' =>
            rw [hrec] at h
            simp only [Option.map_some'] at h
            cases h
            obtain ⟨hf2, hprov⟩ := ih folded ch r' hrec
            refine ⟨.cons hcorr hf2, ?_⟩
            intro id hidsome
            rcases hprov id hidsome with hold | ⟨opx, hmem, hid, hse⟩
            · exact .inl hold
            · exact .inr ⟨opx, List.mem_cons_of_mem _ hmem, hid, hse⟩

/-- Spec of the constant-folding loop (any fuel). -/
theorem foldLoop_spec :
    ∀ (fuel : Nat) (ops : List Op) (folded : List (OpId × RecordedValue)) r,
      foldLoop fuel ops folded = some r →
      List.Forall₂ opCorr ops r.1 ∧
      (∀ id, (foldedLookup r.2 id).isSome = true →
        (foldedLookup folded id).isSome = true ∨
          ∃ op ∈ ops, op.id = id ∧ op.kind.hasSideEffects = false) := by
  intro fuel
  induction fuel with
  | zero =>
      intro ops folded r h
      simp only [foldLoop] at h
      cases h
      exact ⟨List.forall₂_same.mpr (fun o _ => ⟨rfl, rfl⟩), fun id h => .inl h⟩
  | succ fuel ih =>
      intro ops folded r h
      simp only [foldLoop] at h
      split at h
      · cases h
      · rename_i ops1 folded1 ch1 hpass
        obtain ⟨hf2, hprov⟩ := foldPass_spec ops folded false _ hpass
        split at h
        · obtain ⟨hf2', hprov'⟩ := ih ops1 folded1 r h
          refine ⟨forall2_opCorr_trans hf2 hf2', ?_⟩
          intro id hid
          rcases hprov' id hid with hcur | ⟨opx, hmem, hidx, hse⟩
          · exact hprov id hcur
          · obtain ⟨op0, hmem0, hcorr⟩ := forall2_mem_right hf2 opx hmem
            exact .inr ⟨op0, hmem0, hcorr.1 ▸ hidx, hcorr.2 ▸ hse⟩
        · cases h
          exact ⟨hf2, hprov⟩

/-- `constant_fold` keeps every side-effecting op (same id, side-effecting
kind), assuming the plan's op ids are distinct (the `Plan` data model's
dense monotone id assignment). -/
theorem constantFold_preserves_se (p : Plan) (q : Plan)
    (hnodup : (planIds p.ops).Nodup) (h : constantFold p = some q) :
    ∀ op ∈ p.ops, op.kind.hasSideEffects = true →
      ∃ op' ∈ q.ops, op'.id = op.id ∧ op'.kind.hasSideEffects = true := by
  intro op hmem hse
  simp only [constantFold] at h
  cases hloop : foldLoop (p.ops.length + 1) p.ops [] with
  | none => rw [hloop] at h; cases h
  | some r =>
      rw [hloop] at h
      simp only [Option.map_some'] at h
      obtain ⟨hf2, hprov⟩ := foldLoop_spec _ _ _ _ hloop
      obtain ⟨op', hmem', hcorr⟩ := forall2_mem_left hf2 op hmem
      cases h
      refine ⟨op', ?_, hcorr.1, hcorr.2.trans hse⟩
      simp only [Plan.removeOps, List.mem_filter]
      refine ⟨hmem', ?_⟩
      by_cases hfold : (foldedLookup r.2 op'.id).isSome = true
      · rcases hprov op'.id hfold with habs | ⟨opx, hmemx, hidx, hsex⟩
        · simp [foldedLookup] at habs
        · exfalso
          rw [hcorr.1] at hidx
          have heq : opx = op := nodup_ids_unique hnodup opx hmemx op hmem hidx
          rw [heq, hse] at hsex
          cases hsex
      · simp only [Bool.not_eq_true] at hfold
        simp [hfold]

/-- Marking ids never discards already-live ids. -/
theorem dceAdd_mono (l : List OpId) (acc : List OpId × Bool) (id : OpId)
    (h : id ∈ acc.1) : id ∈ (l.foldl dceAdd acc).1 := by
  induction l generalizing acc with
  | nil => exact h
  | cons x xs ih =>
      simp only [List.foldl_cons]
      apply ih
      unfold dceAdd
      by_cases hx : acc.1.contains x = true
      · rw [if_pos hx]; exact h
      · rw [if_neg hx]
        exact List.mem_append_left _ h

theorem dceStep_mono (ops : List Op) (acc : List OpId × Bool) (id : OpId)
    (h : id ∈ acc.1) : id ∈ (ops.foldl dceStep acc).1 := by
  induction ops generalizing acc with
  | nil => exact h
  | cons op rest ih =>
      simp only [List.foldl_cons]
      apply ih
      unfold dceStep
      by_cases hc : acc.1.contains op.id = true
      · rw [if_pos hc]
        exact dceAdd_mono _ _ _ (dceAdd_mono _ _ _ h)
      · rw [if_neg hc]
        exact h

/-- Liveness only grows during one DCE pass. -/
theorem dcePass_mono (ops : List Op) (used : List OpId) :
    ∀ id ∈ used, id ∈ (dcePass ops used).1 := by
  intro id h
  have he : dcePass ops used = ops.foldl dceStep (used, false) := rfl
  rw [he]
  exact dceStep_mono ops (used, false) id h

/-- Liveness only grows across the DCE fixpoint loop. -/
theorem dceLoop_mono (fuel : Nat) (ops : List Op) (used : List OpId) :
    ∀ id ∈ used, id ∈ dceLoop fuel ops used := by
  induction fuel generalizing used with
  | zero => intro id h; exact h
  | succ fuel ih =>
      intro id h
      simp only [dceLoop]
      by_cases hc : (dcePass ops used).2 = true
      · rw [if_pos hc]
        exact ih _ id (dcePass_mono ops used id h)
      · rw [if_neg hc]
        exact dcePass_mono ops used id h

/-- `dead_code_eliminate` keeps every side-effecting op unchanged. -/
theorem dce_preserves_se (p : Plan) :
    ∀ op ∈ p.ops, op.kind.hasSideEffects = true →
      op ∈ (deadCodeEliminate p).ops := by
  intro op hmem hse
  have hseed : op.id ∈ dceSeed p.ops := by
    simp only [dceSeed, List.mem_map]
    exact ⟨op, List.mem_filter.mpr ⟨hmem, hse⟩, rfl⟩
  have hused := dceLoop_mono (2 * p.ops.length + 1) p.ops (dceSeed p.ops)
    op.id hseed
  simp only [deadCodeEliminate, Plan.removeOps, List.mem_filter]
  exact ⟨hmem, by simp [hused]⟩

/-- C3.  Every side-effecting op of a plan survives Aggressive
optimization with its id and a side-effecting kind: constant folding
never folds side-effect kinds (their evaluator arm is `None` and
reference substitution preserves the constructor), and dead-code
elimination's live set is seeded with every side-effecting op.  The
`Nodup` hypothesis is the plan data model's dense-id invariant (ids are
assigned monotonically by `add_op`); `optimize` is `Option`-valued only
because a fold of `i64::MIN / -1` panics (claim C7). -/
theorem aggressive_preserves_side_effects (p : Plan)
    (hnodup : (planIds p.ops).Nodup) (q : Plan)
    (hopt : optimize .aggressive p = some q) :
    ∀ op ∈ p.ops, op.kind.hasSideEffects = true →
      ∃ op' ∈ q.ops, op'.id = op.id ∧ op'.kind.hasSideEffects = true := by
  intro op hmem hse
  simp only [optimize] at hopt
  cases hcf : constantFold p with
  | none => rw [hcf] at hopt; cases hopt
  | some mid =>
      rw [hcf] at hopt
      simp only [Option.map_some'] at hopt
      obtain ⟨op', hmem', hid, hse'⟩ :=
        constantFold_preserves_se p mid hnodup hcf op hmem hse
      refine ⟨op', ?_, hid, hse'⟩
      cases Option.some.inj hopt
      exact dce_preserves_se mid op' hmem' hse'

/-- C3 witness: in the two-op plan `Add(1,2); Print("hello")`, the `Print`
op (id 1) survives Aggressive optimization. -/
theorem aggressive_preserves_side_effects_witness :
    ∃ op' ∈ (Plan.mk [Op.mk 1 (.print (.literal (.string "hello"))) []
        Option.none Option.none] 2).ops,
      op'.id = 1 ∧ op'.kind.hasSideEffects = true := by
  have happ := aggressive_preserves_side_effects
    ⟨[.mk 0 (.add (.literal (.int 1)) (.literal (.int 2))) []
        Option.none Option.none,
      .mk 1 (.print (.literal (.string "hello"))) [] Option.none Option.none],
     2⟩
    (by decide)
    ⟨[.mk 1 (.print (.literal (.string "hello"))) [] Option.none Option.none],
     2⟩
    rfl
    (.mk 1 (.print (.literal (.string "hello"))) [] Option.none Option.none)
    (by simp)
    rfl
  exact happ

/-! ## C4: bincode round-trip, primitive layers -/

theorem encLE_length : ∀ (k n : Nat), (encLE k n).length = k := by
  intro k
  induction k with
  | zero => intro n; rfl
  | succ k ih => intro n; simp [encLE, ih]

theorem decLE_encLE :
    ∀ (k n : Nat) (rest : List Nat), n < 2 ^ (8 * k) →
      decLE k (encLE k n ++ rest) = some (n, rest) := by
  intro k
  induction k with
  | zero =>
      intro n rest h
      have : n = 0 := by simpa using h
      subst this
      rfl
  | succ k ih =>
      intro n rest h
      have hdiv : n / 2 ^ 8 < 2 ^ (8 * k) := by
        rw [Nat.div_lt_iff_lt_mul (by norm_num)]
        calc n < 2 ^ (8 * (k + 1)) := h
          _ = 2 ^ (8 * k) * 2 ^ 8 := by
            rw [show 8 * (k + 1) = 8 * k + 8 by ring, pow_add]
      have step : decLE (k + 1) (encLE (k + 1) n ++ rest) =
          (decLE k (encLE k (n / 2 ^ 8) ++ rest)).map
            (fun r => (n % 2 ^ 8 + 2 ^ 8 * r.1, r.2)) := rfl
      rw [step, ih (n / 2 ^ 8) rest hdiv, Option.map_some']
      have : n % 2 ^ 8 + 2 ^ 8 * (n / 2 ^ 8) = n := by omega
      rw [this]

theorem decU8_encU8 (n : Nat) (rest : List Nat) (h : n < 2 ^ 8) :
    decU8 (encU8 n ++ rest) = some (n, rest) :=
  decLE_encLE 1 n rest (by simpa using h)

theorem decU32_encU32 (n : Nat) (rest : List Nat) (h : n < 2 ^ 32) :
    decU32 (encU32 n ++ rest) = some (n, rest) :=
  decLE_encLE 4 n rest (by simpa using h)

theorem decU64_encU64 (n : Nat) (rest : List Nat) (h : n < 2 ^ 64) :
    decU64 (encU64 n ++ rest) = some (n, rest) :=
  decLE_encLE 8 n rest (by simpa using h)

theorem decBool_encBool (b : Bool) (rest : List Nat) :
    decBool (encBool b ++ rest) = some (b, rest) := by
  cases b <;> rfl

theorem decI64_encI64 (i : Int) (h : isI64 i) (rest : List Nat) :
    decI64 (encI64 i ++ rest) = some (i, rest) := by
  obtain ⟨h1, h2⟩ := h
  have hnn : (0 : Int) ≤ i % 2 ^ 64 := Int.emod_nonneg _ (by norm_num)
  have hlt : i % 2 ^ 64 < 2 ^ 64 := Int.emod_lt_of_pos _ (by norm_num)
  have htn : (i % 2 ^ 64).toNat < 2 ^ 64 := by omega
  simp only [decI64, encI64, decU64_encU64 _ rest htn, Option.map_some']
  have : (if (i % 2 ^ 64).toNat < 2 ^ 63 then (((i % 2 ^ 64).toNat : Int))
      else ((i % 2 ^ 64).toNat : Int) - 2 ^ 64) = i := by
    split_ifs with hc <;> omega
  rw [this]

theorem decF64bits_encF64bits (f : F64) (hf : f.bits < 2 ^ 64)
    (rest : List Nat) : decF64bits (encF64bits f ++ rest) = some (f, rest) := by
  simp only [decF64bits, encF64bits, decU64_encU64 _ rest hf, Option.map_some']

theorem charUtf8_length_pos (c : Char) : 0 < (charUtf8 c).length := by
  simp only [charUtf8]
  split_ifs <;> simp

theorem utf8DecodeF_step (f : Nat) (bs : List Nat) (c : Char)
    (rest : List Nat) (h : utf8DecodeOne bs = some (c, rest))
    (hne : bs ≠ []) :
    utf8DecodeF (f + 1) bs = (utf8DecodeF f rest).map (c :: ·) := by
  rcases bs with _ | ⟨b0, t⟩
  · cases hne rfl
  · simp only [utf8DecodeF, h]

theorem utf8DecodeOne_charUtf8 (c : Char) (rest : List Nat) :
    utf8DecodeOne (charUtf8 c ++ rest) = some (c, rest) := by
  have hval : c.toNat < 0xd800 ∨ (0xe000 ≤ c.toNat ∧ c.toNat < 0x110000) := by
    have h := c.valid
    unfold UInt32.isValidChar Nat.isValidChar at h
    exact h
  unfold charUtf8
  by_cases h1 : c.toNat < 0x80
  · rw [if_pos h1]
    simp only [List.cons_append, List.nil_append, utf8DecodeOne]
    rw [if_pos h1, Char.ofNat_toNat]
  · rw [if_neg h1]
    by_cases h2 : c.toNat < 0x800
    · rw [if_pos h2]
      simp only [List.cons_append, List.nil_append, utf8DecodeOne]
      rw [if_neg (by omega), if_pos ⟨by omega, by omega⟩]
      have hv : (0xC0 + c.toNat / 64 - 0xC0) * 64 +
          (0x80 + c.toNat % 64 - 0x80) = c.toNat := by omega
      rw [hv, Char.ofNat_toNat]
    · by_cases h3 : c.toNat < 0x10000
      · rw [if_neg h2, if_pos h3]
        simp only [List.cons_append, List.nil_append, utf8DecodeOne]
        rw [if_neg (by omega), if_neg (by omega), if_pos ⟨by omega, by omega⟩]
        have hv : (0xE0 + c.toNat / 4096 - 0xE0) * 4096 +
            (0x80 + c.toNat / 64 % 64 - 0x80) * 64 +
            (0x80 + c.toNat % 64 - 0x80) = c.toNat := by omega
        rw [hv, Char.ofNat_toNat]
      · have h4 : c.toNat < 0x110000 := by omega
        rw [if_neg h2, if_neg h3]
        simp only [List.cons_append, List.nil_append, utf8DecodeOne]
        rw [if_neg (by omega), if_neg (by omega), if_neg (by omega)]
        have hv : (0xF0 + c.toNat / 262144 - 0xF0) * 262144 +
            (0x80 + c.toNat / 4096 % 64 - 0x80) * 4096 +
            (0x80 + c.toNat / 64 % 64 - 0x80) * 64 +
            (0x80 + c.toNat % 64 - 0x80) = c.toNat := by omega
        rw [hv, Char.ofNat_toNat]

theorem utf8DecodeF_chars :
    ∀ (cs : List Char) (fuel : Nat), (cs.flatMap charUtf8).length ≤ fuel →
      utf8DecodeF fuel (cs.flatMap charUtf8) = some cs := by
  intro cs
  induction cs with
  | nil => intro fuel _; cases fuel <;> rfl
  | cons c cs ih =>
      intro fuel hf
      rw [List.flatMap_cons] at hf ⊢
      have hcpos := charUtf8_length_pos c
      have hfpos : 0 < fuel := by
        rw [List.length_append] at hf
        omega
      obtain ⟨f, rfl⟩ : ∃ f, fuel = f + 1 := ⟨fuel - 1, by omega⟩
      have hne : charUtf8 c ++ cs.flatMap charUtf8 ≠ [] := by
        intro h0
        rw [List.append_eq_nil] at h0
        rw [h0.1] at hcpos
        exact absurd hcpos (by simp)
      rw [utf8DecodeF_step f _ c _ (utf8DecodeOne_charUtf8 c _) hne]
      rw [ih f (by
        rw [List.length_append] at hf
        omega)]
      rfl

theorem utf8Decode_chars (cs : List Char) :
    utf8Decode (cs.flatMap charUtf8) = some cs :=
  utf8DecodeF_chars cs _ le_rfl

theorem decStr_encStr (s : String) (h : wfStr s = true) (rest : List Nat) :
    decStr (encStr s ++ rest) = some (s, rest) := by
  have hlen : (strUtf8 s).length < 2 ^ 64 := by
    simpa [wfStr] using h
  simp only [encStr, decStr, List.append_assoc,
    decU64_encU64 _ _ hlen]
  rw [if_neg (by simp)]
  rw [List.take_left, List.drop_left]
  rw [show strUtf8 s = s.data.flatMap charUtf8 from rfl, utf8Decode_chars]

theorem decRawBytes_encRawBytes (bs : List Nat)
    (hlen : bs.length < 2 ^ 64) (hb : bs.all (fun b => decide (b < 256)) = true)
    (rest : List Nat) :
    decRawBytes (encRawBytes bs ++ rest) = some (bs, rest) := by
  have hmap : bs.map (· % 2 ^ 8) = bs := by
    clear hlen
    induction bs with
    | nil => rfl
    | cons x xs ih =>
        simp only [List.all_cons, Bool.and_eq_true, decide_eq_true_eq] at hb
        have hx : x % 2 ^ 8 = x := Nat.mod_eq_of_lt (by omega)
        rw [List.map_cons, hx, ih hb.2]
  simp only [encRawBytes, decRawBytes, List.append_assoc,
    decU64_encU64 _ _ hlen, hmap]
  rw [if_neg (by simp)]
  rw [List.take_left, List.drop_left]

theorem decU64Items_enc :
    ∀ (l : List Nat) (rest : List Nat),
      l.all (fun o => decide (o < 2 ^ 64)) = true →
      decU64Items l.length (l.flatMap encU64 ++ rest) = some (l, rest) := by
  intro l
  induction l with
  | nil => intro rest _; rfl
  | cons x xs ih =>
      intro rest h
      simp only [List.all_cons, Bool.and_eq_true, decide_eq_true_eq] at h
      simp only [List.flatMap_cons, List.length_cons, decU64Items,
        List.append_assoc, decU64_encU64 _ _ h.1,
        ih rest (by simpa using h.2), Option.map_some']

theorem decU64List_enc (l : List Nat) (hlen : l.length < 2 ^ 64)
    (h : l.all (fun o => decide (o < 2 ^ 64)) = true) (rest : List Nat) :
    decU64List (encU64List l ++ rest) = some (l, rest) := by
  simp only [encU64List, decU64List, List.append_assoc,
    decU64_encU64 _ _ hlen]
  exact decU64Items_enc l rest h

theorem decOptStr_encOptStr (o : Option String)
    (h : (match o with | some s => wfStr s | Option.none => true) = true)
    (rest : List Nat) : decOptStr (encOptStr o ++ rest) = some (o, rest) := by
  cases o with
  | none => rfl
  | some s =>
      simp only [encOptStr, List.cons_append, decOptStr]
      rw [decStr_encStr s h rest]
      rfl

theorem decAccessor_encAccessor (a : Accessor) (h : wfAccessor a = true)
    (rest : List Nat) : decAccessor (encAccessor a ++ rest) = some (a, rest) := by
  cases a with
  | field name =>
      simp only [wfAccessor] at h
      simp only [encAccessor, decAccessor, List.append_assoc,
        decU32_encU32 0 _ (by norm_num), decStr_encStr name h rest,
        Option.map_some']
  | index i =>
      simp only [wfAccessor, decide_eq_true_eq] at h
      simp only [encAccessor, decAccessor, List.append_assoc,
        decU32_encU32 1 _ (by norm_num), decI64_encI64 i h rest,
        Option.map_some']

theorem decAccessorItems_enc :
    ∀ (l : List Accessor) (rest : List Nat), l.all wfAccessor = true →
      decAccessorItems l.length (l.flatMap encAccessor ++ rest) =
        some (l, rest) := by
  intro l
  induction l with
  | nil => intro rest _; rfl
  | cons x xs ih =>
      intro rest h
      simp only [List.all_cons, Bool.and_eq_true] at h
      simp only [List.flatMap_cons, List.length_cons, decAccessorItems,
        List.append_assoc, decAccessor_encAccessor x h.1,
        ih rest h.2, Option.map_some']

theorem decAccessorList_enc (l : List Accessor) (hlen : l.length < 2 ^ 64)
    (h : l.all wfAccessor = true) (rest : List Nat) :
    decAccessorList (encAccessorList l ++ rest) = some (l, rest) := by
  simp only [encAccessorList, decAccessorList, List.append_assoc,
    decU64_encU64 _ _ hlen]
  exact decAccessorItems_enc l rest h

theorem decStrItems_enc :
    ∀ (l : List String) (rest : List Nat), l.all wfStr = true →
      decStrItems l.length (l.flatMap encStr ++ rest) = some (l, rest) := by
  intro l
  induction l with
  | nil => intro rest _; rfl
  | cons x xs ih =>
      intro rest h
      simp only [List.all_cons, Bool.and_eq_true] at h
      simp only [List.flatMap_cons, List.length_cons, decStrItems,
        List.append_assoc, decStr_encStr x h.1, ih rest h.2,
        Option.map_some']

theorem decStrList_enc (l : List String) (hlen : l.length < 2 ^ 64)
    (h : l.all wfStr = true) (rest : List Nat) :
    decStrList (encStrList l ++ rest) = some (l, rest) := by
  simp only [encStrList, decStrList, List.append_assoc,
    decU64_encU64 _ _ hlen]
  exact decStrItems_enc l rest h

theorem decOptSpan_encOptSpan (o : Option SourceSpan) (h : wfSpan o = true)
    (rest : List Nat) : decOptSpan (encOptSpan o ++ rest) = some (o, rest) := by
  cases o with
  | none => rfl
  | some sp =>
      simp only [wfSpan, Bool.and_eq_true, decide_eq_true_eq] at h
      simp only [encOptSpan, List.cons_append, decOptSpan, List.append_assoc,
        decU32_encU32 _ _ h.1, decU32_encU32 _ _ h.2, Option.map_some']

theorem encU8_length (n : Nat) : (encU8 n).length = 1 := encLE_length 1 n

theorem encU32_length (n : Nat) : (encU32 n).length = 4 := encLE_length 4 n

theorem encU64_length (n : Nat) : (encU64 n).length = 8 := encLE_length 8 n

/-- Round-trip for `RecordedValue`: enough fuel (more than the encoded
size) decodes an encoded well-formed value exactly, leaving the rest. -/
theorem decRV_encRV :
    ∀ (fuel : Nat) (v : RecordedValue) (rest : List Nat), wfRV v = true →
      (encRV v).length < fuel →
      decRV fuel (encRV v ++ rest) = some (v, rest) := by
  intro fuel
  induction fuel with
  | zero => intro v rest _ h; exact absurd h (Nat.not_lt_zero _)
  | succ f ih =>
      have items_rt : ∀ (vs : List RecordedValue) (r : List Nat),
          wfRVList vs = true → (encRVItems vs).length < f →
          decRVItems f vs.length (encRVItems vs ++ r) = some (vs, r) := by
        intro vs
        induction vs with
        | nil => intro r _ _; simp [encRVItems, decRVItems]
        | cons x xs ihx =>
            intro r hwf hlen
            simp only [encRVItems, List.length_append] at hlen
            simp only [wfRVList, Bool.and_eq_true] at hwf
            simp only [encRVItems, List.length_cons, decRVItems,
              List.append_assoc]
            rw [ih x _ hwf.1 (by omega)]
            dsimp only
            rw [ihx r hwf.2 (by omega)]
            rfl
      have pairs_rt : ∀ (ps : List (String × RecordedValue)) (r : List Nat),
          wfRVPairs ps = true → (encRVPairs ps).length < f →
          decRVPairs f ps.length (encRVPairs ps ++ r) = some (ps, r) := by
        intro ps
        induction ps with
        | nil => intro r _ _; simp [encRVPairs, decRVPairs]
        | cons p ps ihp =>
            intro r hwf hlen
            obtain ⟨k, v⟩ := p
            simp only [encRVPairs, List.length_append] at hlen
            simp only [wfRVPairs, Bool.and_eq_true] at hwf
            simp only [encRVPairs, List.length_cons, decRVPairs,
              List.append_assoc]
            rw [decStr_encStr k hwf.1.1]
            dsimp only
            rw [ih v _ hwf.1.2 (by omega)]
            dsimp only
            rw [ihp r hwf.2 (by omega)]
            rfl
      intro v rest hwf hlen
      cases v with
      | none =>
          simp only [encRV, decRV, List.append_assoc,
            decU32_encU32 0 rest (by norm_num)]
      | bool b =>
          simp only [encRV, decRV, List.append_assoc,
            decU32_encU32 1 (encBool b ++ rest) (by norm_num),
            decBool_encBool b rest, Option.map_some']
      | int i =>
          simp only [wfRV, decide_eq_true_eq] at hwf
          simp only [encRV, decRV, List.append_assoc,
            decU32_encU32 2 (encI64 i ++ rest) (by norm_num),
            decI64_encI64 i hwf rest, Option.map_some']
      | float x =>
          simp only [wfRV, decide_eq_true_eq] at hwf
          simp only [encRV, decRV, List.append_assoc,
            decU32_encU32 3 (encF64bits x ++ rest) (by norm_num),
            decF64bits_encF64bits x hwf rest, Option.map_some']
      | string s =>
          simp only [wfRV] at hwf
          simp only [encRV, decRV, List.append_assoc,
            decU32_encU32 4 (encStr s ++ rest) (by norm_num),
            decStr_encStr s hwf rest, Option.map_some']
      | bytes bs =>
          simp only [wfRV, Bool.and_eq_true, decide_eq_true_eq] at hwf
          simp only [encRV, decRV, List.append_assoc,
            decU32_encU32 5 (encRawBytes bs ++ rest) (by norm_num),
            decRawBytes_encRawBytes bs hwf.1 hwf.2 rest, Option.map_some']
      | list items =>
          simp only [wfRV, Bool.and_eq_true, decide_eq_true_eq] at hwf
          simp only [encRV, List.length_append, encU32_length,
            encU64_length] at hlen
          simp only [encRV, decRV, List.append_assoc,
            decU32_encU32 6 _ (by norm_num),
            decU64_encU64 items.length _ hwf.1]
          rw [items_rt items rest hwf.2 (by omega)]
          rfl
      | dict entries =>
          simp only [wfRV, Bool.and_eq_true, decide_eq_true_eq] at hwf
          simp only [encRV, List.length_append, encU32_length,
            encU64_length] at hlen
          simp only [encRV, decRV, List.append_assoc,
            decU32_encU32 7 _ (by norm_num),
            decU64_encU64 entries.length _ hwf.1.1]
          rw [pairs_rt entries rest hwf.2 (by omega)]
          rfl

/-- Round-trip for `ValueRef` under sufficient fuel. -/
theorem decVR_encVR :
    ∀ (fuel : Nat) (v : ValueRef) (rest : List Nat), wfVR v = true →
      (encVR v).length < fuel →
      decVR fuel (encVR v ++ rest) = some (v, rest) := by
  intro fuel
  induction fuel with
  | zero => intro v rest _ h; exact absurd h (Nat.not_lt_zero _)
  | succ f ih =>
      have items_rt : ∀ (vs : List ValueRef) (r : List Nat),
          wfVRList vs = true → (encVRItems vs).length < f →
          decVRItems f vs.length (encVRItems vs ++ r) = some (vs, r) := by
        intro vs
        induction vs with
        | nil => intro r _ _; simp [encVRItems, decVRItems]
        | cons x xs ihx =>
            intro r hwf hlen
            simp only [encVRItems, List.length_append] at hlen
            simp only [wfVRList, Bool.and_eq_true] at hwf
            simp only [encVRItems, List.length_cons, decVRItems,
              List.append_assoc]
            rw [ih x _ hwf.1 (by omega)]
            dsimp only
            rw [ihx r hwf.2 (by omega)]
            rfl
      intro v rest hwf hlen
      cases v with
      | literal rv =>
          simp only [wfVR] at hwf
          simp only [encVR, decVR, List.append_assoc,
            decU32_encU32 0 (encRV rv ++ rest) (by norm_num)]
          rw [decRV_encRV _ rv rest hwf (by
            simp only [List.length_append]
            omega)]
          rfl
      | opOutput op path =>
          simp only [wfVR, Bool.and_eq_true, decide_eq_true_eq] at hwf
          simp only [encVR, decVR, List.append_assoc,
            decU32_encU32 1 _ (by norm_num),
            decU64_encU64 op _ hwf.1.1]
          rw [decAccessorList_enc path hwf.1.2 hwf.2 rest]
          rfl
      | dynamic name =>
          simp only [wfVR] at hwf
          simp only [encVR, decVR, List.append_assoc,
            decU32_encU32 2 (encStr name ++ rest) (by norm_num),
            decStr_encStr name hwf rest, Option.map_some']
      | list items =>
          simp only [wfVR, Bool.and_eq_true, decide_eq_true_eq] at hwf
          simp only [encVR, List.length_append, encU32_length,
            encU64_length] at hlen
          simp only [encVR, decVR, List.append_assoc,
            decU32_encU32 3 _ (by norm_num),
            decU64_encU64 items.length _ hwf.1]
          rw [items_rt items rest hwf.2 (by omega)]
          rfl

/-- The fresh-fuel `ValueRef` field decoder inverts the encoder. -/
theorem dvDec_encVR (v : ValueRef) (h : wfVR v = true) (rest : List Nat) :
    dvDec (encVR v ++ rest) = some (v, rest) := by
  unfold dvDec
  exact decVR_encVR _ v rest h (by
    simp only [List.length_append]
    omega)

theorem dec1VR_enc (mk : ValueRef → OpKind) (v : ValueRef)
    (h : wfVR v = true) (rest : List Nat) :
    dec1VR mk (encVR v ++ rest) = some (mk v, rest) := by
  unfold dec1VR
  rw [dvDec_encVR v h rest]
  rfl

theorem dec2VR_enc (mk : ValueRef → ValueRef → OpKind) (a b : ValueRef)
    (ha : wfVR a = true) (hb : wfVR b = true) (rest : List Nat) :
    dec2VR mk (encVR a ++ (encVR b ++ rest)) = some (mk a b, rest) := by
  unfold dec2VR
  simp only [bind, Option.bind, dvDec_encVR a ha, dvDec_encVR b hb]
  rfl

theorem decOptVR_encOptVR (o : Option ValueRef) (h : wfOptVR o = true)
    (rest : List Nat) : decOptVR (encOptVR o ++ rest) = some (o, rest) := by
  cases o with
  | none => rfl
  | some v =>
      simp only [wfOptVR] at h
      simp only [encOptVR, List.cons_append, decOptVR]
      rw [show decVR ((encVR v ++ rest).length + 1) (encVR v ++ rest) =
        some (v, rest) from decVR_encVR _ v rest h (by
          simp only [List.length_append]
          omega)]
      rfl

set_option maxHeartbeats 2000000 in
/-- Round-trip for the mutual `OpKind`/`Op`/`SubPlan` encoders under
sufficient fuel (fuel exceeding the encoded size). -/
theorem bincode_kind_rt :
    ∀ (fuel : Nat),
      (∀ (k : OpKind) (rest : List Nat), wfOpKind k = true →
        (encOpKind k).length < fuel →
        decOpKind fuel (encOpKind k ++ rest) = some (k, rest)) ∧
      (∀ (op : Op) (rest : List Nat), wfOp op = true →
        (encOp op).length < fuel →
        decOp fuel (encOp op ++ rest) = some (op, rest)) ∧
      (∀ (sp : SubPlan) (rest : List Nat), wfSubPlan sp = true →
        (encSubPlan sp).length < fuel →
        decSubPlan fuel (encSubPlan sp ++ rest) = some (sp, rest)) ∧
      (∀ (o : Option SubPlan) (rest : List Nat),
        (match o with | some sp => wfSubPlan sp | Option.none => true) = true →
        (encOptSubPlan o).length < fuel →
        decOptSubPlan fuel (encOptSubPlan o ++ rest) = some (o, rest)) := by
  intro fuel
  induction fuel with
  | zero =>
      refine ⟨?_, ?_, ?_, ?_⟩ <;> intro x rest _ h <;>
        exact absurd h (Nat.not_lt_zero _)
  | succ f ih =>
      obtain ⟨ihk, ihop, ihs, ihos⟩ := ih
      have items_rt : ∀ (ops : List Op) (r : List Nat), wfOpList ops = true →
          (encOpList ops).length < f →
          decOpItems f ops.length (encOpList ops ++ r) = some (ops, r) := by
        intro ops
        induction ops with
        | nil => intro r _ _; simp [encOpList, decOpItems]
        | cons op ops ihl =>
            intro r hwf hlen
            simp only [encOpList, List.length_append] at hlen
            simp only [wfOpList, Bool.and_eq_true] at hwf
            simp only [encOpList, List.length_cons, decOpItems,
              List.append_assoc]
            rw [ihop op _ hwf.1 (by omega)]
            dsimp only
            rw [ihl r hwf.2 (by omega)]
            rfl
      refine ⟨?_, ?_, ?_, ?_⟩
      · intro k rest hwf hlen
        cases k with
        | add l r =>
              simp only [wfOpKind, OpKind.operandRefs, wfVRList, wfKindExtras.eq_def,
                Bool.and_eq_true, Bool.and_true, and_true, true_and,
                decide_eq_true_eq] at hwf
              simp only [encOpKind, decOpKind, List.append_assoc,
                decU32_encU32 0 _ (by norm_num)]
              exact dec2VR_enc _ l r hwf.1 hwf.2 rest
        | sub l r =>
              simp only [wfOpKind, OpKind.operandRefs, wfVRList, wfKindExtras.eq_def,
                Bool.and_eq_true, Bool.and_true, and_true, true_and,
                decide_eq_true_eq] at hwf
              simp only [encOpKind, decOpKind, List.append_assoc,
                decU32_encU32 1 _ (by norm_num)]
              exact dec2VR_enc _ l r hwf.1 hwf.2 rest
        | mul l r =>
              simp only [wfOpKind, OpKind.operandRefs, wfVRList, wfKindExtras.eq_def,
                Bool.and_eq_true, Bool.and_true, and_true, true_and,
                decide_eq_true_eq] at hwf
              simp only [encOpKind, decOpKind, List.append_assoc,
                decU32_encU32 2 _ (by norm_num)]
              exact dec2VR_enc _ l r hwf.1 hwf.2 rest
        | div l r =>
              simp only [wfOpKind, OpKind.operandRefs, wfVRList, wfKindExtras.eq_def,
                Bool.and_eq_true, Bool.and_true, and_true, true_and,
                decide_eq_true_eq] at hwf
              simp only [encOpKind, decOpKind, List.append_assoc,
                decU32_encU32 3 _ (by norm_num)]
              exact dec2VR_enc _ l r hwf.1 hwf.2 rest
        | floorDiv l r =>
              simp only [wfOpKind, OpKind.operandRefs, wfVRList, wfKindExtras.eq_def,
                Bool.and_eq_true, Bool.and_true, and_true, true_and,
                decide_eq_true_eq] at hwf
              simp only [encOpKind, decOpKind, List.append_assoc,
                decU32_encU32 4 _ (by norm_num)]
              exact dec2VR_enc _ l r hwf.1 hwf.2 rest
        | mod l r =>
              simp only [wfOpKind, OpKind.operandRefs, wfVRList, wfKindExtras.eq_def,
                Bool.and_eq_true, Bool.and_true, and_true, true_and,
                decide_eq_true_eq] at hwf
              simp only [encOpKind, decOpKind, List.append_assoc,
                decU32_encU32 5 _ (by norm_num)]
              exact dec2VR_enc _ l r hwf.1 hwf.2 rest
        | neg v =>
              simp only [wfOpKind, OpKind.operandRefs, wfVRList, wfKindExtras.eq_def,
                Bool.and_eq_true, Bool.and_true, and_true, true_and,
                decide_eq_true_eq] at hwf
              simp only [encOpKind, decOpKind, List.append_assoc,
                decU32_encU32 6 _ (by norm_num)]
              exact dec1VR_enc _ v hwf rest
        | abs v =>
              simp only [wfOpKind, OpKind.operandRefs, wfVRList, wfKindExtras.eq_def,
                Bool.and_eq_true, Bool.and_true, and_true, true_and,
                decide_eq_true_eq] at hwf
              simp only [encOpKind, decOpKind, List.append_assoc,
                decU32_encU32 7 _ (by norm_num)]
              exact dec1VR_enc _ v hwf rest
        | eq l r =>
              simp only [wfOpKind, OpKind.operandRefs, wfVRList, wfKindExtras.eq_def,
                Bool.and_eq_true, Bool.and_true, and_true, true_and,
                decide_eq_true_eq] at hwf
              simp only [encOpKind, decOpKind, List.append_assoc,
                decU32_encU32 8 _ (by norm_num)]
              exact dec2VR_enc _ l r hwf.1 hwf.2 rest
        | ne l r =>
              simp only [wfOpKind, OpKind.operandRefs, wfVRList, wfKindExtras.eq_def,
                Bool.and_eq_true, Bool.and_true, and_true, true_and,
                decide_eq_true_eq] at hwf
              simp only [encOpKind, decOpKind, List.append_assoc,
                decU32_encU32 9 _ (by norm_num)]
              exact dec2VR_enc _ l r hwf.1 hwf.2 rest
        | lt l r =>
              simp only [wfOpKind, OpKind.operandRefs, wfVRList, wfKindExtras.eq_def,
                Bool.and_eq_true, Bool.and_true, and_true, true_and,
                decide_eq_true_eq] at hwf
              simp only [encOpKind, decOpKind, List.append_assoc,
                decU32_encU32 10 _ (by norm_num)]
              exact dec2VR_enc _ l r hwf.1 hwf.2 rest
        | le l r =>
              simp only [wfOpKind, OpKind.operandRefs, wfVRList, wfKindExtras.eq_def,
                Bool.and_eq_true, Bool.and_true, and_true, true_and,
                decide_eq_true_eq] at hwf
              simp only [encOpKind, decOpKind, List.append_assoc,
                decU32_encU32 11 _ (by norm_num)]
              exact dec2VR_enc _ l r hwf.1 hwf.2 rest
        | gt l r =>
              simp only [wfOpKind, OpKind.operandRefs, wfVRList, wfKindExtras.eq_def,
                Bool.and_eq_true, Bool.and_true, and_true, true_and,
                decide_eq_true_eq] at hwf
              simp only [encOpKind, decOpKind, List.append_assoc,
                decU32_encU32 12 _ (by norm_num)]
              exact dec2VR_enc _ l r hwf.1 hwf.2 rest
        | ge l r =>
              simp only [wfOpKind, OpKind.operandRefs, wfVRList, wfKindExtras.eq_def,
                Bool.and_eq_true, Bool.and_true, and_true, true_and,
                decide_eq_true_eq] at hwf
              simp only [encOpKind, decOpKind, List.append_assoc,
                decU32_encU32 13 _ (by norm_num)]
              exact dec2VR_enc _ l r hwf.1 hwf.2 rest
        | not v =>
              simp only [wfOpKind, OpKind.operandRefs, wfVRList, wfKindExtras.eq_def,
                Bool.and_eq_true, Bool.and_true, and_true, true_and,
                decide_eq_true_eq] at hwf
              simp only [encOpKind, decOpKind, List.append_assoc,
                decU32_encU32 14 _ (by norm_num)]
              exact dec1VR_enc _ v hwf rest
        | and l r =>
              simp only [wfOpKind, OpKind.operandRefs, wfVRList, wfKindExtras.eq_def,
                Bool.and_eq_true, Bool.and_true, and_true, true_and,
                decide_eq_true_eq] at hwf
              simp only [encOpKind, decOpKind, List.append_assoc,
                decU32_encU32 15 _ (by norm_num)]
              exact dec2VR_enc _ l r hwf.1 hwf.2 rest
        | or l r =>
              simp only [wfOpKind, OpKind.operandRefs, wfVRList, wfKindExtras.eq_def,
                Bool.and_eq_true, Bool.and_true, and_true, true_and,
                decide_eq_true_eq] at hwf
              simp only [encOpKind, decOpKind, List.append_assoc,
                decU32_encU32 16 _ (by norm_num)]
              exact dec2VR_enc _ l r hwf.1 hwf.2 rest
        | concat l r =>
              simp only [wfOpKind, OpKind.operandRefs, wfVRList, wfKindExtras.eq_def,
                Bool.and_eq_true, Bool.and_true, and_true, true_and,
                decide_eq_true_eq] at hwf
              simp only [encOpKind, decOpKind, List.append_assoc,
                decU32_encU32 17 _ (by norm_num)]
              exact dec2VR_enc _ l r hwf.1 hwf.2 rest
        | len v =>
              simp only [wfOpKind, OpKind.operandRefs, wfVRList, wfKindExtras.eq_def,
                Bool.and_eq_true, Bool.and_true, and_true, true_and,
                decide_eq_true_eq] at hwf
              simp only [encOpKind, decOpKind, List.append_assoc,
                decU32_encU32 18 _ (by norm_num)]
              exact dec1VR_enc _ v hwf rest
        | contains l r =>
              simp only [wfOpKind, OpKind.operandRefs, wfVRList, wfKindExtras.eq_def,
                Bool.and_eq_true, Bool.and_true, and_true, true_and,
                decide_eq_true_eq] at hwf
              simp only [encOpKind, decOpKind, List.append_assoc,
                decU32_encU32 19 _ (by norm_num)]
              exact dec2VR_enc _ l r hwf.1 hwf.2 rest
        | index l r =>
              simp only [wfOpKind, OpKind.operandRefs, wfVRList, wfKindExtras.eq_def,
                Bool.and_eq_true, Bool.and_true, and_true, true_and,
                decide_eq_true_eq] at hwf
              simp only [encOpKind, decOpKind, List.append_assoc,
                decU32_encU32 20 _ (by norm_num)]
              exact dec2VR_enc _ l r hwf.1 hwf.2 rest
        | min v =>
              simp only [wfOpKind, OpKind.operandRefs, wfVRList, wfKindExtras.eq_def,
                Bool.and_eq_true, Bool.and_true, and_true, true_and,
                decide_eq_true_eq] at hwf
              simp only [encOpKind, decOpKind, List.append_assoc,
                decU32_encU32 21 _ (by norm_num)]
              exact dec1VR_enc _ v hwf rest
        | max v =>
              simp only [wfOpKind, OpKind.operandRefs, wfVRList, wfKindExtras.eq_def,
                Bool.and_eq_true, Bool.and_true, and_true, true_and,
                decide_eq_true_eq] at hwf
              simp only [encOpKind, decOpKind, List.append_assoc,
                decU32_encU32 22 _ (by norm_num)]
              exact dec1VR_enc _ v hwf rest
        | sum l r =>
              simp only [wfOpKind, OpKind.operandRefs, wfVRList, wfKindExtras.eq_def,
                Bool.and_eq_true, Bool.and_true, and_true, true_and,
                decide_eq_true_eq] at hwf
              simp only [encOpKind, decOpKind, List.append_assoc,
                decU32_encU32 23 _ (by norm_num)]
              exact dec2VR_enc _ l r hwf.1 hwf.2 rest
        | sorted v =>
              simp only [wfOpKind, OpKind.operandRefs, wfVRList, wfKindExtras.eq_def,
                Bool.and_eq_true, Bool.and_true, and_true, true_and,
                decide_eq_true_eq] at hwf
              simp only [encOpKind, decOpKind, List.append_assoc,
                decU32_encU32 24 _ (by norm_num)]
              exact dec1VR_enc _ v hwf rest
        | reversed v =>
              simp only [wfOpKind, OpKind.operandRefs, wfVRList, wfKindExtras.eq_def,
                Bool.and_eq_true, Bool.and_true, and_true, true_and,
                decide_eq_true_eq] at hwf
              simp only [encOpKind, decOpKind, List.append_assoc,
                decU32_encU32 25 _ (by norm_num)]
              exact dec1VR_enc _ v hwf rest
        | toBool v =>
              simp only [wfOpKind, OpKind.operandRefs, wfVRList, wfKindExtras.eq_def,
                Bool.and_eq_true, Bool.and_true, and_true, true_and,
                decide_eq_true_eq] at hwf
              simp only [encOpKind, decOpKind, List.append_assoc,
                decU32_encU32 26 _ (by norm_num)]
              exact dec1VR_enc _ v hwf rest
        | toInt v =>
              simp only [wfOpKind, OpKind.operandRefs, wfVRList, wfKindExtras.eq_def,
                Bool.and_eq_true, Bool.and_true, and_true, true_and,
                decide_eq_true_eq] at hwf
              simp only [encOpKind, decOpKind, List.append_assoc,
                decU32_encU32 27 _ (by norm_num)]
              exact dec1VR_enc _ v hwf rest
        | toFloat v =>
              simp only [wfOpKind, OpKind.operandRefs, wfVRList, wfKindExtras.eq_def,
                Bool.and_eq_true, Bool.and_true, and_true, true_and,
                decide_eq_true_eq] at hwf
              simp only [encOpKind, decOpKind, List.append_assoc,
                decU32_encU32 28 _ (by norm_num)]
              exact dec1VR_enc _ v hwf rest
        | toStr v =>
              simp only [wfOpKind, OpKind.operandRefs, wfVRList, wfKindExtras.eq_def,
                Bool.and_eq_true, Bool.and_true, and_true, true_and,
                decide_eq_true_eq] at hwf
              simp only [encOpKind, decOpKind, List.append_assoc,
                decU32_encU32 29 _ (by norm_num)]
              exact dec1VR_enc _ v hwf rest
        | ifVal c t e =>
              simp only [wfOpKind, OpKind.operandRefs, wfVRList, wfKindExtras.eq_def,
                Bool.and_eq_true, Bool.and_true, and_true, true_and,
                decide_eq_true_eq] at hwf
              simp only [encOpKind, decOpKind, List.append_assoc,
                decU32_encU32 30 _ (by norm_num)]
              simp only [bind, Option.bind, dvDec_encVR c hwf.1,
                dvDec_encVR t hwf.2.1, dvDec_encVR e hwf.2.2]
              rfl
        | ifBlock c tb eb =>
              simp only [wfOpKind, OpKind.operandRefs, wfVRList, wfKindExtras.eq_def,
                Bool.and_eq_true, Bool.and_true, and_true, true_and,
                decide_eq_true_eq] at hwf
              simp only [encOpKind, List.length_append, encU32_length] at hlen
              simp only [encOpKind, decOpKind, List.append_assoc,
                decU32_encU32 31 _ (by norm_num)]
              simp only [bind, Option.bind, dvDec_encVR c hwf.1]
              rw [ihs tb _ hwf.2.1 (by omega)]
              dsimp only
              rw [ihos eb _ hwf.2.2 (by omega)]
              rfl
        | forEach items n b p =>
              simp only [wfOpKind, OpKind.operandRefs, wfVRList, wfKindExtras.eq_def,
                Bool.and_eq_true, Bool.and_true, and_true, true_and,
                decide_eq_true_eq] at hwf
              simp only [encOpKind, List.length_append, encU32_length] at hlen
              simp only [encOpKind, decOpKind, List.append_assoc,
                decU32_encU32 32 _ (by norm_num)]
              simp only [bind, Option.bind, dvDec_encVR items hwf.1,
                decStr_encStr n hwf.2.1]
              rw [ihs b _ hwf.2.2 (by omega)]
              simp only [Option.bind, decBool_encBool p rest]
              rfl
        | breakOp =>
              simp only [encOpKind, decOpKind, List.append_assoc,
                decU32_encU32 33 _ (by norm_num)]
        | continueOp =>
              simp only [encOpKind, decOpKind, List.append_assoc,
                decU32_encU32 34 _ (by norm_num)]
        | after d v =>
              simp only [wfOpKind, OpKind.operandRefs, wfVRList, wfKindExtras.eq_def,
                Bool.and_eq_true, Bool.and_true, and_true, true_and,
                decide_eq_true_eq] at hwf
              simp only [encOpKind, decOpKind, List.append_assoc,
                decU32_encU32 35 _ (by norm_num)]
              simp only [bind, Option.bind, decU64_encU64 d _ hwf.1,
                decU64_encU64 v _ hwf.2]
              rfl
        | atLeast ops c =>
              simp only [wfOpKind, OpKind.operandRefs, wfVRList, wfKindExtras.eq_def,
                Bool.and_eq_true, Bool.and_true, and_true, true_and,
                decide_eq_true_eq] at hwf
              simp only [encOpKind, decOpKind, List.append_assoc,
                decU32_encU32 36 _ (by norm_num)]
              simp only [bind, Option.bind]
              rw [decU64List_enc ops hwf.1.1 hwf.1.2 _]
              simp only [Option.bind, decU64_encU64 c _ hwf.2]
              rfl
        | atMost ops c =>
              simp only [wfOpKind, OpKind.operandRefs, wfVRList, wfKindExtras.eq_def,
                Bool.and_eq_true, Bool.and_true, and_true, true_and,
                decide_eq_true_eq] at hwf
              simp only [encOpKind, decOpKind, List.append_assoc,
                decU32_encU32 37 _ (by norm_num)]
              simp only [bind, Option.bind]
              rw [decU64List_enc ops hwf.1.1 hwf.1.2 _]
              simp only [Option.bind, decU64_encU64 c _ hwf.2]
              rfl
        | mapOp items n b =>
              simp only [wfOpKind, OpKind.operandRefs, wfVRList, wfKindExtras.eq_def,
                Bool.and_eq_true, Bool.and_true, and_true, true_and,
                decide_eq_true_eq] at hwf
              simp only [encOpKind, List.length_append, encU32_length] at hlen
              simp only [encOpKind, decOpKind, List.append_assoc,
                decU32_encU32 38 _ (by norm_num)]
              simp only [bind, Option.bind, dvDec_encVR items hwf.1,
                decStr_encStr n hwf.2.1]
              rw [ihs b _ hwf.2.2 (by omega)]
              rfl
        | filterOp items n b =>
              simp only [wfOpKind, OpKind.operandRefs, wfVRList, wfKindExtras.eq_def,
                Bool.and_eq_true, Bool.and_true, and_true, true_and,
                decide_eq_true_eq] at hwf
              simp only [encOpKind, List.length_append, encU32_length] at hlen
              simp only [encOpKind, decOpKind, List.append_assoc,
                decU32_encU32 39 _ (by norm_num)]
              simp only [bind, Option.bind, dvDec_encVR items hwf.1,
                decStr_encStr n hwf.2.1]
              rw [ihs b _ hwf.2.2 (by omega)]
              rfl
        | jsonEncode v =>
              simp only [wfOpKind, OpKind.operandRefs, wfVRList, wfKindExtras.eq_def,
                Bool.and_eq_true, Bool.and_true, and_true, true_and,
                decide_eq_true_eq] at hwf
              simp only [encOpKind, decOpKind, List.append_assoc,
                decU32_encU32 40 _ (by norm_num)]
              exact dec1VR_enc _ v hwf rest
        | jsonDecode v =>
              simp only [wfOpKind, OpKind.operandRefs, wfVRList, wfKindExtras.eq_def,
                Bool.and_eq_true, Bool.and_true, and_true, true_and,
                decide_eq_true_eq] at hwf
              simp only [encOpKind, decOpKind, List.append_assoc,
                decU32_encU32 41 _ (by norm_num)]
              exact dec1VR_enc _ v hwf rest
        | print v =>
              simp only [wfOpKind, OpKind.operandRefs, wfVRList, wfKindExtras.eq_def,
                Bool.and_eq_true, Bool.and_true, and_true, true_and,
                decide_eq_true_eq] at hwf
              simp only [encOpKind, decOpKind, List.append_assoc,
                decU32_encU32 42 _ (by norm_num)]
              exact dec1VR_enc _ v hwf rest
        | now =>
              simp only [encOpKind, decOpKind, List.append_assoc,
                decU32_encU32 43 _ (by norm_num)]
        | sleep v =>
              simp only [wfOpKind, OpKind.operandRefs, wfVRList, wfKindExtras.eq_def,
                Bool.and_eq_true, Bool.and_true, and_true, true_and,
                decide_eq_true_eq] at hwf
              simp only [encOpKind, decOpKind, List.append_assoc,
                decU32_encU32 44 _ (by norm_num)]
              exact dec1VR_enc _ v hwf rest
        | readFile v =>
              simp only [wfOpKind, OpKind.operandRefs, wfVRList, wfKindExtras.eq_def,
                Bool.and_eq_true, Bool.and_true, and_true, true_and,
                decide_eq_true_eq] at hwf
              simp only [encOpKind, decOpKind, List.append_assoc,
                decU32_encU32 45 _ (by norm_num)]
              exact dec1VR_enc _ v hwf rest
        | writeFile l r =>
              simp only [wfOpKind, OpKind.operandRefs, wfVRList, wfKindExtras.eq_def,
                Bool.and_eq_true, Bool.and_true, and_true, true_and,
                decide_eq_true_eq] at hwf
              simp only [encOpKind, decOpKind, List.append_assoc,
                decU32_encU32 46 _ (by norm_num)]
              exact dec2VR_enc _ l r hwf.1 hwf.2 rest
        | appendFile l r =>
              simp only [wfOpKind, OpKind.operandRefs, wfVRList, wfKindExtras.eq_def,
                Bool.and_eq_true, Bool.and_true, and_true, true_and,
                decide_eq_true_eq] at hwf
              simp only [encOpKind, decOpKind, List.append_assoc,
                decU32_encU32 47 _ (by norm_num)]
              exact dec2VR_enc _ l r hwf.1 hwf.2 rest
        | deleteFile v =>
              simp only [wfOpKind, OpKind.operandRefs, wfVRList, wfKindExtras.eq_def,
                Bool.and_eq_true, Bool.and_true, and_true, true_and,
                decide_eq_true_eq] at hwf
              simp only [encOpKind, decOpKind, List.append_assoc,
                decU32_encU32 48 _ (by norm_num)]
              exact dec1VR_enc _ v hwf rest
        | listDir v =>
              simp only [wfOpKind, OpKind.operandRefs, wfVRList, wfKindExtras.eq_def,
                Bool.and_eq_true, Bool.and_true, and_true, true_and,
                decide_eq_true_eq] at hwf
              simp only [encOpKind, decOpKind, List.append_assoc,
                decU32_encU32 49 _ (by norm_num)]
              exact dec1VR_enc _ v hwf rest
        | mkdir l r =>
              simp only [wfOpKind, OpKind.operandRefs, wfVRList, wfKindExtras.eq_def,
                Bool.and_eq_true, Bool.and_true, and_true, true_and,
                decide_eq_true_eq] at hwf
              simp only [encOpKind, decOpKind, List.append_assoc,
                decU32_encU32 50 _ (by norm_num)]
              exact dec2VR_enc _ l r hwf.1 hwf.2 rest
        | rmdir l r =>
              simp only [wfOpKind, OpKind.operandRefs, wfVRList, wfKindExtras.eq_def,
                Bool.and_eq_true, Bool.and_true, and_true, true_and,
                decide_eq_true_eq] at hwf
              simp only [encOpKind, decOpKind, List.append_assoc,
                decU32_encU32 51 _ (by norm_num)]
              exact dec2VR_enc _ l r hwf.1 hwf.2 rest
        | copyFile l r =>
              simp only [wfOpKind, OpKind.operandRefs, wfVRList, wfKindExtras.eq_def,
                Bool.and_eq_true, Bool.and_true, and_true, true_and,
                decide_eq_true_eq] at hwf
              simp only [encOpKind, decOpKind, List.append_assoc,
                decU32_encU32 52 _ (by norm_num)]
              exact dec2VR_enc _ l r hwf.1 hwf.2 rest
        | moveFile l r =>
              simp only [wfOpKind, OpKind.operandRefs, wfVRList, wfKindExtras.eq_def,
                Bool.and_eq_true, Bool.and_true, and_true, true_and,
                decide_eq_true_eq] at hwf
              simp only [encOpKind, decOpKind, List.append_assoc,
                decU32_encU32 53 _ (by norm_num)]
              exact dec2VR_enc _ l r hwf.1 hwf.2 rest
        | fileExists v =>
              simp only [wfOpKind, OpKind.operandRefs, wfVRList, wfKindExtras.eq_def,
                Bool.and_eq_true, Bool.and_true, and_true, true_and,
                decide_eq_true_eq] at hwf
              simp only [encOpKind, decOpKind, List.append_assoc,
                decU32_encU32 54 _ (by norm_num)]
              exact dec1VR_enc _ v hwf rest
        | isDir v =>
              simp only [wfOpKind, OpKind.operandRefs, wfVRList, wfKindExtras.eq_def,
                Bool.and_eq_true, Bool.and_true, and_true, true_and,
                decide_eq_true_eq] at hwf
              simp only [encOpKind, decOpKind, List.append_assoc,
                decU32_encU32 55 _ (by norm_num)]
              exact dec1VR_enc _ v hwf rest
        | isFile v =>
              simp only [wfOpKind, OpKind.operandRefs, wfVRList, wfKindExtras.eq_def,
                Bool.and_eq_true, Bool.and_true, and_true, true_and,
                decide_eq_true_eq] at hwf
              simp only [encOpKind, decOpKind, List.append_assoc,
                decU32_encU32 56 _ (by norm_num)]
              exact dec1VR_enc _ v hwf rest
        | fileSize v =>
              simp only [wfOpKind, OpKind.operandRefs, wfVRList, wfKindExtras.eq_def,
                Bool.and_eq_true, Bool.and_true, and_true, true_and,
                decide_eq_true_eq] at hwf
              simp only [encOpKind, decOpKind, List.append_assoc,
                decU32_encU32 57 _ (by norm_num)]
              exact dec1VR_enc _ v hwf rest
        | httpRequest m u b h =>
              simp only [wfOpKind, OpKind.operandRefs, wfVRList, wfKindExtras.eq_def,
                Bool.and_eq_true, Bool.and_true, and_true, true_and,
                decide_eq_true_eq] at hwf
              simp only [encOpKind, decOpKind, List.append_assoc,
                decU32_encU32 58 _ (by norm_num)]
              simp only [bind, Option.bind, dvDec_encVR m hwf.1,
                dvDec_encVR u hwf.2.1, dvDec_encVR b hwf.2.2.1,
                dvDec_encVR h hwf.2.2.2]
              rfl
        | tcpConnect l r =>
              simp only [wfOpKind, OpKind.operandRefs, wfVRList, wfKindExtras.eq_def,
                Bool.and_eq_true, Bool.and_true, and_true, true_and,
                decide_eq_true_eq] at hwf
              simp only [encOpKind, decOpKind, List.append_assoc,
                decU32_encU32 59 _ (by norm_num)]
              exact dec2VR_enc _ l r hwf.1 hwf.2 rest
        | tcpSend l r =>
              simp only [wfOpKind, OpKind.operandRefs, wfVRList, wfKindExtras.eq_def,
                Bool.and_eq_true, Bool.and_true, and_true, true_and,
                decide_eq_true_eq] at hwf
              simp only [encOpKind, decOpKind, List.append_assoc,
                decU32_encU32 60 _ (by norm_num)]
              exact dec2VR_enc _ l r hwf.1 hwf.2 rest
        | tcpRecv l r =>
              simp only [wfOpKind, OpKind.operandRefs, wfVRList, wfKindExtras.eq_def,
                Bool.and_eq_true, Bool.and_true, and_true, true_and,
                decide_eq_true_eq] at hwf
              simp only [encOpKind, decOpKind, List.append_assoc,
                decU32_encU32 61 _ (by norm_num)]
              exact dec2VR_enc _ l r hwf.1 hwf.2 rest
        | tcpClose v =>
              simp only [wfOpKind, OpKind.operandRefs, wfVRList, wfKindExtras.eq_def,
                Bool.and_eq_true, Bool.and_true, and_true, true_and,
                decide_eq_true_eq] at hwf
              simp only [encOpKind, decOpKind, List.append_assoc,
                decU32_encU32 62 _ (by norm_num)]
              exact dec1VR_enc _ v hwf rest
        | tcpListen l r =>
              simp only [wfOpKind, OpKind.operandRefs, wfVRList, wfKindExtras.eq_def,
                Bool.and_eq_true, Bool.and_true, and_true, true_and,
                decide_eq_true_eq] at hwf
              simp only [encOpKind, decOpKind, List.append_assoc,
                decU32_encU32 63 _ (by norm_num)]
              exact dec2VR_enc _ l r hwf.1 hwf.2 rest
        | tcpAccept v =>
              simp only [wfOpKind, OpKind.operandRefs, wfVRList, wfKindExtras.eq_def,
                Bool.and_eq_true, Bool.and_true, and_true, true_and,
                decide_eq_true_eq] at hwf
              simp only [encOpKind, decOpKind, List.append_assoc,
                decU32_encU32 64 _ (by norm_num)]
              exact dec1VR_enc _ v hwf rest
        | udpBind l r =>
              simp only [wfOpKind, OpKind.operandRefs, wfVRList, wfKindExtras.eq_def,
                Bool.and_eq_true, Bool.and_true, and_true, true_and,
                decide_eq_true_eq] at hwf
              simp only [encOpKind, decOpKind, List.append_assoc,
                decU32_encU32 65 _ (by norm_num)]
              exact dec2VR_enc _ l r hwf.1 hwf.2 rest
        | udpSendTo h p d =>
              simp only [wfOpKind, OpKind.operandRefs, wfVRList, wfKindExtras.eq_def,
                Bool.and_eq_true, Bool.and_true, and_true, true_and,
                decide_eq_true_eq] at hwf
              simp only [encOpKind, decOpKind, List.append_assoc,
                decU32_encU32 66 _ (by norm_num)]
              simp only [bind, Option.bind, dvDec_encVR h hwf.1,
                dvDec_encVR p hwf.2.1, dvDec_encVR d hwf.2.2]
              rfl
        | udpRecvFrom l r =>
              simp only [wfOpKind, OpKind.operandRefs, wfVRList, wfKindExtras.eq_def,
                Bool.and_eq_true, Bool.and_true, and_true, true_and,
                decide_eq_true_eq] at hwf
              simp only [encOpKind, decOpKind, List.append_assoc,
                decU32_encU32 67 _ (by norm_num)]
              exact dec2VR_enc _ l r hwf.1 hwf.2 rest
        | udpClose v =>
              simp only [wfOpKind, OpKind.operandRefs, wfVRList, wfKindExtras.eq_def,
                Bool.and_eq_true, Bool.and_true, and_true, true_and,
                decide_eq_true_eq] at hwf
              simp only [encOpKind, decOpKind, List.append_assoc,
                decU32_encU32 68 _ (by norm_num)]
              exact dec1VR_enc _ v hwf rest
        | unixConnect v =>
              simp only [wfOpKind, OpKind.operandRefs, wfVRList, wfKindExtras.eq_def,
                Bool.and_eq_true, Bool.and_true, and_true, true_and,
                decide_eq_true_eq] at hwf
              simp only [encOpKind, decOpKind, List.append_assoc,
                decU32_encU32 69 _ (by norm_num)]
              exact dec1VR_enc _ v hwf rest
        | unixSend l r =>
              simp only [wfOpKind, OpKind.operandRefs, wfVRList, wfKindExtras.eq_def,
                Bool.and_eq_true, Bool.and_true, and_true, true_and,
                decide_eq_true_eq] at hwf
              simp only [encOpKind, decOpKind, List.append_assoc,
                decU32_encU32 70 _ (by norm_num)]
              exact dec2VR_enc _ l r hwf.1 hwf.2 rest
        | unixRecv l r =>
              simp only [wfOpKind, OpKind.operandRefs, wfVRList, wfKindExtras.eq_def,
                Bool.and_eq_true, Bool.and_true, and_true, true_and,
                decide_eq_true_eq] at hwf
              simp only [encOpKind, decOpKind, List.append_assoc,
                decU32_encU32 71 _ (by norm_num)]
              exact dec2VR_enc _ l r hwf.1 hwf.2 rest
        | unixClose v =>
              simp only [wfOpKind, OpKind.operandRefs, wfVRList, wfKindExtras.eq_def,
                Bool.and_eq_true, Bool.and_true, and_true, true_and,
                decide_eq_true_eq] at hwf
              simp only [encOpKind, decOpKind, List.append_assoc,
                decU32_encU32 72 _ (by norm_num)]
              exact dec1VR_enc _ v hwf rest
        | unixListen v =>
              simp only [wfOpKind, OpKind.operandRefs, wfVRList, wfKindExtras.eq_def,
                Bool.and_eq_true, Bool.and_true, and_true, true_and,
                decide_eq_true_eq] at hwf
              simp only [encOpKind, decOpKind, List.append_assoc,
                decU32_encU32 73 _ (by norm_num)]
              exact dec1VR_enc _ v hwf rest
        | unixAccept v =>
              simp only [wfOpKind, OpKind.operandRefs, wfVRList, wfKindExtras.eq_def,
                Bool.and_eq_true, Bool.and_true, and_true, true_and,
                decide_eq_true_eq] at hwf
              simp only [encOpKind, decOpKind, List.append_assoc,
                decU32_encU32 74 _ (by norm_num)]
              exact dec1VR_enc _ v hwf rest
        | exec l r =>
              simp only [wfOpKind, OpKind.operandRefs, wfVRList, wfKindExtras.eq_def,
                Bool.and_eq_true, Bool.and_true, and_true, true_and,
                decide_eq_true_eq] at hwf
              simp only [encOpKind, decOpKind, List.append_assoc,
                decU32_encU32 75 _ (by norm_num)]
              exact dec2VR_enc _ l r hwf.1 hwf.2 rest
        | envGet l r =>
              simp only [wfOpKind, OpKind.operandRefs, wfVRList, wfKindExtras.eq_def,
                Bool.and_eq_true, Bool.and_true, and_true, true_and,
                decide_eq_true_eq] at hwf
              simp only [encOpKind, decOpKind, List.append_assoc,
                decU32_encU32 76 _ (by norm_num)]
              exact dec2VR_enc _ l r hwf.1 hwf.2 rest
      · intro op rest hwf hlen
        obtain ⟨id, kind, inputs, loc, guard⟩ := op
        simp only [wfOp, Bool.and_eq_true, decide_eq_true_eq] at hwf
        simp only [encOp, List.length_append, encU64_length] at hlen
        simp only [encOp, decOp, List.append_assoc, bind, Option.bind,
          decU64_encU64 id _ hwf.1.1.1.1.1]
        rw [ihk kind _ hwf.1.1.1.1.2 (by omega)]
        dsimp only
        rw [decU64List_enc inputs hwf.1.1.1.2 hwf.1.1.2 _]
        dsimp only
        rw [decOptSpan_encOptSpan loc hwf.1.2 _]
        dsimp only
        rw [decOptVR_encOptVR guard hwf.2 rest]
        rfl
      · intro sp rest hwf hlen
        obtain ⟨params, ops, output⟩ := sp
        simp only [wfSubPlan, Bool.and_eq_true, decide_eq_true_eq] at hwf
        simp only [encSubPlan, List.length_append, encU64_length] at hlen
        simp only [encSubPlan, decSubPlan, List.append_assoc, bind,
          Option.bind]
        rw [decStrList_enc params hwf.1.1.1.1 hwf.1.1.1.2 _]
        dsimp only
        rw [decU64_encU64 ops.length _ hwf.1.1.2]
        dsimp only
        rw [items_rt ops _ hwf.1.2 (by omega)]
        dsimp only
        rw [decU64_encU64 output rest hwf.2]
        rfl
      · intro o rest hwf hlen
        cases o with
        | none => simp [encOptSubPlan, decOptSubPlan]
        | some sp =>
            simp only [encOptSubPlan, List.length_cons] at hlen
            simp only [encOptSubPlan, List.cons_append, decOptSubPlan]
            rw [ihs sp _ hwf (by omega)]
            rfl

/-- `decOpItems` at any adequate fuel. -/
theorem decOpItems_rt (g : Nat) :
    ∀ (ops : List Op) (r : List Nat), wfOpList ops = true →
      (encOpList ops).length < g →
      decOpItems g ops.length (encOpList ops ++ r) = some (ops, r) := by
  intro ops
  induction ops with
  | nil => intro r _ _; simp [encOpList, decOpItems]
  | cons op ops ihl =>
      intro r hwf hlen
      simp only [encOpList, List.length_append] at hlen
      simp only [wfOpList, Bool.and_eq_true] at hwf
      simp only [encOpList, List.length_cons, decOpItems, List.append_assoc]
      rw [(bincode_kind_rt g).2.1 op _ hwf.1 (by omega)]
      dsimp only
      rw [ihl r hwf.2 (by omega)]
      rfl

theorem decPlan_encPlan (p : Plan) (hwf : wfPlan p = true)
    (rest : List Nat) : decPlan (encPlan p ++ rest) = some (p, rest) := by
  obtain ⟨ops, nextId⟩ := p
  simp only [wfPlan, Bool.and_eq_true, decide_eq_true_eq] at hwf
  simp only [encPlan, decPlan, List.append_assoc, bind, Option.bind,
    decU64_encU64 ops.length _ hwf.1.1]
  rw [decOpItems_rt _ ops _ hwf.1.2 (by
    simp only [List.length_append]
    omega)]
  dsimp only
  rw [decU64_encU64 nextId rest hwf.2]
  rfl

theorem decMetadata_encMetadata (m : PlanMetadata)
    (hwf : wfMetadata m = true) (rest : List Nat) :
    decMetadata (encMetadata m ++ rest) = some (m, rest) := by
  obtain ⟨sf, sc⟩ := m
  simp only [wfMetadata, Bool.and_eq_true] at hwf
  simp only [encMetadata, decMetadata, List.append_assoc, bind, Option.bind]
  rw [decOptStr_encOptStr sf hwf.1 _]
  dsimp only
  rw [decOptStr_encOptStr sc hwf.2 rest]
  rfl

theorem decOptMetadata_enc (o : Option PlanMetadata)
    (hwf : (match o with
            | some m => wfMetadata m
            | Option.none => true) = true) (rest : List Nat) :
    decOptMetadata (encOptMetadata o ++ rest) = some (o, rest) := by
  cases o with
  | none => rfl
  | some m =>
      simp only [encOptMetadata, List.cons_append, decOptMetadata]
      rw [decMetadata_encMetadata m hwf rest]
      rfl

theorem decCompiledPlan_enc (c : CompiledPlan)
    (hwf : wfCompiledPlan c = true) :
    decCompiledPlan (encCompiledPlan c) = some c := by
  obtain ⟨v, h, t, o, p, m⟩ := c
  simp only [wfCompiledPlan, Bool.and_eq_true, decide_eq_true_eq] at hwf
  simp only [encCompiledPlan, decCompiledPlan, List.append_assoc, bind,
    Option.bind, decU32_encU32 v _ hwf.1.1.1.1.1]
  rw [decStr_encStr h hwf.1.1.1.1.2 _]
  dsimp only
  rw [decU64_encU64 t _ hwf.1.1.1.2]
  dsimp only
  rw [decU8_encU8 o _ hwf.1.1.2]
  dsimp only
  rw [show encPlan p ++ encOptMetadata m = encPlan p ++ (encOptMetadata m ++ []) by
    rw [List.append_nil]]
  rw [decPlan_encPlan p hwf.1.2 _]
  dsimp only
  rw [decOptMetadata_enc m hwf.2 []]
  rfl

/-- C4.  For every well-formed `CompiledPlan` whose `schema_version` is the
current `PLAN_SCHEMA_VERSION`, `from_bytes (to_bytes c)` succeeds with a
plan equal to `c` field by field; the encoding starts with the 4-byte magic
`B P 0x00 0x01`; `from_bytes` rejects any input whose first four bytes are
not the magic (inputs shorter than four bytes included, since their
4-byte take is shorter than the magic) with `InvalidMagic`; and a decoded
payload carrying any other schema version is rejected with
`SchemaMismatch { expected, found }`.  Well-formedness is the Rust-type
range invariant (`u64`/`u32`/`u8`/`i64` fields in range, byte values,
in-memory lengths), which every Rust value of the type satisfies. -/
theorem compiledPlan_roundtrip (c : CompiledPlan)
    (hwf : wfCompiledPlan c = true)
    (hver : c.schemaVersion = PLAN_SCHEMA_VERSION) :
    CompiledPlan.fromBytes (CompiledPlan.toBytes c) = .ok c ∧
    (CompiledPlan.toBytes c).take 4 = MAGIC ∧
    (∀ bytes : List Nat, bytes.take 4 ≠ MAGIC →
      CompiledPlan.fromBytes bytes = .error .invalidMagic) ∧
    (∀ c' : CompiledPlan, wfCompiledPlan c' = true →
      c'.schemaVersion ≠ PLAN_SCHEMA_VERSION →
      CompiledPlan.fromBytes (CompiledPlan.toBytes c') =
        .error (.schemaMismatch PLAN_SCHEMA_VERSION c'.schemaVersion)) := by
  have hmagic : ∀ c'' : CompiledPlan, wfCompiledPlan c'' = true →
      CompiledPlan.fromBytes (CompiledPlan.toBytes c'') =
        (if c''.schemaVersion ≠ PLAN_SCHEMA_VERSION then
          .error (.schemaMismatch PLAN_SCHEMA_VERSION c''.schemaVersion)
        else .ok c'') := by
    intro c'' hwf''
    unfold CompiledPlan.fromBytes CompiledPlan.toBytes
    rw [if_neg (by
      simp only [List.length_append]
      have : MAGIC.length = 4 := rfl
      omega)]
    rw [if_neg (by
      rw [List.take_left]
      simp)]
    rw [List.drop_left]
    rw [decCompiledPlan_enc c'' hwf'']
  refine ⟨?_, ?_, ?_, ?_⟩
  · rw [hmagic c hwf, if_neg (by simp [hver])]
  · show List.take MAGIC.length (MAGIC ++ encCompiledPlan c) = MAGIC
    exact List.take_left MAGIC (encCompiledPlan c)
  · intro bytes hb
    unfold CompiledPlan.fromBytes
    by_cases hlen : bytes.length < MAGIC.length
    · rw [if_pos hlen]
    · rw [if_neg hlen]
      rw [show (MAGIC.length : Nat) = 4 from rfl]
      rw [if_pos hb]
  · intro c' hwf' hver'
    rw [hmagic c' hwf', if_pos hver']

/-- C4 witness: a concrete single-op compiled plan at schema version 5
round-trips through `to_bytes`/`from_bytes`. -/
theorem compiledPlan_roundtrip_witness :
    wfCompiledPlan ⟨5, "abc", 7, 2,
      ⟨[Op.mk 0 (.print (.literal (.string "hi"))) [] Option.none
        Option.none], 1⟩, some ⟨some "f", Option.none⟩⟩ = true ∧
    (5 : Nat) = PLAN_SCHEMA_VERSION ∧
    (CompiledPlan.fromBytes (CompiledPlan.toBytes ⟨5, "abc", 7, 2,
        ⟨[Op.mk 0 (.print (.literal (.string "hi"))) [] Option.none
          Option.none], 1⟩, some ⟨some "f", Option.none⟩⟩) =
      .ok ⟨5, "abc", 7, 2,
        ⟨[Op.mk 0 (.print (.literal (.string "hi"))) [] Option.none
          Option.none], 1⟩, some ⟨some "f", Option.none⟩⟩) :=
  ⟨by simp +decide [wfCompiledPlan, wfStr, wfPlan, wfOpList, wfOp, wfOpKind,
      OpKind.operandRefs, wfVRList, wfVR, wfRV, wfKindExtras, wfSpan,
      wfOptVR, wfMetadata, strUtf8],
   rfl,
   (compiledPlan_roundtrip _ (by simp +decide [wfCompiledPlan, wfStr, wfPlan,
      wfOpList, wfOp, wfOpKind, OpKind.operandRefs, wfVRList, wfVR, wfRV,
      wfKindExtras, wfSpan, wfOptVR, wfMetadata, strUtf8]) rfl).1⟩

/-! ## C1: association-map primitives of the Kahn embedding -/

theorem find?_cons_pos {b : Type} (p : OpId × b → Bool) (e : OpId × b)
    (rest : List (OpId × b)) (h : p e = true) :
    (e :: rest).find? p = some e := List.find?_cons_of_pos rest h

theorem find?_cons_neg {b : Type} (p : OpId × b → Bool) (e : OpId × b)
    (rest : List (OpId × b)) (h : ¬ p e = true) :
    (e :: rest).find? p = rest.find? p := List.find?_cons_of_neg rest h

theorem imGet_key_some :
    ∀ (m : List (OpId × Nat)) (x : OpId), x ∈ m.map (·.1) →
      imGet m x = some (imVal m x) := by
  intro m
  induction m with
  | nil => intro x hx; cases hx
  | cons e rest ih =>
      intro x hx
      by_cases he : (e.1 == x) = true
      · unfold imVal imGet
        rw [find?_cons_pos (fun e => e.1 == x) _ _ he]
        rfl
      · have hx' : x ∈ rest.map (·.1) := by
          rcases List.mem_map.mp hx with ⟨y, hy, hyx⟩
          rcases List.mem_cons.mp hy with rfl | hy2
          · exact absurd (by simp [hyx]) he
          · exact List.mem_map.mpr ⟨y, hy2, hyx⟩
        unfold imVal imGet
        rw [find?_cons_neg (fun e => e.1 == x) _ _ he]
        exact ih x hx'

theorem imGet_of_mem :
    ∀ (m : List (OpId × Nat)), (m.map (·.1)).Nodup →
      ∀ k v, (k, v) ∈ m → imGet m k = some v := by
  intro m
  induction m with
  | nil => intro _ k v h; cases h
  | cons e rest ih =>
      intro hnod k v hmem
      simp only [List.map_cons, List.nodup_cons] at hnod
      rcases List.mem_cons.mp hmem with heq | hmem2
      · cases heq
        unfold imGet
        rw [find?_cons_pos (fun e => e.1 == k) _ _ (by simp)]
        rfl
      · have hk : k ∈ rest.map (·.1) := List.mem_map.mpr ⟨(k, v), hmem2, rfl⟩
        have hne : ¬ ((fun e : OpId × Nat => e.1 == k) e = true) := by
          intro habs
          have h2 : e.1 = k := by simpa using habs
          exact hnod.1 (h2 ▸ hk)
        unfold imGet
        rw [find?_cons_neg (fun e => e.1 == k) _ _ hne]
        exact ih hnod.2 k v hmem2

theorem mem_of_imGet_some :
    ∀ (m : List (OpId × Nat)) (k : OpId) (v : Nat),
      imGet m k = some v → (k, v) ∈ m := by
  intro m
  induction m with
  | nil => intro k v h; cases h
  | cons e rest ih =>
      intro k v h
      unfold imGet at h
      by_cases he : ((fun e : OpId × Nat => e.1 == k) e) = true
      · rw [find?_cons_pos (fun e => e.1 == k) _ _ he] at h
        simp only [Option.map_some'] at h
        have h1 : e.1 = k := by simpa using he
        have h2 : e.2 = v := Option.some.inj h
        exact List.mem_cons.mpr (Or.inl (by cases e; simp_all))
      · rw [find?_cons_neg (fun e => e.1 == k) _ _ he] at h
        exact List.mem_cons_of_mem _ (ih k v h)

/-- Updating the entries with one key via a key-preserving map: effect on
lookups. -/
theorem find?_map_update {b : Type} (g : b → b) (k : OpId) :
    ∀ (m : List (OpId × b)) (x : OpId),
      (m.map (fun e => if e.1 == k then (e.1, g e.2) else e)).find?
          (fun e => e.1 == x) =
        (if x = k then (m.find? (fun e => e.1 == x)).map
            (fun e => (e.1, g e.2))
        else m.find? (fun e => e.1 == x)) := by
  intro m
  induction m with
  | nil => intro x; by_cases hx : x = k <;> simp [hx]
  | cons e rest ih =>
      intro x
      have hkey : (if e.1 == k then (e.1, g e.2) else e).1 = e.1 := by
        by_cases hek : (e.1 == k) = true
        · rw [if_pos hek]
        · rw [if_neg hek]
      by_cases hex : ((fun en : OpId × b => en.1 == x) e) = true
      · have hex2 : ((fun en : OpId × b => en.1 == x)
            (if e.1 == k then (e.1, g e.2) else e)) = true := by
          show ((if e.1 == k then (e.1, g e.2) else e).1 == x) = true
          rw [hkey]
          exact hex
        rw [List.map_cons,
          find?_cons_pos (fun en => en.1 == x) _ _ hex2,
          find?_cons_pos (fun en => en.1 == x) _ _ hex]
        have hex' : e.1 = x := by simpa using hex
        by_cases hxk : x = k
        · rw [if_pos hxk, if_pos (show (e.1 == k) = true by simp [hex', hxk]),
            Option.map_some']
        · rw [if_neg hxk, if_neg (show ¬ (e.1 == k) = true by simp [hex', hxk])]
      · have hex2 : ¬ ((fun en : OpId × b => en.1 == x)
            (if e.1 == k then (e.1, g e.2) else e)) = true := by
          show ¬ ((if e.1 == k then (e.1, g e.2) else e).1 == x) = true
          rw [hkey]
          exact hex
        rw [List.map_cons,
          find?_cons_neg (fun en => en.1 == x) _ _ hex2,
          find?_cons_neg (fun en => en.1 == x) _ _ hex,
          ih x]

theorem find?_append_assoc {b : Type} (m1 m2 : List (OpId × b))
    (p : OpId × b → Bool) :
    (m1 ++ m2).find? p =
      match m1.find? p with
      | some e => some e
      | Option.none => m2.find? p := by
  induction m1 with
  | nil => simp
  | cons e rest ih =>
      by_cases he : p e = true
      · rw [List.cons_append, find?_cons_pos p _ _ he, find?_cons_pos p _ _ he]
      · rw [List.cons_append, find?_cons_neg p _ _ he, find?_cons_neg p _ _ he,
          ih]

theorem keys_map_update {b : Type} (g : b → b) (k : OpId)
    (m : List (OpId × b)) :
    (m.map (fun e => if e.1 == k then (e.1, g e.2) else e)).map (·.1) =
      m.map (·.1) := by
  induction m with
  | nil => rfl
  | cons e rest ih =>
      by_cases hek : (e.1 == k) = true
      · simp only [List.map_cons, if_pos hek, ih]
      · simp only [List.map_cons, if_neg hek, ih]

theorem imEntryOr_absent (m : List (OpId × Nat)) (k : OpId) (d : Nat)
    (h : k ∉ m.map (·.1)) : imEntryOr m k d = m ++ [(k, d)] := by
  unfold imEntryOr
  rw [if_neg]
  intro habs
  rcases List.any_eq_true.mp habs with ⟨e, he, hek⟩
  exact h (List.mem_map.mpr ⟨e, he, by simpa using hek⟩)

theorem imEntryOr_present (m : List (OpId × Nat)) (k : OpId) (d : Nat)
    (h : k ∈ m.map (·.1)) : imEntryOr m k d = m := by
  unfold imEntryOr
  rw [if_pos]
  rcases List.mem_map.mp h with ⟨e, he, hek⟩
  exact List.any_eq_true.mpr ⟨e, he, by simp [hek]⟩

theorem imGet_append_single_self (m : List (OpId × Nat)) (k : OpId) (d : Nat)
    (h : k ∉ m.map (·.1)) : imGet (m ++ [(k, d)]) k = some d := by
  unfold imGet
  rw [find?_append_assoc]
  have hnone : m.find? (fun e => e.1 == k) = Option.none := by
    rw [List.find?_eq_none]
    intro e he habs
    exact h (List.mem_map.mpr ⟨e, he, by simpa using habs⟩)
  rw [hnone]
  dsimp only
  rw [find?_cons_pos (fun e => e.1 == k) _ _ (by simp)]
  rfl

theorem imGet_append_single_other (m : List (OpId × Nat)) (k : OpId)
    (d : Nat) (x : OpId) (hx : x ≠ k) :
    imGet (m ++ [(k, d)]) x = imGet m x := by
  unfold imGet
  rw [find?_append_assoc]
  cases hm : m.find? (fun e => e.1 == x) with
  | none =>
      dsimp only
      rw [find?_cons_neg (fun e => e.1 == x) _ _ (by
        intro habs
        have h2 : (k, d).1 = x := by simpa using habs
        exact hx h2.symm)]
      rfl
  | some e => rfl

theorem imBump_present (m : List (OpId × Nat)) (k : OpId)
    (hk : k ∈ m.map (·.1)) :
    (imBump m k).map (·.1) = m.map (·.1) ∧
    imGet (imBump m k) k = (imGet m k).map (· + 1) ∧
    (∀ x, x ≠ k → imGet (imBump m k) x = imGet m x) := by
  unfold imBump
  rw [imEntryOr_present m k 0 hk]
  refine ⟨keys_map_update _ _ _, ?_, ?_⟩
  · unfold imGet
    rw [find?_map_update (fun v => v + 1) k m k, if_pos rfl]
    cases m.find? (fun e => e.1 == k) <;> rfl
  · intro x hx
    unfold imGet
    rw [find?_map_update (fun v => v + 1) k m x, if_neg hx]

/-- `kahnDecr` in closed form. -/
theorem kahnDecr_spec (deg : List (OpId × Nat)) (next : List OpId)
    (dep : OpId) :
    kahnDecr deg next dep =
      (deg.map (fun e => if e.1 == dep then (e.1, e.2 - 1) else e),
       if imVal deg dep = 1 then next ++ [dep] else next) := by
  unfold kahnDecr imVal
  by_cases h : ((imGet deg dep).getD 0 == 1) = true
  · rw [if_pos h, if_pos (by simpa using h)]
  · rw [if_neg h, if_neg (by simpa using h)]

theorem imVal_decrement (deg : List (OpId × Nat)) (ev : OpId) (x : OpId) :
    imVal (deg.map (fun en => if en.1 == ev then (en.1, en.2 - 1) else en)) x
      = (if x = ev then imVal deg x - 1 else imVal deg x) := by
  unfold imVal imGet
  rw [find?_map_update (fun v => v - 1) ev deg x]
  by_cases hx : x = ev
  · rw [if_pos hx, if_pos hx]
    cases deg.find? (fun en => en.1 == x) <;> rfl
  · rw [if_neg hx, if_neg hx]

/-- Core accounting of a decrement-event fold: keys are preserved, each
key loses its event count, and the appended `next` suffix is exactly the
set of keys whose positive degree is consumed entirely. -/
theorem kahnEv_fold :
    ∀ (E : List OpId) (deg : List (OpId × Nat)) (next : List OpId),
      (∀ x, E.count x ≤ imVal deg x) →
      ∃ delta : List OpId,
        (E.foldl kahnEv (deg, next)).2 = next ++ delta ∧
        delta.Nodup ∧
        (∀ x, x ∈ delta ↔ (0 < imVal deg x ∧ E.count x = imVal deg x)) ∧
        (E.foldl kahnEv (deg, next)).1.map (·.1) = deg.map (·.1) ∧
        (∀ x, imVal (E.foldl kahnEv (deg, next)).1 x =
          imVal deg x - E.count x) := by
  intro E
  induction E with
  | nil =>
      intro deg next _
      refine ⟨[], by simp, List.nodup_nil, ?_, rfl, ?_⟩
      · intro x
        constructor
        · intro h
          cases h
        · intro h
          rw [List.count_nil] at h
          omega
      · intro x
        simp
  | cons ev E ih =>
      intro deg next hle
      rw [List.foldl_cons]
      have hve : 1 ≤ imVal deg ev := by
        have h := hle ev
        simp [List.count_cons] at h
        omega
      set deg1 := deg.map (fun en => if en.1 == ev then (en.1, en.2 - 1) else en)
        with hdeg1
      have hval1 : ∀ x, imVal deg1 x =
          (if x = ev then imVal deg x - 1 else imVal deg x) := by
        intro x
        rw [hdeg1]
        exact imVal_decrement deg ev x
      have hkeys1 : deg1.map (·.1) = deg.map (·.1) := by
        rw [hdeg1]
        exact keys_map_update (fun v => v - 1) ev deg
      have hle1 : ∀ x, E.count x ≤ imVal deg1 x := by
        intro x
        have hx := hle x
        rw [hval1]
        by_cases hxe : x = ev
        · rw [if_pos hxe]
          subst hxe
          simp [List.count_cons] at hx
          omega
        · rw [if_neg hxe]
          simp [List.count_cons, hxe] at hx
          omega
      by_cases hv1 : imVal deg ev = 1
      · have hstep : kahnEv (deg, next) ev = (deg1, next ++ [ev]) := by
          show kahnDecr deg next ev = _
          rw [kahnDecr_spec, if_pos hv1, hdeg1]
        rw [hstep]
        obtain ⟨delta, hd1, hd2, hd3, hd4, hd5⟩ := ih deg1 (next ++ [ev]) hle1
        have hcne : E.count ev = 0 := by
          have h := hle1 ev
          rw [hval1] at h
          simp [hv1] at h
          omega
        refine ⟨ev :: delta, ?_, ?_, ?_, ?_, ?_⟩
        · rw [hd1, List.append_assoc]
          rfl
        · refine List.nodup_cons.mpr ⟨?_, hd2⟩
          intro habs
          have h := (hd3 ev).mp habs
          rw [hval1] at h
          simp [hv1] at h
        · intro x
          by_cases hxe : x = ev
          · subst hxe
            simp only [List.mem_cons, true_or, true_iff]
            refine ⟨by omega, ?_⟩
            simp [List.count_cons, hcne, hv1]
          · simp only [List.mem_cons, hxe, false_or]
            rw [hd3 x, hval1, if_neg hxe]
            have : (ev :: E).count x = E.count x := by
              simp [List.count_cons, hxe]
            rw [this]
        · rw [hd4, hkeys1]
        · intro x
          rw [hd5 x, hval1]
          by_cases hxe : x = ev
          · subst hxe
            rw [if_pos rfl]
            simp [List.count_cons]
            omega
          · rw [if_neg hxe]
            have : (ev :: E).count x = E.count x := by
              simp [List.count_cons, hxe]
            rw [this]
      · have hstep : kahnEv (deg, next) ev = (deg1, next) := by
          show kahnDecr deg next ev = _
          rw [kahnDecr_spec, if_neg hv1, hdeg1]
        rw [hstep]
        obtain ⟨delta, hd1, hd2, hd3, hd4, hd5⟩ := ih deg1 next hle1
        refine ⟨delta, hd1, hd2, ?_, ?_, ?_⟩
        · intro x
          by_cases hxe : x = ev
          · subst hxe
            rw [hd3 x, hval1, if_pos rfl]
            constructor
            · rintro ⟨h1, h2⟩
              refine ⟨by omega, ?_⟩
              simp [List.count_cons]
              omega
            · rintro ⟨h1, h2⟩
              simp [List.count_cons] at h2
              exact ⟨by omega, by omega⟩
          · rw [hd3 x, hval1, if_neg hxe]
            have : (ev :: E).count x = E.count x := by
              simp [List.count_cons, hxe]
            rw [this]
        · rw [hd4, hkeys1]
        · intro x
          rw [hd5 x, hval1]
          by_cases hxe : x = ev
          · subst hxe
            rw [if_pos rfl]
            simp [List.count_cons]
            omega
          · rw [if_neg hxe]
            have : (ev :: E).count x = E.count x := by
              simp [List.count_cons, hxe]
            rw [this]

theorem depGet_depPush (d : List (OpId × List OpId)) (k : OpId) (v : OpId)
    (x : OpId) :
    (depGet (depPush d k v) x).getD [] =
      (if x = k then (depGet d x).getD [] ++ [v]
       else (depGet d x).getD []) := by
  unfold depPush
  by_cases hp : d.any (fun e => e.1 == k) = true
  · rw [if_pos hp]
    unfold depGet
    rw [find?_map_update (fun l => l ++ [v]) k d x]
    by_cases hx : x = k
    · rw [if_pos hx, if_pos hx]
      subst hx
      cases hfind : d.find? (fun e => e.1 == x) with
      | none =>
          exfalso
          rcases List.any_eq_true.mp hp with ⟨e, he, hek⟩
          exact List.find?_eq_none.mp hfind e he hek
      | some e => rfl
    · rw [if_neg hx, if_neg hx]
  · rw [if_neg hp]
    by_cases hx : x = k
    · rw [if_pos hx]
      subst hx
      have hnone : d.find? (fun e => e.1 == x) = Option.none := by
        rw [List.find?_eq_none]
        intro e he habs
        exact hp (List.any_eq_true.mpr ⟨e, he, habs⟩)
      unfold depGet
      rw [find?_append_assoc, hnone]
      dsimp only
      rw [find?_cons_pos (fun e => e.1 == x) _ _ (by simp)]
      rfl
    · rw [if_neg hx]
      unfold depGet
      rw [find?_append_assoc]
      cases hfind : d.find? (fun e => e.1 == x) with
      | none =>
          dsimp only
          rw [find?_cons_neg (fun e => e.1 == x) _ _ (by
            intro habs
            have h2 : (k, [v]).1 = x := by simpa using habs
            exact hx h2.symm)]
          rfl
      | some e => rfl

theorem buildDegrees_eq (ops : List Op) :
    buildDegrees ops = ops.foldl bdStep ([], []) := rfl

theorem planIds_append (l1 l2 : List Op) :
    planIds (l1 ++ l2) = planIds l1 ++ planIds l2 := List.map_append _ _ _

theorem depExpected_append (l1 l2 : List Op) (k : OpId) :
    depExpected (l1 ++ l2) k = depExpected l1 k ++ depExpected l2 k := by
  unfold depExpected
  rw [List.flatMap_append]

theorem bdInner_fold :
    ∀ (inputs : List OpId) (m : List (OpId × Nat))
      (d : List (OpId × List OpId)) (opid : OpId) (v : Nat),
      imGet m opid = some v →
      ((inputs.foldl (bdInner opid) (m, d)).1.map (·.1) = m.map (·.1)) ∧
      imGet (inputs.foldl (bdInner opid) (m, d)).1 opid =
        some (v + inputs.length) ∧
      (∀ x, x ≠ opid →
        imGet (inputs.foldl (bdInner opid) (m, d)).1 x = imGet m x) ∧
      (∀ k, (depGet (inputs.foldl (bdInner opid) (m, d)).2 k).getD [] =
        (depGet d k).getD [] ++ List.replicate (inputs.count k) opid) := by
  intro inputs
  induction inputs with
  | nil =>
      intro m d opid v hv
      refine ⟨rfl, by simpa using hv, fun x _ => rfl, fun k => by simp⟩
  | cons a rest ih =>
      intro m d opid v hv
      rw [List.foldl_cons]
      have hkm : opid ∈ m.map (·.1) :=
        List.mem_map.mpr ⟨(opid, v), mem_of_imGet_some m opid v hv, rfl⟩
      obtain ⟨hb1, hb2, hb3⟩ := imBump_present m opid hkm
      have hv1 : imGet (imBump m opid) opid = some (v + 1) := by
        rw [hb2, hv]
        rfl
      have hstep : bdInner opid (m, d) a = (imBump m opid, depPush d a opid) :=
        rfl
      obtain ⟨ih1, ih2, ih3, ih4⟩ :=
        ih (imBump m opid) (depPush d a opid) opid (v + 1) hv1
      refine ⟨?_, ?_, ?_, ?_⟩
      · rw [hstep, ih1, hb1]
      · rw [hstep, ih2]
        congr 1
        simp only [List.length_cons]
        omega
      · intro x hx
        rw [hstep, ih3 x hx, hb3 x hx]
      · intro k
        rw [hstep, ih4 k, depGet_depPush d a opid k]
        by_cases hk : k = a
        · rw [if_pos hk]
          subst hk
          rw [List.append_assoc]
          congr 1
          have hc : (k :: rest).count k = rest.count k + 1 := by
            simp [List.count_cons]
          rw [hc, List.replicate_succ]
          rfl
        · rw [if_neg hk]
          have hc : (a :: rest).count k = rest.count k := by
            simp [List.count_cons, hk]
          rw [hc]

theorem bdStep_fold :
    ∀ (rest done : List Op) (m : List (OpId × Nat))
      (d : List (OpId × List OpId)),
      (planIds (done ++ rest)).Nodup →
      m.map (·.1) = planIds done →
      (∀ op ∈ done, imGet m op.id = some op.inputs.length) →
      (∀ k, (depGet d k).getD [] = depExpected done k) →
      ((rest.foldl bdStep (m, d)).1.map (·.1) = planIds (done ++ rest)) ∧
      (∀ op ∈ done ++ rest, imGet (rest.foldl bdStep (m, d)).1 op.id =
        some op.inputs.length) ∧
      (∀ k, (depGet (rest.foldl bdStep (m, d)).2 k).getD [] =
        depExpected (done ++ rest) k) := by
  intro rest
  induction rest with
  | nil =>
      intro done m d hnod hkeys hvals hdep
      rw [List.append_nil]
      exact ⟨hkeys, hvals, hdep⟩
  | cons op rest ih =>
      intro done m d hnod hkeys hvals hdep
      rw [List.foldl_cons]
      have hsplit : done ++ op :: rest = (done ++ [op]) ++ rest := by
        rw [List.append_assoc]
        rfl
      have hidnew : op.id ∉ m.map (·.1) := by
        rw [hkeys]
        intro habs
        rw [hsplit, planIds_append] at hnod
        have h2 : op.id ∈ planIds (done ++ [op]) := by
          rw [planIds_append]
          exact List.mem_append_right _ (by simp [planIds])
        have h3 := (List.nodup_append.mp hnod).1
        rw [planIds_append] at h3
        have h4 := List.nodup_append.mp h3
        exact h4.2.2 habs (by simp [planIds])
      have hentry : imEntryOr m op.id 0 = m ++ [(op.id, 0)] :=
        imEntryOr_absent m op.id 0 hidnew
      have hget0 : imGet (m ++ [(op.id, 0)]) op.id = some 0 :=
        imGet_append_single_self m op.id 0 hidnew
      have hstep : bdStep (m, d) op =
          op.inputs.foldl (bdInner op.id) (m ++ [(op.id, 0)], d) := by
        unfold bdStep
        rw [hentry]
      obtain ⟨hf1, hf2, hf3, hf4⟩ :=
        bdInner_fold op.inputs (m ++ [(op.id, 0)]) d op.id 0 hget0
      have hkeys' :
          (op.inputs.foldl (bdInner op.id) (m ++ [(op.id, 0)], d)).1.map (·.1)
            = planIds (done ++ [op]) := by
        rw [hf1, List.map_append, hkeys, planIds_append]
        rfl
      have hvals' : ∀ op' ∈ done ++ [op],
          imGet (op.inputs.foldl (bdInner op.id) (m ++ [(op.id, 0)], d)).1
            op'.id = some op'.inputs.length := by
        intro op' hmem'
        rcases List.mem_append.mp hmem' with hmem2 | hmem2
        · have hne : op'.id ≠ op.id := by
            intro habs
            apply hidnew
            rw [hkeys]
            exact habs ▸ List.mem_map.mpr ⟨op', hmem2, rfl⟩
          rw [hf3 op'.id hne,
            imGet_append_single_other m op.id 0 op'.id hne]
          exact hvals op' hmem2
        · have : op' = op := by simpa using hmem2
          subst this
          rw [hf2]
          congr 1
          omega
      have hdep' : ∀ k,
          (depGet (op.inputs.foldl (bdInner op.id) (m ++ [(op.id, 0)], d)).2
            k).getD [] = depExpected (done ++ [op]) k := by
        intro k
        rw [hf4 k, hdep k, depExpected_append]
        congr 1
        unfold depExpected
        simp
      have hnod' : (planIds ((done ++ [op]) ++ rest)).Nodup := by
        rw [← hsplit]
        exact hnod
      obtain ⟨hr1, hr2, hr3⟩ := ih (done ++ [op]) _ _ hnod' hkeys' hvals' hdep'
      rw [hstep]
      refine ⟨?_, ?_, ?_⟩
      · rw [hr1, ← hsplit]
      · intro op' hmem'
        apply hr2
        rw [← hsplit]
        exact hmem'
      · intro k
        rw [hr3 k, ← hsplit]

theorem buildDegrees_spec (ops : List Op) (hnod : (planIds ops).Nodup) :
    ((buildDegrees ops).1.map (·.1) = planIds ops) ∧
    (∀ op ∈ ops, imGet (buildDegrees ops).1 op.id =
      some op.inputs.length) ∧
    (∀ k, (depGet (buildDegrees ops).2 k).getD [] = depExpected ops k) := by
  rw [buildDegrees_eq]
  have h := bdStep_fold ops [] [] [] (by simpa using hnod) rfl
    (by intro op hmem; cases hmem) (by intro k; rfl)
  simpa using h

theorem contains_mem (l : List OpId) (a : OpId) :
    l.contains a = true ↔ a ∈ l := by simp

theorem kahnStep_eq (dependents : List (OpId × List OpId))
    (deg : List (OpId × Nat)) (cur : List OpId) :
    kahnStep dependents deg cur =
      cur.foldl (kahnIdStep dependents) (deg, []) := rfl

theorem kahnIdStep_eq (dependents : List (OpId × List OpId))
    (acc : List (OpId × Nat) × List OpId) (id : OpId) :
    kahnIdStep dependents acc id =
      ((depGet dependents id).getD []).foldl kahnEv acc := by
  unfold kahnIdStep
  cases depGet dependents id <;> rfl

theorem foldl_kahnEvents (dependents : List (OpId × List OpId)) :
    ∀ (cur : List OpId) (acc : List (OpId × Nat) × List OpId),
      cur.foldl (kahnIdStep dependents) acc =
        (kahnEvents dependents cur).foldl kahnEv acc := by
  intro cur
  induction cur with
  | nil => intro acc; rfl
  | cons id rest ih =>
      intro acc
      rw [List.foldl_cons, kahnIdStep_eq, ih]
      unfold kahnEvents
      rw [List.flatMap_cons, List.foldl_append]

theorem depExpected_subset (ops : List Op) (k : OpId) :
    ∀ x ∈ depExpected ops k, x ∈ planIds ops := by
  intro x hx
  unfold depExpected at hx
  rcases List.mem_flatMap.mp hx with ⟨op, hop, hrep⟩
  have : x = op.id := List.eq_of_mem_replicate hrep
  exact this ▸ List.mem_map.mpr ⟨op, hop, rfl⟩

theorem depExpected_count_mem :
    ∀ (ops : List Op), (planIds ops).Nodup → ∀ op ∈ ops, ∀ k,
      (depExpected ops k).count op.id = op.inputs.count k := by
  intro ops
  induction ops with
  | nil => intro _ op hop; cases hop
  | cons o rest ih =>
      intro hnod op hop k
      have hnodsplit : (∀ x ∈ rest, ¬ x.id = o.id) ∧
          (List.map Op.id rest).Nodup := by
        simpa [planIds] using hnod
      have hnod2 : (planIds rest).Nodup := hnodsplit.2
      have hnotin : o.id ∉ planIds rest := by
        intro habs
        rcases List.mem_map.mp habs with ⟨x, hx, hxid⟩
        exact hnodsplit.1 x hx hxid
      unfold depExpected
      rw [List.flatMap_cons, List.count_append]
      rcases List.mem_cons.mp hop with rfl | hop2
      · have h1 : (List.replicate (op.inputs.count k) op.id).count op.id =
            op.inputs.count k := by simp
        have h2 : (depExpected rest k).count op.id = 0 := by
          apply List.count_eq_zero_of_not_mem
          intro habs
          exact hnotin (depExpected_subset rest k op.id habs)
        unfold depExpected at h2
        rw [h1, h2]
        omega
      · have hne : op.id ≠ o.id := by
          intro habs
          exact hnotin (habs ▸ List.mem_map.mpr ⟨op, hop2, rfl⟩)
        have h1 : (List.replicate (o.inputs.count k) o.id).count op.id = 0 := by
          apply List.count_eq_zero_of_not_mem
          intro habs
          exact hne (List.eq_of_mem_replicate habs)
        have h2 := ih hnod2 op hop2 k
        unfold depExpected at h2
        rw [h1, h2]
        omega

theorem depExpected_count_not_mem (ops : List Op) (k : OpId) (x : OpId)
    (hx : x ∉ planIds ops) : (depExpected ops k).count x = 0 := by
  apply List.count_eq_zero_of_not_mem
  intro habs
  exact hx (depExpected_subset ops k x habs)

theorem count_flatMap (f : OpId → List OpId) (x : OpId) :
    ∀ (C : List OpId),
      (C.flatMap f).count x = (C.map (fun id => (f id).count x)).sum := by
  intro C
  induction C with
  | nil => rfl
  | cons c rest ih =>
      rw [List.flatMap_cons, List.count_append, List.map_cons, List.sum_cons,
        ih]

theorem sum_count_shift (a : OpId) (rest : List OpId) :
    ∀ (C : List OpId),
      (C.map (fun id => (a :: rest).count id)).sum =
        (C.map (fun id => rest.count id)).sum + C.count a := by
  intro C
  induction C with
  | nil => rfl
  | cons c C ih =>
      rw [List.map_cons, List.sum_cons, List.map_cons, List.sum_cons, ih]
      have h1 : (a :: rest).count c = rest.count c +
          (if c = a then 1 else 0) := by
        by_cases h : c = a <;> simp [List.count_cons, h]
      have h2 : (c :: C).count a = C.count a + (if c = a then 1 else 0) := by
        by_cases h : c = a
        · subst h
          simp [List.count_cons]
        · have hne : ¬ (a = c) := fun habs => h habs.symm
          simp [List.count_cons, h, hne]
      rw [h1, h2]
      omega

theorem sum_count_eq_countP :
    ∀ (inputs C : List OpId), C.Nodup →
      (C.map (fun id => inputs.count id)).sum =
        inputs.countP (fun a => C.contains a) := by
  intro inputs
  induction inputs with
  | nil =>
      intro C _
      have : ∀ (D : List OpId), (D.map (fun id => List.count id [])).sum = 0 := by
        intro D
        induction D with
        | nil => rfl
        | cons d D ihD => simpa using ihD
      rw [this C]
      rfl
  | cons a rest ih =>
      intro C hnod
      rw [sum_count_shift a rest C, ih C hnod, List.countP_cons]
      by_cases hmem : a ∈ C
      · have hc : C.count a = 1 := List.count_eq_one_of_mem hnod hmem
        have hcon : C.contains a = true := (contains_mem C a).mpr hmem
        rw [hc, hcon, if_pos rfl]
      · have hc : C.count a = 0 := List.count_eq_zero_of_not_mem hmem
        have hcon : C.contains a = false := by
          rw [← Bool.not_eq_true, contains_mem]
          exact hmem
        rw [hc, hcon, if_neg (by simp)]

theorem countP_split_scheduled (S C : List OpId)
    (hdisj : ∀ a ∈ C, a ∉ S) :
    ∀ (inputs : List OpId),
      inputs.countP (fun a => !(S ++ C).contains a) +
        inputs.countP (fun a => C.contains a) =
      inputs.countP (fun a => !S.contains a) := by
  intro inputs
  induction inputs with
  | nil => rfl
  | cons a rest ih =>
      rw [List.countP_cons, List.countP_cons, List.countP_cons]
      by_cases hc : a ∈ C
      · have h1 : (!(S ++ C).contains a) = false := by
          simp [List.mem_append, hc]
        have h2 : C.contains a = true := by
          simp [hc]
        have h3 : (!S.contains a) = true := by
          simp [hdisj a hc]
        rw [h1, h2, h3]
        simp only [show (if false = true then (1:Nat) else 0) = 0 from by simp,
          show (if true = true then (1:Nat) else 0) = 1 from by simp]
        omega
      · have h2 : C.contains a = false := by
          simp [hc]
        rw [h2]
        by_cases hs : a ∈ S
        · have h1 : (!(S ++ C).contains a) = false := by
            simp [List.mem_append, hs]
          have h3 : (!S.contains a) = false := by
            simp [hs]
          rw [h1, h3]
          simp only [show (if false = true then (1:Nat) else 0) = 0 from by simp,
            show (if true = true then (1:Nat) else 0) = 1 from by simp]
          omega
        · have h1 : (!(S ++ C).contains a) = true := by
            simp [List.mem_append, hs, hc]
          have h3 : (!S.contains a) = true := by
            simp [hs]
          rw [h1, h3]
          simp only [show (if false = true then (1:Nat) else 0) = 0 from by simp,
            show (if true = true then (1:Nat) else 0) = 1 from by simp]
          omega

theorem map_no_update {b : Type} (g : b → b) (ev : OpId) :
    ∀ (m : List (OpId × b)), (∀ e ∈ m, ¬ e.1 = ev) →
      m.map (fun en => if en.1 == ev then (en.1, g en.2) else en) = m := by
  intro m h
  induction m with
  | nil => rfl
  | cons e rest ih =>
      rw [List.map_cons, if_neg (by simp [h e (List.mem_cons_self e rest)]),
        ih (fun x hx => h x (List.mem_cons_of_mem e hx))]

theorem imVal_cons_ne (e : OpId × Nat) (rest : List (OpId × Nat)) (x : OpId)
    (h : ¬ e.1 = x) : imVal (e :: rest) x = imVal rest x := by
  unfold imVal imGet
  rw [find?_cons_neg (fun en => en.1 == x) _ _ (by simp [h])]

theorem imVal_cons_eq (e : OpId × Nat) (rest : List (OpId × Nat)) (x : OpId)
    (h : e.1 = x) : imVal (e :: rest) x = e.2 := by
  unfold imVal imGet
  rw [find?_cons_pos (fun en => en.1 == x) _ _ (by simp [h])]
  rfl

theorem totalDeg_decrement :
    ∀ (deg : List (OpId × Nat)) (ev : OpId),
      (deg.map (·.1)).Nodup → 1 ≤ imVal deg ev →
      totalDeg
        (deg.map (fun en => if en.1 == ev then (en.1, en.2 - 1) else en))
        + 1 = totalDeg deg := by
  intro deg
  induction deg with
  | nil =>
      intro ev _ hpos
      exfalso
      simp [imVal, imGet] at hpos
  | cons e rest ih =>
      intro ev hnod hpos
      simp only [List.map_cons, List.nodup_cons] at hnod
      by_cases he : e.1 = ev
      · rw [List.map_cons, if_pos (by simp [he])]
        have hrest : rest.map
            (fun en => if en.1 == ev then (en.1, en.2 - 1) else en) = rest :=
          map_no_update (fun v => v - 1) ev rest (fun x hx habs =>
            hnod.1 (List.mem_map.mpr ⟨x, hx, habs.trans he.symm⟩))
        have hv : imVal (e :: rest) ev = e.2 := imVal_cons_eq e rest ev he
        rw [hv] at hpos
        unfold totalDeg
        rw [hrest]
        simp only [List.map_cons, List.sum_cons]
        omega
      · rw [List.map_cons, if_neg (by simp [he])]
        have hval : imVal (e :: rest) ev = imVal rest ev :=
          imVal_cons_ne e rest ev he
        rw [hval] at hpos
        have hrec := ih ev hnod.2 hpos
        unfold totalDeg at hrec ⊢
        simp only [List.map_cons, List.sum_cons]
        omega

theorem kahnEv_fold_totalDeg :
    ∀ (E : List OpId) (deg : List (OpId × Nat)) (next : List OpId),
      (deg.map (·.1)).Nodup →
      (∀ x, E.count x ≤ imVal deg x) →
      totalDeg (E.foldl kahnEv (deg, next)).1 + E.length = totalDeg deg := by
  intro E
  induction E with
  | nil => intro deg next _ _; rfl
  | cons ev E ih =>
      intro deg next hnod hle
      rw [List.foldl_cons]
      have hpos : 1 ≤ imVal deg ev := by
        have h := hle ev
        simp [List.count_cons] at h
        omega
      set deg1 := deg.map
        (fun en => if en.1 == ev then (en.1, en.2 - 1) else en) with hdeg1
      have hkeys1 : deg1.map (·.1) = deg.map (·.1) := by
        rw [hdeg1]
        exact keys_map_update (fun v => v - 1) ev deg
      have hnod1 : (deg1.map (·.1)).Nodup := by
        rw [hkeys1]
        exact hnod
      have hle1 : ∀ x, E.count x ≤ imVal deg1 x := by
        intro x
        have hx := hle x
        rw [hdeg1, imVal_decrement]
        by_cases hxe : x = ev
        · rw [if_pos hxe]
          subst hxe
          simp [List.count_cons] at hx
          omega
        · rw [if_neg hxe]
          simp [List.count_cons, hxe] at hx
          omega
      have hstep : kahnEv (deg, next) ev =
          (deg1, if imVal deg ev = 1 then next ++ [ev] else next) := by
        show kahnDecr deg next ev = _
        rw [kahnDecr_spec, ← hdeg1]
      rw [hstep]
      have htd := totalDeg_decrement deg ev hnod hpos
      rw [← hdeg1] at htd
      have hrec := ih deg1
        (if imVal deg ev = 1 then next ++ [ev] else next) hnod1 hle1
      simp only [List.length_cons]
      omega

theorem imVal_of_imGet (deg : List (OpId × Nat)) (x : OpId) (v : Nat)
    (h : imGet deg x = some v) : imVal deg x = v := by
  unfold imVal
  rw [h]
  rfl

theorem imVal_pos_mem_keys (deg : List (OpId × Nat)) (x : OpId)
    (h : 0 < imVal deg x) : x ∈ deg.map (·.1) := by
  cases himg : imGet deg x with
  | none =>
      unfold imVal at h
      rw [himg] at h
      simp at h
  | some v =>
      exact List.mem_map.mpr ⟨(x, v), mem_of_imGet_some _ _ _ himg, rfl⟩

theorem countP_zero_of_sub (inputs S : List OpId)
    (h : ∀ a ∈ inputs, a ∈ S) :
    inputs.countP (fun a => !S.contains a) = 0 := by
  rw [List.countP_eq_zero]
  intro a ha
  simp [h a ha]

/-- The elimination loop of `compute_levels`, under the head invariant and
enough fuel, terminates by exhausting `current` and returns strictly
sorted levels that schedule plan ids without repetition, counting them in
`processed`, such that every unscheduled op keeps an unscheduled input
occurrence. -/
theorem kahnLoop_spec (ops : List Op) (hnod : (planIds ops).Nodup) :
    ∀ (fuel : Nat) (deg : List (OpId × Nat)) (current : List OpId)
      (levels : List (List OpId)) (processed : Nat),
      KahnInv ops deg current levels processed →
      totalDeg deg + current.length < fuel →
      ∃ levels' deg' processed',
        kahnLoop (buildDegrees ops).2 fuel deg current levels processed =
          (levels', deg', processed') ∧
        (∀ x ∈ levels'.flatten, x ∈ planIds ops) ∧
        levels'.flatten.Nodup ∧
        processed' = levels'.flatten.length ∧
        (∀ lvl ∈ levels', lvl.Sorted (· < ·)) ∧
        (∀ op ∈ ops, op.id ∉ levels'.flatten →
          op.inputs.countP (fun a => !levels'.flatten.contains a) ≠ 0) := by
  have hdepchar : ∀ k, (depGet (buildDegrees ops).2 k).getD [] =
      depExpected ops k := (buildDegrees_spec ops hnod).2.2
  intro fuel
  induction fuel with
  | zero =>
      intro deg current levels processed _ hf
      omega
  | succ f ih =>
      intro deg current levels processed hinv hfuel
      obtain ⟨hmem, hnodSC, hproc, hsort, hkeys, hvals, hclos, hpos⟩ := hinv
      by_cases hempty : current.isEmpty = true
      · have hcur : current = [] := by
          cases current with
          | nil => rfl
          | cons c cs => simp [List.isEmpty] at hempty
        subst hcur
        simp only [List.append_nil] at hmem hnodSC hclos hpos
        refine ⟨levels, deg, processed, ?_, hmem, hnodSC, hproc, hsort, hpos⟩
        simp [kahnLoop]
      · have hcne : current ≠ [] := by
          intro habs
          subst habs
          simp at hempty
        have hclen : 1 ≤ current.length := by
          cases current with
          | nil => exact absurd rfl hcne
          | cons c cs => simp
        set S := levels.flatten with hS
        set sorted := current.insertionSort (· ≤ ·) with hsorted
        have hperm : sorted.Perm current := List.perm_insertionSort _ _
        have hnodup_parts := List.nodup_append.mp hnodSC
        have hCnodup : current.Nodup := hnodup_parts.2.1
        have hsortednodup : sorted.Nodup := hperm.nodup_iff.mpr hCnodup
        have hdisjSC : ∀ a ∈ current, a ∉ S := by
          intro a ha hs
          exact hnodup_parts.2.2 hs ha
        have hCsub : ∀ x ∈ current, x ∈ planIds ops :=
          fun x hx => hmem x (List.mem_append_right _ hx)
        set E := kahnEvents (buildDegrees ops).2 sorted with hE
        have hEdec : ∀ x, E.count x =
            (sorted.map (fun id => (depExpected ops id).count x)).sum := by
          intro x
          rw [hE]
          unfold kahnEvents
          rw [count_flatMap]
          congr 1
          apply List.map_congr_left
          intro id _
          rw [hdepchar id]
        have hEcount : ∀ op ∈ ops, E.count op.id =
            op.inputs.countP (fun a => sorted.contains a) := by
          intro op hop
          rw [hEdec op.id]
          have hpt : ∀ id ∈ sorted, (depExpected ops id).count op.id =
              op.inputs.count id :=
            fun id _ => depExpected_count_mem ops hnod op hop id
          rw [List.map_congr_left hpt]
          exact sum_count_eq_countP op.inputs sorted hsortednodup
        have hEzero : ∀ x, x ∉ planIds ops → E.count x = 0 := by
          intro x hx
          rw [hEdec x]
          have hz : ∀ id ∈ sorted, (depExpected ops id).count x = 0 :=
            fun id _ => depExpected_count_not_mem ops id x hx
          rw [List.map_congr_left hz]
          simp
        have himval : ∀ op ∈ ops, imVal deg op.id =
            op.inputs.countP (fun a => !S.contains a) :=
          fun op hop => imVal_of_imGet _ _ _ (hvals op hop)
        have hEbound : ∀ x, E.count x ≤ imVal deg x := by
          intro x
          by_cases hx : x ∈ planIds ops
          · obtain ⟨op, hop, rfl⟩ := List.mem_map.mp hx
            rw [hEcount op hop, himval op hop]
            apply List.countP_mono_left
            intro a _ hpa
            have ha : a ∈ current := hperm.mem_iff.mp ((contains_mem _ _).mp hpa)
            simp [hdisjSC a ha]
          · rw [hEzero x hx]
            omega
        obtain ⟨delta, hd1, hd2, hd3, hd4, hd5⟩ := kahnEv_fold E deg [] hEbound
        set deg1 := (E.foldl kahnEv (deg, [])).1 with hdeg1
        have hdelta2 : (E.foldl kahnEv (deg, [])).2 = delta := by
          rw [hd1]
          rfl
        have hks : kahnStep (buildDegrees ops).2 deg sorted = (deg1, delta) := by
          rw [kahnStep_eq, foldl_kahnEvents, ← hE]
          exact Prod.ext rfl hdelta2
        have hkeys1 : deg1.map (·.1) = planIds ops := by
          rw [hdeg1, hd4, hkeys]
        have hdegnod : (deg.map (·.1)).Nodup := by
          rw [hkeys]
          exact hnod
        have htd := kahnEv_fold_totalDeg E deg [] hdegnod hEbound
        have hdeltaE : ∀ x ∈ delta, x ∈ E := by
          intro x hx
          have h := (hd3 x).mp hx
          apply List.count_pos_iff_mem.mp
          omega
        have hdlen : delta.length ≤ E.length :=
          (List.subperm_of_subset hd2 hdeltaE).length_le
        have hdeltaIds : ∀ x ∈ delta, x ∈ planIds ops := by
          intro x hx
          have h := (hd3 x).mp hx
          rw [← hkeys]
          exact imVal_pos_mem_keys deg x h.1
        have hdeltaNotSC : ∀ x ∈ delta, x ∉ S ++ current := by
          intro x hx habs
          have h := (hd3 x).mp hx
          obtain ⟨op, hop, rfl⟩ := List.mem_map.mp (hdeltaIds x hx)
          have hz : op.inputs.countP (fun a => !S.contains a) = 0 :=
            countP_zero_of_sub _ _ (hclos op hop habs)
          rw [himval op hop, hz] at h
          omega
        have hSsorted_perm : List.Perm (S ++ sorted) (S ++ current) :=
          List.Perm.append_left S hperm
        have hmemSsorted : ∀ x, x ∈ S ++ sorted ↔ x ∈ S ++ current :=
          fun x => hSsorted_perm.mem_iff
        have hflat : (levels ++ [sorted]).flatten = S ++ sorted := by
          rw [hS]
          simp
        have hsplitCount : ∀ (inputs : List OpId),
            inputs.countP (fun a => !(S ++ sorted).contains a) +
              inputs.countP (fun a => sorted.contains a) =
            inputs.countP (fun a => !S.contains a) := by
          intro inputs
          apply countP_split_scheduled
          intro a ha
          exact hdisjSC a (hperm.mem_iff.mp ha)
        have hinv' : KahnInv ops deg1 delta (levels ++ [sorted])
            (processed + current.length) := by
          refine ⟨?_, ?_, ?_, ?_, hkeys1, ?_, ?_, ?_⟩
          · intro x hx
            rw [hflat] at hx
            rcases List.mem_append.mp hx with hx2 | hx2
            · rcases List.mem_append.mp hx2 with hx3 | hx3
              · exact hmem x (List.mem_append_left _ hx3)
              · exact hCsub x (hperm.mem_iff.mp hx3)
            · exact hdeltaIds x hx2
          · rw [hflat]
            rw [List.nodup_append]
            refine ⟨hSsorted_perm.nodup_iff.mpr hnodSC, hd2, ?_⟩
            intro a ha hda
            exact hdeltaNotSC a hda ((hmemSsorted a).mp ha)
          · rw [hflat, List.length_append, hproc, hperm.length_eq]
          · intro lvl hlvl
            rcases List.mem_append.mp hlvl with h2 | h2
            · exact hsort lvl h2
            · have : lvl = sorted := by simpa using h2
              subst this
              exact (List.sorted_insertionSort _ _).lt_of_le hsortednodup
          · intro op hop
            rw [hflat]
            have hkey : op.id ∈ deg1.map (·.1) := by
              rw [hkeys1]
              exact List.mem_map.mpr ⟨op, hop, rfl⟩
            rw [imGet_key_some deg1 op.id hkey]
            congr 1
            rw [hdeg1, hd5, himval op hop, hEcount op hop]
            have := hsplitCount op.inputs
            omega
          · intro op hop hopin
            rw [hflat] at hopin ⊢
            intro a hain
            rcases List.mem_append.mp hopin with h2 | h2
            · have := hclos op hop ((hmemSsorted op.id).mp h2)
              exact List.mem_append_left _ (this a hain)
            · have h := (hd3 op.id).mp h2
              rw [himval op hop, hEcount op hop] at h
              have hz : op.inputs.countP
                  (fun x => !(S ++ sorted).contains x) = 0 := by
                have := hsplitCount op.inputs
                omega
              have h3 := List.countP_eq_zero.mp hz a hain
              rw [List.mem_append]
              by_cases hsmem : a ∈ S
              · exact Or.inl hsmem
              · right
                have h4 : a ∉ S → a ∈ sorted := by simpa using h3
                exact h4 hsmem
          · intro op hop hopout
            rw [hflat] at hopout ⊢
            intro habs
            have hnotSC : op.id ∉ S ++ current := by
              intro h2
              exact hopout (List.mem_append_left _ ((hmemSsorted op.id).mpr h2))
            have hnotd : op.id ∉ delta := by
              intro h2
              exact hopout (List.mem_append_right _ h2)
            have hold := hpos op hop hnotSC
            have := hsplitCount op.inputs
            apply hnotd
            rw [hd3 op.id, himval op hop, hEcount op hop]
            omega
        have hfuel' : totalDeg deg1 + delta.length < f := by
          rw [hdeg1]
          omega
        obtain ⟨levels', deg', processed', heq, hf1, hf2, hf3, hf4, hf5⟩ :=
          ih deg1 delta (levels ++ [sorted]) (processed + current.length)
            hinv' hfuel'
        refine ⟨levels', deg', processed', ?_, hf1, hf2, hf3, hf4, hf5⟩
        simp only [kahnLoop]
        rw [if_neg hempty, ← hsorted, hks]
        exact heq

/-- C1.  On a plan with distinct op ids whose inputs all reference present
ids and whose dependency graph is acyclic (every nonempty vertex subset
has a member with no in-edge from the subset — the finite form of
acyclicity), `compute_levels` succeeds, its levels' concatenation is a
permutation of the plan's op ids (every op in exactly one level, none
twice), and each level is strictly increasing in `OpId`. -/
theorem computeLevels_acyclic_partition (p : Plan)
    (hnodup : (planIds p.ops).Nodup)
    (hclosed : ∀ op ∈ p.ops, ∀ a ∈ op.inputs, a ∈ planIds p.ops)
    (hacyc : NoCycle p.ops) :
    ∃ levels, p.computeLevels = .ok levels ∧
      levels.flatten.Perm (planIds p.ops) ∧
      (∀ lvl ∈ levels, lvl.Sorted (· < ·)) := by
  obtain ⟨hbk, hbv, hbd⟩ := buildDegrees_spec p.ops hnodup
  have hkeysnod : ((buildDegrees p.ops).1.map (·.1)).Nodup := by
    rw [hbk]
    exact hnodup
  have hcursubl : List.Sublist
      (((buildDegrees p.ops).1.filter (fun e => e.2 == 0)).map (·.1))
      ((buildDegrees p.ops).1.map (·.1)) :=
    List.Sublist.map _ (List.filter_sublist _)
  have hcurnod :
      ((((buildDegrees p.ops).1.filter (fun e => e.2 == 0)).map (·.1))).Nodup :=
    hkeysnod.sublist hcursubl
  have hcursub : ∀ x ∈
      ((buildDegrees p.ops).1.filter (fun e => e.2 == 0)).map (·.1),
      x ∈ planIds p.ops := by
    intro x hx
    rw [← hbk]
    exact hcursubl.subset hx
  have hgetcur : ∀ op ∈ p.ops,
      (op.id ∈ ((buildDegrees p.ops).1.filter (fun e => e.2 == 0)).map (·.1) ↔
        op.inputs.length = 0) := by
    intro op hop
    constructor
    · intro hx
      rcases List.mem_map.mp hx with ⟨e, he, heid⟩
      have he2 := List.mem_filter.mp he
      have hg : imGet (buildDegrees p.ops).1 e.1 = some e.2 :=
        imGet_of_mem _ hkeysnod e.1 e.2 (by
          rw [Prod.mk.eta]
          exact he2.1)
      rw [heid] at hg
      have hg2 := hbv op hop
      rw [hg] at hg2
      have hv : e.2 = op.inputs.length := Option.some.inj hg2
      have hz : e.2 = 0 := by simpa using he2.2
      omega
    · intro hlen
      have hg := hbv op hop
      rw [hlen] at hg
      have hmem2 := mem_of_imGet_some _ _ _ hg
      exact List.mem_map.mpr
        ⟨(op.id, 0), List.mem_filter.mpr ⟨hmem2, by simp⟩, rfl⟩
  have hcountnil : ∀ (l : List OpId),
      l.countP
        (fun a => !(List.flatten ([] : List (List OpId))).contains a) =
      l.length := by
    intro l
    induction l with
    | nil => rfl
    | cons a t iht =>
        rw [List.countP_cons, iht]
        rfl
  have hinv0 : KahnInv p.ops (buildDegrees p.ops).1
      (((buildDegrees p.ops).1.filter (fun e => e.2 == 0)).map (·.1)) [] 0 := by
    refine ⟨?_, ?_, rfl, ?_, hbk, ?_, ?_, ?_⟩
    · intro x hx
      rw [List.flatten_nil, List.nil_append] at hx
      exact hcursub x hx
    · rw [List.flatten_nil, List.nil_append]
      exact hcurnod
    · intro lvl hlvl
      cases hlvl
    · intro op hop
      rw [hbv op hop, hcountnil op.inputs]
    · intro op hop hopin
      rw [List.flatten_nil, List.nil_append] at hopin
      intro a hain
      have hlen := (hgetcur op hop).mp hopin
      rw [List.length_eq_zero] at hlen
      rw [hlen] at hain
      cases hain
    · intro op hop hopout
      rw [List.flatten_nil, List.nil_append] at hopout
      rw [hcountnil op.inputs]
      intro habs
      exact hopout ((hgetcur op hop).mpr habs)
  obtain ⟨levels', deg', processed', heq, hf1, hf2, hf3, hf4, hf5⟩ :=
    kahnLoop_spec p.ops hnodup
      (totalDeg (buildDegrees p.ops).1 +
        ((((buildDegrees p.ops).1.filter (fun e => e.2 == 0)).map
          (·.1))).length + 1)
      (buildDegrees p.ops).1
      (((buildDegrees p.ops).1.filter (fun e => e.2 == 0)).map (·.1)) [] 0
      hinv0 (by omega)
  have hcomplete : ∀ x ∈ planIds p.ops, x ∈ levels'.flatten := by
    by_contra habs
    push_neg at habs
    obtain ⟨x0, hx0ids, hx0out⟩ := habs
    have hRiff : ∀ x,
        x ∈ (planIds p.ops).filter
            (fun x => !levels'.flatten.contains x) ↔
          (x ∈ planIds p.ops ∧ x ∉ levels'.flatten) := by
      intro x
      rw [List.mem_filter]
      constructor
      · rintro ⟨h1, h2⟩
        refine ⟨h1, ?_⟩
        simpa using h2
      · rintro ⟨h1, h2⟩
        refine ⟨h1, ?_⟩
        simpa using h2
    have hx0R : x0 ∈ (planIds p.ops).filter
        (fun x => !levels'.flatten.contains x) :=
      (hRiff x0).mpr ⟨hx0ids, hx0out⟩
    have hpow : ((planIds p.ops).filter
        (fun x => !levels'.flatten.contains x)).toFinset ∈
        (planIds p.ops).toFinset.powerset := by
      rw [Finset.mem_powerset]
      intro a ha
      rw [List.mem_toFinset] at ha ⊢
      exact ((hRiff a).mp ha).1
    have hne : ((planIds p.ops).filter
        (fun x => !levels'.flatten.contains x)).toFinset.Nonempty :=
      ⟨x0, List.mem_toFinset.mpr hx0R⟩
    obtain ⟨b, hbR, hb⟩ := hacyc _ hpow hne
    rw [List.mem_toFinset] at hbR
    obtain ⟨opb, hopb, rfl⟩ := List.mem_map.mp ((hRiff b).mp hbR).1
    have hout : opb.id ∉ levels'.flatten := ((hRiff opb.id).mp hbR).2
    have hcnt := hf5 opb hopb hout
    obtain ⟨a, hain, hana⟩ :=
      List.countP_pos.mp (Nat.pos_of_ne_zero hcnt)
    have haout : a ∉ levels'.flatten := by simpa using hana
    have haids : a ∈ planIds p.ops := hclosed opb hopb a hain
    have haR : a ∈ ((planIds p.ops).filter
        (fun x => !levels'.flatten.contains x)).toFinset :=
      List.mem_toFinset.mpr ((hRiff a).mpr ⟨haids, haout⟩)
    exact hb opb hopb rfl a hain haR
  have hperm : levels'.flatten.Perm (planIds p.ops) :=
    (List.perm_ext_iff_of_nodup hf2 hnodup).mpr
      (fun a => ⟨fun h => hf1 a h, fun h => hcomplete a h⟩)
  refine ⟨levels', ?_, hperm, hf4⟩
  have hlen : processed' = p.ops.length := by
    rw [hf3, hperm.length_eq]
    exact List.length_map _ _
  show Plan.computeLevels p = .ok levels'
  unfold Plan.computeLevels
  dsimp only
  rw [heq]
  dsimp only
  rw [if_pos hlen]

theorem computeLevels_acyclic_partition_witness :
    (planIds chain3Ops).Nodup ∧
    (∀ op ∈ chain3Ops, ∀ a ∈ op.inputs, a ∈ planIds chain3Ops) ∧
    NoCycle chain3Ops ∧
    (∃ levels, Plan.computeLevels ⟨chain3Ops, 3⟩ = .ok levels ∧
      levels.flatten.Perm (planIds chain3Ops) ∧
      (∀ lvl ∈ levels, lvl.Sorted (· < ·))) :=
  ⟨by decide, by decide, by decide,
   computeLevels_acyclic_partition ⟨chain3Ops, 3⟩ (by decide) (by decide)
     (by decide)⟩

end Blueprint
